import Mathlib

/-!
# jeap: the cache store and the request front end of `jeap.c`

A shallow embedding of `src/jeap.c` and the properties of it that are proved.

Modelling conventions.

* A byte is a `Nat` (its unsigned value).  A C string is the list of its bytes
  before the terminating NUL; a `char *` that may be `NULL` is an
  `Option (List Nat)`.
* A value buffer (`char *value` with its allocated block) is an
  `Option (List Nat)`: `none` is `NULL`, `some b` is a block whose bytes are `b`.
  Moving a pointer out of a job (`job->value = NULL`) sets the field to `none`;
  `free` has no counterpart.  Reads and writes outside a block are undefined in
  C and outside the model: the theorems that depend on buffer contents say which
  buffers hold `length` bytes.
* `time_t`, `int` are `Int`; `size_t`, `uint64_t`, `uint32_t` are `Nat` reduced
  modulo `2^64`, `2^64`, `2^32` wherever the C arithmetic can wrap.
* `time(NULL)` is a parameter `t` of every function that reads the clock.
* A bucket (`entry_t` sentinel with its circular doubly linked list) is the list
  of its items in `next` order starting at `e->next`; `htable` is a function from
  the bucket index to that list.  Bucket locks are not modelled: every handler
  runs atomically on its bucket.
* The section on linked nodes embeds the same handlers a second time, on nodes with
  `next` and `prev` pointers and with the `fatal` branches of `lookup`, `_unlink`
  and `insert`; `p_run_sim` shows that from `init` the two embeddings stay in step.
* In `handler` the hand-over of a job to a worker thread is the run of the worker's
  loop body on the job, `worker_run`.  The slot and the counters of `put_job`,
  `get_job` and `done_job` are a state machine of their own, `sched_t`, whose steps
  are the sections that run under the global lock.
-/

namespace Jeap

/-! ## Constants and types -/

def NWORKER : Nat := 0x4
def MAX_LENGTH : Nat := 0x1000
def HTABLE_SIZE : Nat := 0x1000

/-- The enumeration `cmd_t`, by its integer values. -/
abbrev cmd_t := Nat

def CMD_NONE : cmd_t := 0
def CMD_SET : cmd_t := 1
def CMD_ADD : cmd_t := 2
def CMD_REPLACE : cmd_t := 3
def CMD_APPEND : cmd_t := 4
def CMD_PREPEND : cmd_t := 5
def CMD_CAS : cmd_t := 6
def CMD_STORE : cmd_t := 7
def CMD_GET : cmd_t := 8
def CMD_GETS : cmd_t := CMD_GET
def CMD_DELETE : cmd_t := 9
def CMD_INCR : cmd_t := 10
def CMD_DECR : cmd_t := 11
def CMD_STAT : cmd_t := 12
def CMD_0OPS : cmd_t := 13
def CMD_MAX : cmd_t := 0x10

/-- The struct `job_s` without its condition variable and mutex. -/
structure job_t where
  id : Int
  flags : Int
  cmd : cmd_t
  noreply : Int
  key : Option (List Nat)
  value : Option (List Nat)
  error : Option String
  length : Nat
  exptime : Int
  casunique : Nat
  done : Int
  deriving DecidableEq, Repr

/-- The struct `item_s`; `next` and `prev` are the position in the bucket list. -/
structure item_t where
  key : Option (List Nat)
  value : Option (List Nat)
  length : Nat
  exptime : Int
  dead : Int
  flags : Int
  deriving DecidableEq, Repr

/-- The array `htable`: the item list of every bucket. -/
abbrev Store := Nat → List item_t

/-- Assignment to the list of bucket `h`. -/
def Store.put (st : Store) (h : Nat) (b : List item_t) : Store :=
  fun j => if j = h then b else st j

/-! ## Helpers of the source -/

/-- The function `hash`: a 32-bit accumulator `c = c * 31 + *a`, then `% HTABLE_SIZE`. -/
def hash (s : Option (List Nat)) : Nat :=
  match s with
  | none => 0
  | some a => (a.foldl (fun c b => (c * 31 + b) % 2 ^ 32) 0) % HTABLE_SIZE

/-- The function `_strdup`: a copy of the string, `NULL` for `NULL`. -/
def _strdup (s : Option (List Nat)) : Option (List Nat) :=
  match s with
  | none => none
  | some a => some a

/-- The libc `strcmp` up to the sign of its result. -/
def strcmp : List Nat → List Nat → Int
  | [], [] => 0
  | [], _ :: _ => -1
  | _ :: _, [] => 1
  | a :: as, b :: bs => if a = b then strcmp as bs else if a < b then -1 else 1

/-- The function `_strcmp`: `NULL` equals only `NULL`. -/
def _strcmp (s1 s2 : Option (List Nat)) : Int :=
  match s1, s2 with
  | some a, some b => strcmp a b
  | none, none => 0
  | _, _ => 1

/-- The libc `malloc`: a fresh block of `n` bytes.  Its bytes are unspecified in C
and zero here. -/
def malloc (n : Nat) : Option (List Nat) := some (List.replicate n 0)

/-- The libc `memcpy(&dest[off], src, n)` on the bytes of two blocks. -/
def memcpy (dest : List Nat) (off : Nat) (src : List Nat) (n : Nat) : List Nat :=
  dest.take off ++ src.take n ++ dest.drop (off + n)

/-- The function `_memcpy(&dest[off], src, n)`: nothing is copied when `n == 0` or
`src == NULL`.  A copy through a `NULL` destination faults in C; the model leaves
the destination `NULL`. -/
def _memcpy (dest : Option (List Nat)) (off : Nat) (src : Option (List Nat)) (n : Nat) :
    Option (List Nat) :=
  if n = 0 ∨ src = none then dest
  else
    match dest, src with
    | some d, some s => some (memcpy d off s n)
    | _, _ => dest

/-! ## The store -/

/-- The test `i->exptime && i->exptime < t` of `lookup`. -/
def expired (t : Int) (i : item_t) : Bool :=
  decide (i.exptime ≠ 0) && decide (i.exptime < t)

/-- The function `lookup`, one scan of the bucket list at clock `t`.  An expired
item is unlinked and the scan goes on; the scan stops at the first remaining item
whose key equals `k`.  The result is the kept items before the hit, and the hit
with the unscanned items behind it (`none` for `ret == NULL`). -/
def lookup (t : Int) (k : Option (List Nat)) :
    List item_t → List item_t × Option (item_t × List item_t)
  | [] => ([], none)
  | i :: rest =>
    if expired t i then lookup t k rest
    else if _strcmp i.key k = 0 then ([], some (i, rest))
    else (i :: (lookup t k rest).1, (lookup t k rest).2)

/-- The function `insert`: the item becomes the first one of the list. -/
def insert (e : List item_t) (i : item_t) : List item_t := i :: e

/-- The function `handle_set`. -/
def handle_set (t : Int) (st : Store) (job : job_t) : Store × job_t :=
  let h := hash job.key
  match lookup t job.key (st h) with
  | (pre, none) =>
    let i : item_t :=
      { key := _strdup job.key, value := job.value, length := job.length,
        exptime := job.exptime, dead := 0, flags := job.flags }
    (st.put h (insert pre i), { job with value := none })
  | (pre, some (i, post)) =>
    if job.length = i.length then
      (st.put h (pre ++ { i with value := _memcpy i.value 0 job.value i.length,
                                 exptime := job.exptime, dead := 0,
                                 flags := job.flags } :: post), job)
    else
      (st.put h (pre ++ { i with value := job.value, length := job.length,
                                 exptime := job.exptime, dead := 0,
                                 flags := job.flags } :: post),
        { job with value := none })

/-- The function `handle_add`. -/
def handle_add (t : Int) (st : Store) (job : job_t) : Store × job_t :=
  let h := hash job.key
  match lookup t job.key (st h) with
  | (pre, none) =>
    let i : item_t :=
      { key := _strdup job.key, value := job.value, length := job.length,
        exptime := job.exptime, dead := 0, flags := job.flags }
    (st.put h (insert pre i), { job with value := none })
  | (pre, some (i, post)) =>
    (st.put h (pre ++ i :: post), { job with error := some "EXISTS" })

/-- The function `handle_replace`. -/
def handle_replace (t : Int) (st : Store) (job : job_t) : Store × job_t :=
  let h := hash job.key
  match lookup t job.key (st h) with
  | (pre, none) => (st.put h pre, { job with error := some "NOT_FOUND" })
  | (pre, some (i, post)) =>
    if i.dead ≠ 0 then
      (st.put h (pre ++ i :: post), { job with error := some "NOT_FOUND" })
    else
      (st.put h (pre ++ { i with value := job.value, length := job.length } :: post),
        { job with value := none })

/-- The function `handle_append`. -/
def handle_append (t : Int) (st : Store) (job : job_t) : Store × job_t :=
  let h := hash job.key
  match lookup t job.key (st h) with
  | (pre, none) => (st.put h pre, { job with error := some "NOT_FOUND" })
  | (pre, some (i, post)) =>
    if i.dead ≠ 0 then
      (st.put h (pre ++ i :: post), { job with error := some "NOT_FOUND" })
    else if job.length ≠ 0 then
      let value := malloc ((job.length + i.length) % 2 ^ 64)
      if i.value = none then
        (st.put h (pre ++ i :: post), { job with error := some "NOT_STORED" })
      else
        let value := _memcpy value 0 i.value i.length
        let value := _memcpy value i.length job.value job.length
        (st.put h (pre ++ { i with value := value,
                                   length := (i.length + job.length) % 2 ^ 64 } :: post),
          job)
    else (st.put h (pre ++ i :: post), job)

/-- The function `handle_prepend`. -/
def handle_prepend (t : Int) (st : Store) (job : job_t) : Store × job_t :=
  let h := hash job.key
  match lookup t job.key (st h) with
  | (pre, none) => (st.put h pre, { job with error := some "NOT_FOUND" })
  | (pre, some (i, post)) =>
    if i.dead ≠ 0 then
      (st.put h (pre ++ i :: post), { job with error := some "NOT_FOUND" })
    else if job.length ≠ 0 then
      let value := malloc ((job.length + i.length) % 2 ^ 64)
      if i.value = none then
        (st.put h (pre ++ i :: post), { job with error := some "NOT_STORED" })
      else
        let value := _memcpy value 0 job.value job.length
        let value := _memcpy value job.length i.value i.length
        (st.put h (pre ++ { i with value := value,
                                   length := (i.length + job.length) % 2 ^ 64 } :: post),
          job)
    else (st.put h (pre ++ i :: post), job)

/-- The function `handle_get`. -/
def handle_get (t : Int) (st : Store) (job : job_t) : Store × job_t :=
  let h := hash job.key
  match lookup t job.key (st h) with
  | (pre, none) => (st.put h pre, { job with error := some "NOT_FOUND" })
  | (pre, some (i, post)) =>
    if i.dead ≠ 0 then
      (st.put h (pre ++ i :: post), { job with error := some "NOT_FOUND" })
    else
      (st.put h (pre ++ i :: post),
        { job with value := i.value, length := i.length, flags := i.flags })

/-- The function `handle_delete`. -/
def handle_delete (t : Int) (st : Store) (job : job_t) : Store × job_t :=
  let h := hash job.key
  match lookup t job.key (st h) with
  | (pre, none) => (st.put h pre, { job with error := some "NOT_FOUND" })
  | (pre, some (i, post)) =>
    if i.dead ≠ 0 ∧ job.exptime > i.exptime then
      (st.put h (pre ++ i :: post), { job with error := some "NOT_FOUND" })
    else
      (st.put h (pre ++ { i with dead := 1, exptime := job.exptime } :: post), job)

/-- The function `handle_stat`. -/
def handle_stat (st : Store) (job : job_t) : Store × job_t :=
  (st, { job with error := some "jeapcached v0.095" })

/-- The function `handle_0ops`, built without `DEBUG`. -/
def handle_0ops (st : Store) (job : job_t) : Store × job_t :=
  (st, { job with error := some "NO_BACKDOOR" })

/-- The bytes the front end sends for a fetched job: `sendn(1, job->value,
job->length)` writes the first `length` bytes behind `value`. -/
def job_bytes (job : job_t) : List Nat :=
  match job.value with
  | none => []
  | some b => b.take job.length

/-- The function `init`, the table part: every bucket is its sentinel alone. -/
def init : Store := fun _ => []

/-! ## The dispatch table and the worker -/

/-- The array `handlers` as `init` fills it; `none` is a `NULL` entry. -/
def handlers (cmd : cmd_t) : Option (Int → Store → job_t → Store × job_t) :=
  if cmd = CMD_SET then some handle_set
  else if cmd = CMD_ADD then some handle_add
  else if cmd = CMD_REPLACE then some handle_replace
  else if cmd = CMD_APPEND then some handle_append
  else if cmd = CMD_PREPEND then some handle_prepend
  else if cmd = CMD_GET then some handle_get
  else if cmd = CMD_DELETE then some handle_delete
  else if cmd = CMD_STAT then some (fun _ => handle_stat)
  else if cmd = CMD_0OPS then some (fun _ => handle_0ops)
  else none

/-- The body of the loop of `worker` for one job, at clock `t`: the dispatch, then
the completion mark of `done_job`. -/
def worker_run (t : Int) (st : Store) (job : job_t) : Store × job_t :=
  match handlers job.cmd with
  | none => (st, { job with error := some "NOT_IMPLEMENT", done := 1 })
  | some h => ((h t st job).1, { (h t st job).2 with done := 1 })

/-! ## The front end: `sscanf`, `parse_args`, `handler` -/

/-- The bytes of an ASCII text. -/
def bytes (s : String) : List Nat := s.toList.map Char.toNat

/-- The libc `isspace` in the C locale. -/
def isspace (c : Nat) : Bool := c == 32 || (decide (9 ≤ c) && decide (c ≤ 13))

/-- The libc `isdigit`. -/
def isdigit (c : Nat) : Bool := decide (48 ≤ c) && decide (c ≤ 57)

/-- The libc `tolower` on ASCII. -/
def tolower (c : Nat) : Nat := if 65 ≤ c ∧ c ≤ 90 then c + 32 else c

/-- The libc `strcasecmp` up to the sign of its result. -/
def strcasecmp (a b : List Nat) : Int := strcmp (a.map tolower) (b.map tolower)

/-- The C string held in a buffer: the bytes before the first NUL. -/
def c_str (buf : List Nat) : List Nat := buf.takeWhile (fun c => c != 0)

/-- White space skipped in front of a `scanf` conversion. -/
def skip_space (l : List Nat) : List Nat := l.dropWhile isspace

/-- The `scanf` conversion `%ns`: white space is skipped, then at most `n` bytes
that are not white space are taken.  The result is the token and the input behind
it; `none` when the input has ended. -/
def scan_s (n : Nat) (l : List Nat) : Option (List Nat × List Nat) :=
  if ((skip_space l).takeWhile (fun c => !isspace c)).take n = [] then none
  else some (((skip_space l).takeWhile (fun c => !isspace c)).take n,
    (skip_space l).drop (((skip_space l).takeWhile (fun c => !isspace c)).take n).length)

/-- The call `sscanf(buf, "%10s %250s%n", command, key, &scanned) == 2`: the
command, the key and the input from `&buf[scanned]` on. -/
def scan_head (buf : List Nat) : Option (List Nat × List Nat × List Nat) :=
  match scan_s 10 buf with
  | none => none
  | some (command, r1) =>
    match scan_s 250 r1 with
    | none => none
    | some (key, r2) => some (command, key, r2)

/-- The value of a run of decimal digits. -/
def digits_val (ds : List Nat) : Nat := ds.foldl (fun a d => a * 10 + (d - 48)) 0

/-- The range of `long`: `strtol` returns `LONG_MIN` or `LONG_MAX` out of range. -/
def clamp_long (v : Int) : Int := max (-(2 ^ 63)) (min v (2 ^ 63 - 1))

/-- The digits of a `%ld` conversion behind the optional sign. -/
def scan_digits (neg : Bool) (l : List Nat) : Option (Int × List Nat) :=
  if l.takeWhile isdigit = [] then none
  else some (clamp_long (if neg then -(digits_val (l.takeWhile isdigit) : Int)
      else (digits_val (l.takeWhile isdigit) : Int)),
    l.drop (l.takeWhile isdigit).length)

/-- The `scanf` conversion `%ld`: white space, an optional sign, decimal digits. -/
def scan_ld (l : List Nat) : Option (Int × List Nat) :=
  match skip_space l with
  | 45 :: r => scan_digits true r
  | 43 :: r => scan_digits false r
  | r => scan_digits false r

/-- At most `n` conversions `%ld` in a row, stopping at the first that fails. -/
def scan_lds : Nat → List Nat → List Int
  | 0, _ => []
  | n + 1, l =>
    match scan_ld l with
    | none => []
    | some (v, r) => v :: scan_lds n r

/-- The result of `sscanf`: the number of conversions, `EOF` when the input ends
before the first one. -/
def sscanf_count (l : List Nat) (vals : List Int) : Int :=
  if vals = [] ∧ skip_space l = [] then -1 else vals.length

/-- A `long` stored into a `uint64_t`. -/
def to_u64 (v : Int) : Nat := (v % 2 ^ 64).toNat

/-- A `uint64_t` converted to `int`. -/
def to_int (n : Nat) : Int :=
  if n % 2 ^ 32 < 2 ^ 31 then (n % 2 ^ 32 : Nat) else (n % 2 ^ 32 : Nat) - 2 ^ 32

/-- A `uint64_t` converted to `long` or `time_t`. -/
def to_long (n : Nat) : Int :=
  if n % 2 ^ 64 < 2 ^ 63 then (n % 2 ^ 64 : Nat) else (n % 2 ^ 64 : Nat) - 2 ^ 64

/-- A job after `memset(job, 0, sizeof(job_t))`. -/
def job_zero : job_t :=
  { id := 0, flags := 0, cmd := CMD_NONE, noreply := 0, key := none, value := none,
    error := none, length := 0, exptime := 0, casunique := 0, done := 0 }

/-- The test of the branch of `parse_args` for the store commands. -/
def store_command (command : List Nat) : Bool :=
  decide (strcasecmp command (bytes "set") = 0) ||
  decide (strcasecmp command (bytes "add") = 0) ||
  decide (strcasecmp command (bytes "replace") = 0) ||
  decide (strcasecmp command (bytes "append") = 0) ||
  decide (strcasecmp command (bytes "prepend") = 0) ||
  decide (strcasecmp command (bytes "cas") = 0)

/-- The `switch (command[0])` of the store branch of `parse_args`. -/
def store_cmd (command : List Nat) : cmd_t :=
  if command.getD 0 0 = 115 ∨ command.getD 0 0 = 83 then CMD_SET
  else if command.getD 0 0 = 114 ∨ command.getD 0 0 = 82 then CMD_REPLACE
  else if command.getD 0 0 = 112 ∨ command.getD 0 0 = 80 then CMD_PREPEND
  else if command.getD 0 0 = 99 ∨ command.getD 0 0 = 67 then CMD_CAS
  else if command.getD 1 0 = 100 ∨ command.getD 1 0 = 68 then CMD_ADD
  else CMD_APPEND

/-- The array `args` of `parse_args` after the `sscanf` of the store branch: the
converted values in front, behind them what the array held before (`args0`, the
contents of the uninitialised stack slots). -/
def store_args (args0 : Nat → Nat) (vals : List Int) (j : Nat) : Nat :=
  if j < vals.length then to_u64 (vals.getD j 0) else args0 j % 2 ^ 64

/-- The delete branch of `parse_args` at clock `t`: `sscanf` with `"%ld %d"` into
`exptime` and `noreply`, then the exptime made absolute. -/
def parse_delete (t : Int) (rest : List Nat) (job : job_t) : job_t :=
  let vals := scan_lds 2 rest
  let exptime := match vals.get? 0 with
    | some v => v
    | none => job.exptime
  let noreply := match vals.get? 1 with
    | some v => to_int (to_u64 v)
    | none => job.noreply
  if exptime = 0 then { job with cmd := CMD_DELETE, exptime := 1, noreply := noreply }
  else { job with cmd := CMD_DELETE, exptime := to_long (to_u64 (exptime + t)),
                  noreply := noreply }

/-- The incr/decr branch of `parse_args`.  The first number is written over the
pointer field `value`, which no code reads for these commands; the model leaves
that field as it is. -/
def parse_incr (command rest : List Nat) (job : job_t) : job_t :=
  { job with cmd := if command.getD 0 0 = 105 ∨ command.getD 0 0 = 73 then CMD_INCR
                    else CMD_DECR,
             noreply := match (scan_lds 2 rest).get? 1 with
               | some v => to_int (to_u64 v)
               | none => job.noreply }

/-- The store branch of `parse_args`: the command kind, then the fields taken
from `args` by the number `argc` of converted values. -/
def parse_store (args0 : Nat → Nat) (command rest : List Nat) (job : job_t) : job_t :=
  let args := store_args args0 (scan_lds 5 rest)
  let argc := sscanf_count rest (scan_lds 5 rest)
  let job := { job with cmd := store_cmd command }
  if argc = 1 then { job with length := args 0 }
  else if argc = 2 then { job with flags := to_int (args 0), length := args 1 }
  else if argc ≥ 3 then
    if argc = 4 then
      { job with flags := to_int (args 0), exptime := to_long (args 1), length := args 2,
                 noreply := to_int (args 3) }
    else
      { job with flags := to_int (args 0), exptime := to_long (args 1), length := args 2,
                 casunique := args 3, noreply := to_int (args 4) }
  else { job with error := some "NOT_STORED" }

/-- The sanity checks that end `parse_args`. -/
def sanity (job : job_t) : job_t :=
  if job.cmd = 0 then { job with error := some "ERROR" }
  else if job.length > MAX_LENGTH then { job with error := some "NOT_STORED" }
  else job

/-- The function `parse_args` at clock `t`, with `args0` the contents of the
uninitialised array `args`. -/
def parse_args (t : Int) (args0 : Nat → Nat) (buf : List Nat) : job_t :=
  match scan_head (c_str buf) with
  | some (command, key, rest) =>
    let job := { job_zero with key := _strdup (some key) }
    if strcasecmp command (bytes "get") = 0 ∨ strcasecmp command (bytes "gets") = 0 then
      sanity { job with cmd := CMD_GET }
    else if strcasecmp command (bytes "delete") = 0 then
      sanity (parse_delete t rest job)
    else if strcasecmp command (bytes "stat") = 0 then
      sanity { job with cmd := CMD_STAT }
    else if strcasecmp command (bytes "incr") = 0 ∨
        strcasecmp command (bytes "decr") = 0 then
      sanity (parse_incr command rest job)
    else if store_command command then
      sanity (parse_store args0 command rest job)
    else if strcasecmp command (bytes "0ops") = 0 then
      sanity { job with cmd := CMD_0OPS }
    else sanity { job with error := some "ERROR" }
  | none => { job_zero with error := some "ERROR" }

/-- What one pass of the loop of `handler` writes to the client. -/
inductive reply_t where
  | line (s : String)
  | value (key : Option (List Nat)) (flags : Nat) (length : Nat) (data : List Nat)
  deriving DecidableEq, Repr

/-- The state after one pass of the loop of `handler`. -/
structure front_t where
  store : Store
  input : List Nat
  submitted : Bool
  job : job_t
  sent : List reply_t

/-- The function `recvn` on a fresh block of `n` bytes: the bytes read from the
input, and the input left. -/
def recvn (input : List Nat) (n : Nat) : Option (List Nat) × List Nat :=
  (some (input.take n ++ List.replicate (n - input.length) 0), input.drop n)

/-- The lines behind the label `error` of `handler`. -/
def handler_error (job : job_t) (sent : List reply_t) : List reply_t :=
  if job.noreply = 0 then
    match job.error with
    | some e => sent ++ [reply_t.line e]
    | none => sent
  else sent

/-- The answer of `handler` to a job that came back without error. -/
def handler_reply (job : job_t) : List reply_t :=
  if job.noreply = 0 ∧ job.error = none then
    if job.cmd < CMD_STORE then [reply_t.line "STORED"]
    else if job.cmd = CMD_GET then
      [reply_t.value job.key (job.flags % 2 ^ 32).toNat job.length (job_bytes job)]
    else if job.cmd = CMD_DELETE then [reply_t.line "DELETED"]
    else []
  else []

/-- One pass of the loop of `handler` for the line `buf`, with `input` the bytes
of the standard input behind that line.  `tp` is the clock read by `parse_args`,
`tw` the clock read by the worker.  `put_job` and the wait for the job are the run
of `worker_run` on the store. -/
def handler (tp tw : Int) (args0 : Nat → Nat) (st : Store) (buf input : List Nat) :
    front_t :=
  let job := parse_args tp args0 buf
  if job.error = none then
    let body := if job.cmd < CMD_STORE then recvn input job.length else (job.value, input)
    let job := { job with value := body.1 }
    if (handlers job.cmd).isNone then
      { store := st, input := body.2, submitted := false,
        job := { job with error := some "NOT_IMPLEMENT" },
        sent := handler_error { job with error := some "NOT_IMPLEMENT" } [] }
    else if job.key = none then
      { store := st, input := body.2, submitted := false,
        job := { job with error := some "NOT_STORED" },
        sent := handler_error { job with error := some "NOT_STORED" } [] }
    else
      let r := worker_run tw st job
      { store := r.1, input := body.2, submitted := true, job := r.2,
        sent := handler_error r.2 (handler_reply r.2) }
  else
    { store := st, input := input, submitted := false, job := job,
      sent := handler_error job [] }

/-! ## Notions of the statements -/

/-- The bucket list behind a scan `r` of `lookup` when no item is changed. -/
def scanned (r : List item_t × Option (item_t × List item_t)) : List item_t :=
  match r.2 with
  | none => r.1
  | some (i, post) => r.1 ++ i :: post

/-- The run of a sequence of handler calls, each with its clock and its job. -/
def run_calls (st : Store) :
    List ((Int → Store → job_t → Store × job_t) × Int × job_t) → Store
  | [] => st
  | c :: rest => run_calls (c.1 c.2.1 st c.2.2).1 rest

/-- The run of a sequence of jobs on the table, each with the clock its handler
reads. -/
def run_jobs (st : Store) : List (Int × job_t) → Store
  | [] => st
  | c :: rest => run_jobs (worker_run c.1 st c.2).1 rest

/-- The sum of `b_i * 31 ^ (n - 1 - i)` over the bytes `b_0 .. b_(n-1)` of a key,
over the unbounded naturals, as the specification writes the value of `hash`. -/
def hash_sum : List Nat → Nat
  | [] => 0
  | b :: bs => b * 31 ^ bs.length + hash_sum bs

/-! ## Concrete states -/

/-- A live item under the key `a`, which hashes to bucket 97. -/
def ex_item : item_t :=
  { key := some [97], value := some [1, 2, 3], length := 3, exptime := 0, dead := 0,
    flags := 9 }

/-- An item of the same bucket under another key, expired from clock 4 on. -/
def ex_old : item_t :=
  { key := some [1, 66], value := some [5], length := 1, exptime := 3, dead := 0,
    flags := 0 }

/-- A store whose bucket 97 holds `ex_old` in front of `ex_item`. -/
def ex_store : Store := init.put 97 [ex_old, ex_item]

/-- A job on the key `a` with the value bytes `v`. -/
def ex_job (cmd : cmd_t) (v : List Nat) (flags exptime : Int) : job_t :=
  { job_zero with cmd := cmd, key := some [97], value := some v, length := v.length,
                  flags := flags, exptime := exptime }

/-- A fetch of the key `a`. -/
def ex_get : job_t := { job_zero with cmd := CMD_GET, key := some [97] }

/-- A tombstone under the key `a` whose grace window ends at 100. -/
def ex_tomb : item_t := { ex_item with dead := 1, exptime := 100 }

/-- A store whose bucket 97 holds the tombstone alone. -/
def ex_tomb_store : Store := init.put 97 [ex_tomb]

/-- Stack slots of `args` that happen to hold zero. -/
def no_garbage : Nat → Nat := fun _ => 0

/-- Stack slots of `args` as the line `cas k 0 0 1 7 1` leaves them. -/
def ex_garbage : Nat → Nat := fun j => [0, 0, 1, 7, 1].getD j 0

/-! ## The scheduler -/

/-- Where a worker thread stands in `worker`: at the head of the loop of `get_job`,
inside its `pthread_cond_wait`, between the return of `get_job` with a job and the
locked part of `done_job`, or out of `worker` after `get_job` returned `NULL`. -/
inductive wstate where
  | top
  | waiting
  | running (job : job_t)
  | gone
  deriving DecidableEq, Repr

/-- The test "this worker holds a job". -/
def wstate.busy : wstate → Bool
  | wstate.running _ => true
  | _ => false

/-- The globals `worker_all`, `job_done`, `job_all`, `cur_job`, `stopped`, and the
place of each of the `NWORKER` threads of `workers`.  The `int` counters are
integers without wrap-around. -/
structure sched_t where
  worker_all : Int
  job_done : Int
  job_all : Int
  cur_job : Option job_t
  stopped : Int
  workers : List wstate
  deriving DecidableEq, Repr

/-- The function `init`, the scheduler part: the counters are zero, the slot is
empty and the `NWORKER` threads start `worker`. -/
def sched_init : sched_t :=
  { worker_all := 0, job_done := 0, job_all := 0, cur_job := none, stopped := 0,
    workers := List.replicate NWORKER wstate.top }

/-- One pass of the loop of `put_job` under the global lock: the job is placed,
with the next id, when a worker waits, the slot is empty and fewer than `NWORKER`
jobs are between submission and completion; otherwise nothing changes and the loop
goes on. -/
def put_job (s : sched_t) (job : job_t) : sched_t :=
  if s.worker_all > 0 ∧ s.cur_job = none ∧ s.job_all - s.job_done < NWORKER then
    { s with cur_job := some { job with id := s.job_all + 1 }, job_all := s.job_all + 1 }
  else s

/-- The function `get_job` of worker `w` from `pthread_mutex_lock` to the
`pthread_cond_wait` that releases the lock: the thread leaves when `stopped` is set,
else it counts itself in `worker_all` and waits. -/
def get_job_enter (s : sched_t) (w : Nat) : sched_t :=
  match s.workers.get? w with
  | some wstate.top =>
    if s.stopped ≠ 0 then { s with workers := s.workers.set w wstate.gone }
    else { s with worker_all := s.worker_all + 1,
                  workers := s.workers.set w wstate.waiting }
  | _ => s

/-- The function `get_job` of worker `w` from the return of `pthread_cond_wait`,
for whatever reason it returns, to `pthread_mutex_unlock`: the job of the slot is
taken and the slot cleared; without a job the thread leaves when `stopped` is set
and goes round the loop otherwise. -/
def get_job_wake (s : sched_t) (w : Nat) : sched_t :=
  match s.workers.get? w with
  | some wstate.waiting =>
    match s.cur_job with
    | some job =>
      { s with cur_job := none, worker_all := s.worker_all - 1,
               workers := s.workers.set w (wstate.running job) }
    | none =>
      if s.stopped ≠ 0 then
        { s with worker_all := s.worker_all - 1, workers := s.workers.set w wstate.gone }
      else
        { s with worker_all := s.worker_all - 1, workers := s.workers.set w wstate.top }
  | _ => s

/-- The locked part of `done_job`, which worker `w` reaches with the job `get_job`
gave it: `job_done++`; the thread goes back to `get_job`. -/
def done_job (s : sched_t) (w : Nat) : sched_t :=
  match s.workers.get? w with
  | some (wstate.running _) =>
    { s with job_done := s.job_done + 1, workers := s.workers.set w wstate.top }
  | _ => s

/-- One pass of the loop of `stop` under the global lock. -/
def stop (s : sched_t) : sched_t :=
  if s.worker_all ≠ 0 then { s with stopped := 1 } else s

/-- The sections that run under the global lock. -/
inductive event where
  | put (job : job_t)
  | enter (w : Nat)
  | wake (w : Nat)
  | done (w : Nat)
  | stop
  deriving DecidableEq, Repr

/-- One locked section run on the scheduler state. -/
def sched_step (s : sched_t) : event → sched_t
  | event.put job => put_job s job
  | event.enter w => get_job_enter s w
  | event.wake w => get_job_wake s w
  | event.done w => done_job s w
  | event.stop => stop s

/-- An interleaving of locked sections, run from the state `s`. -/
def sched_run (s : sched_t) (evs : List event) : sched_t := evs.foldl sched_step s

/-- The jobs between submission and completion: the one in the slot and those the
workers hold. -/
def in_flight (s : sched_t) : Int :=
  (if s.cur_job.isSome then 1 else 0) + (s.workers.countP wstate.busy : Nat)

/-! ## The bucket lists as linked nodes

The same handlers on nodes with `next` and `prev` pointers, with the `fatal`
branches of `_unlink`, `lookup` and `insert`. -/

/-- The memory that holds the lists.  The node at address `h < HTABLE_SIZE` is the
sentinel `htable[h]`, which `lookup` and `insert` use through the cast
`(item_t *)e`; the item nodes that `malloc` hands out have addresses from
`HTABLE_SIZE` on.  `next` and `prev` are the two pointer fields of every node, `item`
the other fields of an item node, `live` the item nodes allocated and not freed. -/
structure heap_t where
  next : Nat → Nat
  prev : Nat → Nat
  item : Nat → item_t
  live : List Nat

/-- The function `init`, the node part: `htable[i].prev = htable[i].next =
&htable[i]`, and no item node is allocated. -/
def heap_init : heap_t :=
  { next := fun a => a, prev := fun a => a,
    item := fun _ => { key := none, value := none, length := 0, exptime := 0, dead := 0,
                       flags := 0 },
    live := [] }

/-- The address `malloc(sizeof(item_t))` returns: one that is not in use.  The model
takes the first address behind the table and behind every node in use. -/
def p_malloc (hp : heap_t) : Nat := hp.live.foldl max HTABLE_SIZE + 1

/-- The function `_unlink` on the node at address `i`; an error is the call of
`fatal`. -/
def p_unlink (hp : heap_t) (i : Nat) : Except String heap_t :=
  if hp.next (hp.prev i) ≠ i ∨ hp.prev (hp.next i) ≠ i then
    Except.error "SERVER_ERROR corrupted item"
  else
    Except.ok { hp with next := Function.update hp.next (hp.prev i) (hp.next i),
                        prev := Function.update hp.prev (hp.next i) (hp.prev i),
                        live := hp.live.erase i }

/-- The function `insert` of the node at address `i` into the list of the sentinel
at address `e`; an error is the call of `fatal`. -/
def p_insert (hp : heap_t) (e i : Nat) : Except String heap_t :=
  if hp.prev (hp.next e) ≠ e then Except.error "SERVER_ERROR corrupted entry"
  else
    Except.ok { hp with
      next := Function.update (Function.update hp.next e i) i (hp.next e),
      prev := Function.update (Function.update hp.prev (hp.next e) i) i e }

/-- The loop of `lookup` over the list of the sentinel `e`, entered with the node
`i`, for at most `fuel` passes.  The result is the memory after the scan and the
address of the node found; an error is the call of `fatal`, or `"fuel"` when the
passes are used up. -/
def p_lookup_loop (t : Int) (k : Option (List Nat)) (e : Nat) :
    Nat → heap_t → Nat → Except String (heap_t × Option Nat)
  | 0, _, _ => Except.error "fuel"
  | fuel + 1, hp, i =>
    if i = e then Except.ok (hp, none)
    else if hp.next (hp.prev i) ≠ i ∨ hp.prev (hp.next i) ≠ i then
      Except.error "SERVER_ERROR corrupted item"
    else if expired t (hp.item i) then
      match p_unlink hp i with
      | Except.error m => Except.error m
      | Except.ok hp1 => p_lookup_loop t k e fuel hp1 (hp.next i)
    else if _strcmp (hp.item i).key k = 0 then Except.ok (hp, some i)
    else p_lookup_loop t k e fuel hp (hp.next i)

/-- The function `lookup` on the list of the sentinel `e`, with one pass for every
item node in use and one for the sentinel. -/
def p_lookup (t : Int) (k : Option (List Nat)) (e : Nat) (hp : heap_t) :
    Except String (heap_t × Option Nat) :=
  p_lookup_loop t k e (hp.live.length + 1) hp (hp.next e)

/-- A new node with the fields `i`, from `malloc` to `insert`. -/
def p_new (hp : heap_t) (e : Nat) (i : item_t) : Except String heap_t :=
  p_insert { hp with live := p_malloc hp :: hp.live,
                     item := Function.update hp.item (p_malloc hp) i } e (p_malloc hp)

/-- Assignment to the fields of the item node at address `a`. -/
def heap_t.put (hp : heap_t) (a : Nat) (i : item_t) : heap_t :=
  { hp with item := Function.update hp.item a i }

/-- The function `handle_set` on linked nodes. -/
def p_handle_set (t : Int) (hp : heap_t) (job : job_t) : Except String (heap_t × job_t) :=
  match p_lookup t job.key (hash job.key) hp with
  | Except.error m => Except.error m
  | Except.ok (hp1, none) =>
    match p_new hp1 (hash job.key)
        { key := _strdup job.key, value := job.value, length := job.length,
          exptime := job.exptime, dead := 0, flags := job.flags } with
    | Except.error m => Except.error m
    | Except.ok hp2 => Except.ok (hp2, { job with value := none })
  | Except.ok (hp1, some a) =>
    if job.length = (hp1.item a).length then
      Except.ok (hp1.put a { hp1.item a with
          value := _memcpy (hp1.item a).value 0 job.value (hp1.item a).length,
          exptime := job.exptime, dead := 0, flags := job.flags }, job)
    else
      Except.ok (hp1.put a { hp1.item a with
          value := job.value, length := job.length, exptime := job.exptime, dead := 0,
          flags := job.flags }, { job with value := none })

/-- The function `handle_add` on linked nodes. -/
def p_handle_add (t : Int) (hp : heap_t) (job : job_t) : Except String (heap_t × job_t) :=
  match p_lookup t job.key (hash job.key) hp with
  | Except.error m => Except.error m
  | Except.ok (hp1, none) =>
    match p_new hp1 (hash job.key)
        { key := _strdup job.key, value := job.value, length := job.length,
          exptime := job.exptime, dead := 0, flags := job.flags } with
    | Except.error m => Except.error m
    | Except.ok hp2 => Except.ok (hp2, { job with value := none })
  | Except.ok (hp1, some _) => Except.ok (hp1, { job with error := some "EXISTS" })

/-- The function `handle_replace` on linked nodes. -/
def p_handle_replace (t : Int) (hp : heap_t) (job : job_t) :
    Except String (heap_t × job_t) :=
  match p_lookup t job.key (hash job.key) hp with
  | Except.error m => Except.error m
  | Except.ok (hp1, none) => Except.ok (hp1, { job with error := some "NOT_FOUND" })
  | Except.ok (hp1, some a) =>
    if (hp1.item a).dead ≠ 0 then Except.ok (hp1, { job with error := some "NOT_FOUND" })
    else
      Except.ok (hp1.put a { hp1.item a with value := job.value, length := job.length },
        { job with value := none })

/-- The function `handle_append` on linked nodes. -/
def p_handle_append (t : Int) (hp : heap_t) (job : job_t) :
    Except String (heap_t × job_t) :=
  match p_lookup t job.key (hash job.key) hp with
  | Except.error m => Except.error m
  | Except.ok (hp1, none) => Except.ok (hp1, { job with error := some "NOT_FOUND" })
  | Except.ok (hp1, some a) =>
    if (hp1.item a).dead ≠ 0 then Except.ok (hp1, { job with error := some "NOT_FOUND" })
    else if job.length ≠ 0 then
      if (hp1.item a).value = none then
        Except.ok (hp1, { job with error := some "NOT_STORED" })
      else
        Except.ok (hp1.put a { hp1.item a with
            value := _memcpy (_memcpy (malloc ((job.length + (hp1.item a).length) % 2 ^ 64))
              0 (hp1.item a).value (hp1.item a).length) (hp1.item a).length job.value
              job.length,
            length := ((hp1.item a).length + job.length) % 2 ^ 64 }, job)
    else Except.ok (hp1, job)

/-- The function `handle_prepend` on linked nodes. -/
def p_handle_prepend (t : Int) (hp : heap_t) (job : job_t) :
    Except String (heap_t × job_t) :=
  match p_lookup t job.key (hash job.key) hp with
  | Except.error m => Except.error m
  | Except.ok (hp1, none) => Except.ok (hp1, { job with error := some "NOT_FOUND" })
  | Except.ok (hp1, some a) =>
    if (hp1.item a).dead ≠ 0 then Except.ok (hp1, { job with error := some "NOT_FOUND" })
    else if job.length ≠ 0 then
      if (hp1.item a).value = none then
        Except.ok (hp1, { job with error := some "NOT_STORED" })
      else
        Except.ok (hp1.put a { hp1.item a with
            value := _memcpy (_memcpy (malloc ((job.length + (hp1.item a).length) % 2 ^ 64))
              0 job.value job.length) job.length (hp1.item a).value (hp1.item a).length,
            length := ((hp1.item a).length + job.length) % 2 ^ 64 }, job)
    else Except.ok (hp1, job)

/-- The function `handle_get` on linked nodes. -/
def p_handle_get (t : Int) (hp : heap_t) (job : job_t) : Except String (heap_t × job_t) :=
  match p_lookup t job.key (hash job.key) hp with
  | Except.error m => Except.error m
  | Except.ok (hp1, none) => Except.ok (hp1, { job with error := some "NOT_FOUND" })
  | Except.ok (hp1, some a) =>
    if (hp1.item a).dead ≠ 0 then Except.ok (hp1, { job with error := some "NOT_FOUND" })
    else
      Except.ok (hp1, { job with value := (hp1.item a).value, length := (hp1.item a).length,
                                 flags := (hp1.item a).flags })

/-- The function `handle_delete` on linked nodes. -/
def p_handle_delete (t : Int) (hp : heap_t) (job : job_t) :
    Except String (heap_t × job_t) :=
  match p_lookup t job.key (hash job.key) hp with
  | Except.error m => Except.error m
  | Except.ok (hp1, none) => Except.ok (hp1, { job with error := some "NOT_FOUND" })
  | Except.ok (hp1, some a) =>
    if (hp1.item a).dead ≠ 0 ∧ job.exptime > (hp1.item a).exptime then
      Except.ok (hp1, { job with error := some "NOT_FOUND" })
    else
      Except.ok (hp1.put a { hp1.item a with dead := 1, exptime := job.exptime }, job)

/-- The array `handlers` for the handlers on linked nodes. -/
def p_handlers (cmd : cmd_t) :
    Option (Int → heap_t → job_t → Except String (heap_t × job_t)) :=
  if cmd = CMD_SET then some p_handle_set
  else if cmd = CMD_ADD then some p_handle_add
  else if cmd = CMD_REPLACE then some p_handle_replace
  else if cmd = CMD_APPEND then some p_handle_append
  else if cmd = CMD_PREPEND then some p_handle_prepend
  else if cmd = CMD_GET then some p_handle_get
  else if cmd = CMD_DELETE then some p_handle_delete
  else if cmd = CMD_STAT then
    some (fun _ hp job => Except.ok (hp, { job with error := some "jeapcached v0.095" }))
  else if cmd = CMD_0OPS then
    some (fun _ hp job => Except.ok (hp, { job with error := some "NO_BACKDOOR" }))
  else none

/-- The dispatch of `worker` for one job on linked nodes. -/
def p_worker_run (t : Int) (hp : heap_t) (job : job_t) : Except String (heap_t × job_t) :=
  match p_handlers job.cmd with
  | none => Except.ok (hp, { job with error := some "NOT_IMPLEMENT", done := 1 })
  | some h =>
    match h t hp job with
    | Except.error m => Except.error m
    | Except.ok r => Except.ok (r.1, { r.2 with done := 1 })

/-- The run of a sequence of jobs, each with the clock its handler reads; an error
is the first call of `fatal`. -/
def p_run (hp : heap_t) : List (Int × job_t) → Except String heap_t
  | [] => Except.ok hp
  | c :: rest =>
    match p_worker_run c.1 hp c.2 with
    | Except.error m => Except.error m
    | Except.ok r => p_run r.1 rest

/-- The nodes `l` lie between `a` and `b` in a doubly linked chain: `next` leads
from `a` through `l` to `b`, and `prev` leads back. -/
def links (next prev : Nat → Nat) : Nat → List Nat → Nat → Prop
  | a, [], b => next a = b ∧ prev b = a
  | a, x :: xs, b => next a = x ∧ prev x = a ∧ links next prev x xs b

/-- The items of the list of the sentinel `e`, read along `next` for at most `fuel`
nodes. -/
def p_items (hp : heap_t) (e : Nat) : Nat → Nat → List item_t
  | 0, _ => []
  | fuel + 1, i => if i = e then [] else hp.item i :: p_items hp e fuel (hp.next i)

/-- The lists of all buckets are sound: `A h` gives the item nodes of bucket `h` in
`next` order; they are doubly linked with the sentinel in a ring, distinct, in use,
behind the table, and no node is in two buckets. -/
def heap_ok (hp : heap_t) (A : Nat → List Nat) : Prop :=
  (∀ h, h < HTABLE_SIZE → links hp.next hp.prev h (A h) h) ∧
  (∀ h, h < HTABLE_SIZE → (A h).Nodup) ∧
  (∀ h, h < HTABLE_SIZE → ∀ a ∈ A h, HTABLE_SIZE ≤ a ∧ a ∈ hp.live) ∧
  (∀ h h2, h < HTABLE_SIZE → h2 < HTABLE_SIZE → ∀ a, a ∈ A h → a ∈ A h2 → h = h2)

/-- The linked nodes hold the table `st`: the lists are sound and the items along
the list of every bucket are the items of that bucket, in the same order. -/
def heap_repr (hp : heap_t) (A : Nat → List Nat) (st : Store) : Prop :=
  heap_ok hp A ∧ ∀ h, h < HTABLE_SIZE → (A h).map hp.item = st h

/-! ## Facts about the helpers -/

theorem strcmp_eq_zero (a b : List Nat) : strcmp a b = 0 ↔ a = b := by
  induction a generalizing b with
  | nil => cases b <;> simp [strcmp]
  | cons x xs ih =>
    cases b with
    | nil => simp [strcmp]
    | cons y ys =>
      by_cases hxy : x = y
      · simp [strcmp, hxy, ih]
      · by_cases hlt : x < y <;> simp [strcmp, hxy, hlt]

theorem _strcmp_eq_zero (a b : Option (List Nat)) : _strcmp a b = 0 ↔ a = b := by
  cases a <;> cases b <;> simp [_strcmp, strcmp_eq_zero]

@[simp] theorem Store.put_same (st : Store) (h : Nat) (b : List item_t) :
    (st.put h b) h = b := by
  simp [Store.put]

theorem Store.put_other (st : Store) (h j : Nat) (b : List item_t) (hj : j ≠ h) :
    (st.put h b) j = st j := by
  simp [Store.put, hj]

/-! ## Facts about `lookup` -/

theorem lookup_cons_expired (t : Int) (k : Option (List Nat)) (i : item_t)
    (rest : List item_t) (h : expired t i = true) :
    lookup t k (i :: rest) = lookup t k rest := by
  simp [lookup, h]

theorem lookup_cons_hit (t : Int) (k : Option (List Nat)) (i : item_t)
    (rest : List item_t) (h : expired t i = false) (hk : i.key = k) :
    lookup t k (i :: rest) = ([], some (i, rest)) := by
  simp [lookup, h, (_strcmp_eq_zero i.key k).2 hk]

theorem lookup_cons_miss (t : Int) (k : Option (List Nat)) (i : item_t)
    (rest : List item_t) (h : expired t i = false) (hk : i.key ≠ k) :
    lookup t k (i :: rest) = (i :: (lookup t k rest).1, (lookup t k rest).2) := by
  have hne : ¬ _strcmp i.key k = 0 := fun h0 => hk ((_strcmp_eq_zero i.key k).1 h0)
  simp [lookup, h, hne]

/-- The item `lookup` returns has the sought key and is not expired. -/
theorem lookup_hit (t : Int) (k : Option (List Nat)) (l pre post : List item_t)
    (i : item_t) (h : lookup t k l = (pre, some (i, post))) :
    i.key = k ∧ expired t i = false ∧ i ∈ l := by
  induction l generalizing pre with
  | nil => simp [lookup] at h
  | cons x rest ih =>
    by_cases hx : expired t x = true
    · rw [lookup_cons_expired t k x rest hx] at h
      obtain ⟨h1, h2, h3⟩ := ih pre h
      exact ⟨h1, h2, List.mem_cons_of_mem _ h3⟩
    · have hx' : expired t x = false := by simpa using hx
      by_cases hk : x.key = k
      · rw [lookup_cons_hit t k x rest hx' hk] at h
        simp only [Prod.mk.injEq, Option.some.injEq] at h
        obtain ⟨-, hi, -⟩ := h
        subst hi
        exact ⟨hk, hx', List.mem_cons_self _ _⟩
      · rw [lookup_cons_miss t k x rest hx' hk] at h
        simp only [Prod.mk.injEq] at h
        obtain ⟨h1, h2, h3⟩ := ih (lookup t k rest).1 (Prod.ext rfl h.2)
        exact ⟨h1, h2, List.mem_cons_of_mem _ h3⟩

/-- The items `lookup` keeps before the hit are items of the bucket that are not
expired and carry another key. -/
theorem lookup_pre (t : Int) (k : Option (List Nat)) (l : List item_t) :
    ∀ x ∈ (lookup t k l).1, x ∈ l ∧ expired t x = false ∧ x.key ≠ k := by
  induction l with
  | nil => simp [lookup]
  | cons y rest ih =>
    intro x hxm
    by_cases hy : expired t y = true
    · rw [lookup_cons_expired t k y rest hy] at hxm
      obtain ⟨h1, h2, h3⟩ := ih x hxm
      exact ⟨List.mem_cons_of_mem _ h1, h2, h3⟩
    · have hy' : expired t y = false := by simpa using hy
      by_cases hk : y.key = k
      · rw [lookup_cons_hit t k y rest hy' hk] at hxm
        simp at hxm
      · rw [lookup_cons_miss t k y rest hy' hk] at hxm
        rcases List.mem_cons.1 hxm with hxy | hxr
        · subst hxy
          exact ⟨List.mem_cons_self _ _, hy', hk⟩
        · obtain ⟨h1, h2, h3⟩ := ih x hxr
          exact ⟨List.mem_cons_of_mem _ h1, h2, h3⟩

/-- A scan over items that all carry another key keeps those not expired and goes
on behind them. -/
theorem lookup_append (t : Int) (k : Option (List Nat)) (pre l : List item_t)
    (hpre : ∀ x ∈ pre, x.key ≠ k) :
    lookup t k (pre ++ l) =
      (pre.filter (fun x => !expired t x) ++ (lookup t k l).1, (lookup t k l).2) := by
  induction pre with
  | nil => simp
  | cons y rest ih =>
    have ih' := ih (fun x hx => hpre x (List.mem_cons_of_mem _ hx))
    have hk : y.key ≠ k := hpre y (List.mem_cons_self _ _)
    by_cases hy : expired t y = true
    · rw [List.cons_append, lookup_cons_expired t k y _ hy, ih']
      simp [List.filter_cons, hy]
    · have hy' : expired t y = false := by simpa using hy
      rw [List.cons_append, lookup_cons_miss t k y _ hy' hk, ih']
      simp [List.filter_cons, hy']

/-- When `lookup` finds nothing, what it keeps is the bucket without its expired
items, and none of them carries the key. -/
theorem lookup_none (t : Int) (k : Option (List Nat)) (l : List item_t)
    (h : (lookup t k l).2 = none) :
    (lookup t k l).1 = l.filter (fun x => !expired t x) := by
  induction l with
  | nil => simp [lookup]
  | cons y rest ih =>
    by_cases hy : expired t y = true
    · rw [lookup_cons_expired t k y rest hy] at h ⊢
      simp [List.filter_cons, hy, ih h]
    · have hy' : expired t y = false := by simpa using hy
      by_cases hk : y.key = k
      · rw [lookup_cons_hit t k y rest hy' hk] at h
        simp at h
      · rw [lookup_cons_miss t k y rest hy' hk] at h ⊢
        simp [List.filter_cons, hy', ih h]

theorem expired_false_of (t : Int) (i : item_t) (h : i.exptime = 0 ∨ t ≤ i.exptime) :
    expired t i = false := by
  rcases h with h | h
  · simp [expired, h]
  · simp [expired, not_lt.2 h]

theorem expired_true_of (t : Int) (i : item_t) (h0 : i.exptime ≠ 0) (h : i.exptime < t) :
    expired t i = true := by
  simp [expired, h0, h]

/-! ## What each handler does once the scan result is known -/

theorem handle_get_miss (t : Int) (st : Store) (job : job_t) (pre : List item_t)
    (h : lookup t job.key (st (hash job.key)) = (pre, none)) :
    handle_get t st job =
      (st.put (hash job.key) pre, { job with error := some "NOT_FOUND" }) := by
  simp [handle_get, h]

theorem handle_get_dead (t : Int) (st : Store) (job : job_t) (pre post : List item_t)
    (i : item_t) (h : lookup t job.key (st (hash job.key)) = (pre, some (i, post)))
    (hd : i.dead ≠ 0) :
    handle_get t st job =
      (st.put (hash job.key) (pre ++ i :: post), { job with error := some "NOT_FOUND" }) := by
  simp [handle_get, h, hd]

theorem handle_get_live (t : Int) (st : Store) (job : job_t) (pre post : List item_t)
    (i : item_t) (h : lookup t job.key (st (hash job.key)) = (pre, some (i, post)))
    (hd : i.dead = 0) :
    handle_get t st job =
      (st.put (hash job.key) (pre ++ i :: post),
        { job with value := i.value, length := i.length, flags := i.flags }) := by
  simp [handle_get, h, hd]

/-- A fetch in a bucket whose first item with the key is `i`, not expired. -/
theorem handle_get_at (t : Int) (st : Store) (g : job_t) (pre post : List item_t)
    (i : item_t) (hb : st (hash g.key) = pre ++ i :: post)
    (hpre : ∀ x ∈ pre, x.key ≠ g.key) (hk : i.key = g.key)
    (hi : expired t i = false) :
    lookup t g.key (st (hash g.key)) =
      (pre.filter (fun x => !expired t x), some (i, post)) := by
  rw [hb, lookup_append t g.key pre (i :: post) hpre, lookup_cons_hit t g.key i post hi hk]
  simp

theorem take_memcpy_zero (d v : List Nat) (n : Nat) (hv : v.length = n) :
    (memcpy d 0 v n).take n = v := by
  subst hv
  simp [memcpy]

/-- The hit of `lookup` splits the bucket: the scanned items, the hit, the rest. -/
theorem lookup_split (t : Int) (k : Option (List Nat)) (l pre post : List item_t)
    (i : item_t) (h : lookup t k l = (pre, some (i, post))) :
    ∃ l1, l = l1 ++ i :: post ∧ pre = l1.filter (fun x => !expired t x) := by
  induction l generalizing pre with
  | nil => simp [lookup] at h
  | cons x rest ih =>
    by_cases hx : expired t x = true
    · rw [lookup_cons_expired t k x rest hx] at h
      obtain ⟨l1, h1, h2⟩ := ih pre h
      exact ⟨x :: l1, by simp [h1], by simp [List.filter_cons, hx, h2]⟩
    · have hx' : expired t x = false := by simpa using hx
      by_cases hk : x.key = k
      · rw [lookup_cons_hit t k x rest hx' hk] at h
        simp only [Prod.mk.injEq, Option.some.injEq] at h
        obtain ⟨h1, h2, h3⟩ := h
        exact ⟨[], by simp [h2, h3], by simp [← h1]⟩
      · rw [lookup_cons_miss t k x rest hx' hk] at h
        simp only [Prod.mk.injEq] at h
        obtain ⟨l1, h1, h2⟩ := ih (lookup t k rest).1 (Prod.ext rfl h.2)
        exact ⟨x :: l1, by simp [h1], by simp [List.filter_cons, hx', ← h.1, h2]⟩

/-- No item is found in a list whose items all carry another key. -/
theorem lookup_absent (t : Int) (k : Option (List Nat)) (l : List item_t)
    (h : ∀ x ∈ l, x.key ≠ k) : (lookup t k l).2 = none := by
  have := lookup_append t k l [] h
  simp only [List.append_nil] at this
  rw [this]
  simp [lookup]

/-- In a bucket with unique keys the item holding the key, when not expired, is
the one `lookup` returns, and no other item carries the key. -/
theorem lookup_of_mem (t : Int) (k : Option (List Nat)) (l : List item_t) (i : item_t)
    (huniq : (l.map item_t.key).Nodup) (hmem : i ∈ l) (hk : i.key = k)
    (hi : expired t i = false) :
    ∃ l1 post, l = l1 ++ i :: post ∧
      lookup t k l = (l1.filter (fun x => !expired t x), some (i, post)) ∧
      (∀ x ∈ l1, x.key ≠ k) ∧ (∀ x ∈ post, x.key ≠ k) := by
  obtain ⟨l1, post, hl⟩ := List.append_of_mem hmem
  subst hl
  rw [List.map_append, List.map_cons, List.nodup_append] at huniq
  obtain ⟨-, h2, h3⟩ := huniq
  have hl1 : ∀ x ∈ l1, x.key ≠ k := by
    intro x hx hxk
    exact h3 (List.mem_map_of_mem _ hx) (by rw [hxk, ← hk]; exact List.mem_cons_self _ _)
  have hpost : ∀ x ∈ post, x.key ≠ k := by
    intro x hx hxk
    rw [List.nodup_cons] at h2
    exact h2.1 (by rw [hk, ← hxk]; exact List.mem_map_of_mem _ hx)
  refine ⟨l1, post, rfl, ?_, hl1, hpost⟩
  rw [lookup_append t k l1 _ hl1, lookup_cons_hit t k i post hi hk]
  simp

theorem handle_get_none (t : Int) (st : Store) (job : job_t)
    (h : (lookup t job.key (st (hash job.key))).2 = none) :
    (handle_get t st job).2.error = some "NOT_FOUND" := by
  rcases hl : lookup t job.key (st (hash job.key)) with ⟨pre, r⟩
  rw [hl] at h
  simp only at h
  subst h
  rw [handle_get_miss t st job pre hl]

theorem nodup_split (l1 post : List item_t) (i : item_t)
    (huniq : ((l1 ++ i :: post).map item_t.key).Nodup) :
    (∀ x ∈ l1, x.key ≠ i.key) ∧ (∀ x ∈ post, x.key ≠ i.key) := by
  rw [List.map_append, List.map_cons, List.nodup_append] at huniq
  obtain ⟨-, h2, h3⟩ := huniq
  constructor
  · intro x hx hxk
    exact h3 (List.mem_map_of_mem _ hx) (by rw [hxk]; exact List.mem_cons_self _ _)
  · intro x hx hxk
    rw [List.nodup_cons] at h2
    exact h2.1 (by rw [← hxk]; exact List.mem_map_of_mem _ hx)

/-- The buffer `handle_append` builds: the old bytes, then the new ones. -/
theorem append_buffer (old suf : List Nat) (hs : suf.length ≠ 0)
    (hsz : old.length + suf.length < 2 ^ 64) :
    _memcpy (_memcpy (malloc ((suf.length + old.length) % 2 ^ 64)) 0 (some old) old.length)
      old.length (some suf) suf.length = some (old ++ suf) := by
  have hmod : (suf.length + old.length) % 2 ^ 64 = suf.length + old.length :=
    Nat.mod_eq_of_lt (by omega)
  rw [hmod]
  have h1 : _memcpy (malloc (suf.length + old.length)) 0 (some old) old.length =
      some (old ++ List.replicate suf.length 0) := by
    by_cases h0 : old.length = 0
    · have : old = [] := List.eq_nil_of_length_eq_zero h0
      subst this
      simp [_memcpy, malloc]
    · simp [_memcpy, malloc, memcpy, h0, List.drop_replicate]
  rw [h1]
  simp [_memcpy, memcpy, hs, List.take_append_eq_append_take, List.drop_append_eq_append_drop]

/-- The buffer `handle_prepend` builds: the new bytes, then the old ones. -/
theorem prepend_buffer (old pre : List Nat) (hs : pre.length ≠ 0)
    (hsz : old.length + pre.length < 2 ^ 64) :
    _memcpy (_memcpy (malloc ((pre.length + old.length) % 2 ^ 64)) 0 (some pre) pre.length)
      pre.length (some old) old.length = some (pre ++ old) := by
  have hmod : (pre.length + old.length) % 2 ^ 64 = pre.length + old.length :=
    Nat.mod_eq_of_lt (by omega)
  rw [hmod]
  have h1 : _memcpy (malloc (pre.length + old.length)) 0 (some pre) pre.length =
      some (pre ++ List.replicate old.length 0) := by
    simp [_memcpy, malloc, memcpy, hs, List.drop_replicate]
  rw [h1]
  by_cases h0 : old.length = 0
  · have : old = [] := List.eq_nil_of_length_eq_zero h0
    subst this
    simp [_memcpy]
  · simp [_memcpy, memcpy, h0, List.take_append_eq_append_take,
      List.drop_append_eq_append_drop]

/-- A fetch after the found item of a scan was given new contents `j` under the same
key: when `j` is live at the clock of the fetch, the fetch returns what `j` holds. -/
theorem get_after_update (st st1 : Store) (t1 t2 : Int) (g : job_t)
    (pre post : List item_t) (i j : item_t)
    (hl : lookup t1 g.key (st (hash g.key)) = (pre, some (i, post)))
    (hst1 : st1 (hash g.key) = pre ++ j :: post)
    (hjk : j.key = g.key) (hj : expired t2 j = false) (hjd : j.dead = 0) :
    (handle_get t2 st1 g).2 =
      { g with value := j.value, length := j.length, flags := j.flags } := by
  have hpre : ∀ x ∈ pre, x.key ≠ g.key := by
    intro x hx
    exact (lookup_pre t1 g.key (st (hash g.key)) x (by rw [hl]; exact hx)).2.2
  have hlk := handle_get_at t2 st1 g pre post j hst1 hpre hjk hj
  rw [handle_get_live _ _ _ _ _ _ hlk hjd]

/-- When every item of the bucket that is not expired carries another key,
`lookup` finds nothing and keeps exactly the items that are not expired. -/
theorem lookup_miss (t : Int) (k : Option (List Nat)) (l : List item_t)
    (h : ∀ x ∈ l, expired t x = false → x.key ≠ k) :
    lookup t k l = (l.filter (fun x => !expired t x), none) := by
  induction l with
  | nil => simp [lookup]
  | cons y rest ih =>
    have ih' := ih (fun x hx => h x (List.mem_cons_of_mem _ hx))
    by_cases hy : expired t y = true
    · rw [lookup_cons_expired t k y rest hy, ih']
      simp [List.filter_cons, hy]
    · have hy' : expired t y = false := by simpa using hy
      rw [lookup_cons_miss t k y rest hy' (h y (List.mem_cons_self _ _) hy'), ih']
      simp [List.filter_cons, hy']

/-- An item of the bucket that carries the key and is not expired makes `lookup`
return an item. -/
theorem lookup_some_of_mem (t : Int) (k : Option (List Nat)) (l : List item_t)
    (i : item_t) (hmem : i ∈ l) (hk : i.key = k) (hi : expired t i = false) :
    ∃ pre j post, lookup t k l = (pre, some (j, post)) := by
  rcases hl : lookup t k l with ⟨pre, _ | ⟨j, post⟩⟩
  · exfalso
    have hnone : (lookup t k l).2 = none := by rw [hl]
    have hpre := lookup_none t k l hnone
    have him : i ∈ (lookup t k l).1 := by
      rw [hpre]
      exact List.mem_filter.2 ⟨hmem, by simp [hi]⟩
    exact (lookup_pre t k l i him).2.2 hk
  · exact ⟨pre, j, post, rfl⟩

/-- The bucket behind a scan that found an item: it holds only items it held
before, and all of those that are not expired. -/
theorem lookup_keeps (t : Int) (k : Option (List Nat)) (l pre post : List item_t)
    (j : item_t) (h : lookup t k l = (pre, some (j, post))) :
    (∀ x ∈ pre ++ j :: post, x ∈ l) ∧
    (∀ x ∈ l, expired t x = false → x ∈ pre ++ j :: post) := by
  obtain ⟨l1, hl, hpre⟩ := lookup_split t k l pre post j h
  subst hl hpre
  constructor
  · intro x hx
    rcases List.mem_append.1 hx with h1 | h1
    · exact List.mem_append_left _ (List.mem_of_mem_filter h1)
    · exact List.mem_append_right _ h1
  · intro x hx hxe
    rcases List.mem_append.1 hx with h1 | h1
    · exact List.mem_append_left _ (List.mem_filter.2 ⟨h1, by simp [hxe]⟩)
    · exact List.mem_append_right _ h1

/-- The refusing branch of `handle_delete`. -/
theorem handle_delete_refused (t : Int) (st : Store) (job : job_t) (pre post : List item_t)
    (i : item_t) (h : lookup t job.key (st (hash job.key)) = (pre, some (i, post)))
    (hg : i.dead ≠ 0 ∧ job.exptime > i.exptime) :
    handle_delete t st job =
      (st.put (hash job.key) (pre ++ i :: post), { job with error := some "NOT_FOUND" }) := by
  simp only [handle_delete, h, if_pos hg]

/-- The marking branch of `handle_delete`. -/
theorem handle_delete_marks (t : Int) (st : Store) (job : job_t) (pre post : List item_t)
    (i : item_t) (h : lookup t job.key (st (hash job.key)) = (pre, some (i, post)))
    (hg : ¬ (i.dead ≠ 0 ∧ job.exptime > i.exptime)) :
    handle_delete t st job =
      (st.put (hash job.key) (pre ++ { i with dead := 1, exptime := job.exptime } :: post),
        job) := by
  simp only [handle_delete, h, if_neg hg]

/-! ## Facts about the front end -/

/-- A value in the range of `long` survives the trip through `uint64_t`. -/
theorem to_long_to_u64 (v : Int) (h1 : -(2 ^ 63) ≤ v) (h2 : v < 2 ^ 63) :
    to_long (to_u64 v) = v := by
  unfold to_long to_u64
  have h64 : (2 : Int) ^ 64 = 18446744073709551616 := by norm_num
  have h63 : (2 : Int) ^ 63 = 9223372036854775808 := by norm_num
  rw [h63] at h1 h2
  have hnn : 0 ≤ v % 2 ^ 64 := Int.emod_nonneg _ (by norm_num)
  have hlt : v % 2 ^ 64 < 2 ^ 64 := Int.emod_lt_of_pos _ (by norm_num)
  have hcast : (((v % 2 ^ 64).toNat : Nat) : Int) = v % 2 ^ 64 := Int.toNat_of_nonneg hnn
  have hm : (v % 2 ^ 64).toNat % 2 ^ 64 = (v % 2 ^ 64).toNat := by
    apply Nat.mod_eq_of_lt
    have : ((v % 2 ^ 64).toNat : Int) < ((2 ^ 64 : Nat) : Int) := by
      rw [hcast]; push_cast; exact hlt
    exact_mod_cast this
  rw [hm]
  rw [h64] at hnn hlt hcast
  by_cases hv : 0 ≤ v
  · have : v % 18446744073709551616 = v := Int.emod_eq_of_lt hv (by omega)
    have hlt' : (v % 2 ^ 64).toNat < 2 ^ 63 := by
      have : ((v % 2 ^ 64).toNat : Int) < ((2 ^ 63 : Nat) : Int) := by
        rw [h64, hcast]; push_cast; omega
      exact_mod_cast this
    rw [if_pos hlt', h64, hcast]; omega
  · have : v % 18446744073709551616 = v + 18446744073709551616 := by omega
    have hlt' : ¬ (v % 2 ^ 64).toNat < 2 ^ 63 := by
      intro hc
      have : ((v % 2 ^ 64).toNat : Int) < ((2 ^ 63 : Nat) : Int) := by exact_mod_cast hc
      rw [h64, hcast] at this; push_cast at this; omega
    rw [if_neg hlt', h64, hcast]; omega

theorem strcasecmp_eq_zero (a b : List Nat) :
    strcasecmp a b = 0 ↔ a.map tolower = b.map tolower := by
  simp [strcasecmp, strcmp_eq_zero]

/-- A store command is none of the commands `parse_args` tests before it. -/
theorem store_command_not_other (command : List Nat) (h : store_command command = true) :
    ¬ (strcasecmp command (bytes "get") = 0 ∨ strcasecmp command (bytes "gets") = 0) ∧
    ¬ strcasecmp command (bytes "delete") = 0 ∧
    ¬ strcasecmp command (bytes "stat") = 0 ∧
    ¬ (strcasecmp command (bytes "incr") = 0 ∨ strcasecmp command (bytes "decr") = 0) := by
  simp only [store_command, Bool.or_eq_true, decide_eq_true_eq, strcasecmp_eq_zero] at h
  simp only [strcasecmp_eq_zero]
  rcases h with ((((h | h) | h) | h) | h) | h <;> rw [h] <;> decide

theorem store_cmd_ne_zero (command : List Nat) : store_cmd command ≠ 0 := by
  unfold store_cmd
  split_ifs <;> decide

/-- On a line with a store command `parse_args` is the store branch followed by the
sanity checks. -/
theorem parse_args_store (t : Int) (args0 : Nat → Nat) (buf command key rest : List Nat)
    (hscan : scan_head (c_str buf) = some (command, key, rest))
    (hcmd : store_command command = true) :
    parse_args t args0 buf =
      sanity (parse_store args0 command rest { job_zero with key := some key }) := by
  obtain ⟨h1, h2, h3, h4⟩ := store_command_not_other command hcmd
  simp only [parse_args, hscan, if_neg h1, if_neg h2, if_neg h3, if_neg h4, hcmd, if_true,
    _strdup]

theorem parse_store_cmd (args0 : Nat → Nat) (command rest : List Nat) (job : job_t) :
    (parse_store args0 command rest job).cmd = store_cmd command := by
  simp only [parse_store]
  split_ifs <;> rfl

/-- The delete branch makes a non-zero relative exptime absolute: the job carries
the clock plus the number of the line, when that sum is in the range of `time_t`. -/
theorem parse_delete_absolute (t n : Int) (rest r : List Nat) (job : job_t)
    (hscan : scan_ld rest = some (n, r)) (hn : n ≠ 0)
    (hlo : -(2 ^ 63) ≤ n + t) (hhi : n + t < 2 ^ 63) :
    (parse_delete t rest job).exptime = n + t := by
  have hvals : (scan_lds 2 rest).get? 0 = some n := by
    simp [scan_lds, hscan]
  simp only [parse_delete, hvals, if_neg hn]
  exact to_long_to_u64 (n + t) hlo hhi

/-- A scan leaves a sublist of the bucket. -/
theorem scanned_sublist (t : Int) (k : Option (List Nat)) (l : List item_t) :
    (scanned (lookup t k l)).Sublist l := by
  rcases hl : lookup t k l with ⟨pre, _ | ⟨i, post⟩⟩
  · have h := lookup_none t k l (by rw [hl])
    rw [hl] at h
    simp only at h
    simp only [scanned, h]
    exact List.filter_sublist l
  · obtain ⟨l1, h1, h2⟩ := lookup_split t k l pre post i hl
    simp only [scanned]
    rw [h1, h2]
    exact List.Sublist.append (List.filter_sublist l1) (List.Sublist.refl _)

/-- A scan keeps every item that is not expired. -/
theorem scanned_keeps (t : Int) (k : Option (List Nat)) (l : List item_t) (x : item_t)
    (hx : x ∈ l) (hxe : expired t x = false) : x ∈ scanned (lookup t k l) := by
  rcases hl : lookup t k l with ⟨pre, _ | ⟨i, post⟩⟩
  · have h := lookup_none t k l (by rw [hl])
    rw [hl] at h
    simp only at h
    simp only [scanned, h]
    exact List.mem_filter.2 ⟨hx, by simp [hxe]⟩
  · exact (lookup_keeps t k l pre post i hl).2 x hx hxe

/-- When every item under the key that is not expired is tombstoned, the scan ends
without a hit or with a tombstone. -/
theorem lookup_dead (t : Int) (k : Option (List Nat)) (l : List item_t)
    (hd : ∀ x ∈ l, x.key = k → expired t x = false → x.dead ≠ 0) :
    (lookup t k l).2 = none ∨ ∃ i post, (lookup t k l).2 = some (i, post) ∧ i.dead ≠ 0 := by
  rcases hl : lookup t k l with ⟨pre, _ | ⟨i, post⟩⟩
  · exact Or.inl rfl
  · obtain ⟨h1, h2, h3⟩ := lookup_hit t k l pre post i hl
    exact Or.inr ⟨i, post, rfl, hd i h3 h1 h2⟩

/-- The store a handler leaves when it changes no item. -/
theorem put_scanned_frame (t : Int) (st : Store) (k : Option (List Nat)) :
    (∀ h, ((st.put (hash k) (scanned (lookup t k (st (hash k))))) h).Sublist (st h)) ∧
    (∀ h x, x ∈ st h → expired t x = false →
      x ∈ (st.put (hash k) (scanned (lookup t k (st (hash k))))) h) := by
  constructor
  · intro h
    by_cases hh : h = hash k
    · subst hh
      rw [Store.put_same]
      exact scanned_sublist t k _
    · rw [Store.put_other st _ h _ hh]
  · intro h x hx hxe
    by_cases hh : h = hash k
    · subst hh
      rw [Store.put_same]
      exact scanned_keeps t k _ x hx hxe
    · rw [Store.put_other st _ h _ hh]
      exact hx

/-- No handler of the table writes `NOT_IMPLEMENT` into the error slot. -/
theorem handler_error_ne (t : Int) (st : Store) (job : job_t)
    (f : Int → Store → job_t → Store × job_t) (hf : handlers job.cmd = some f)
    (herr : job.error ≠ some "NOT_IMPLEMENT") :
    (f t st job).2.error ≠ some "NOT_IMPLEMENT" := by
  unfold handlers at hf
  split_ifs at hf <;> simp only [Option.some.injEq, reduceCtorEq] at hf <;> subst hf
  · simp only [handle_set]; split <;> (try split_ifs) <;> exact herr
  · simp only [handle_add]; split <;> first | exact herr | simp
  · simp only [handle_replace]; split <;> (try split_ifs) <;> first | exact herr | simp
  · simp only [handle_append]; split <;> (try split_ifs) <;> first | exact herr | simp
  · simp only [handle_prepend]; split <;> (try split_ifs) <;> first | exact herr | simp
  · simp only [handle_get]; split <;> (try split_ifs) <;> first | exact herr | simp
  · simp only [handle_delete]; split <;> (try split_ifs) <;> first | exact herr | simp
  · simp [handle_stat]
  · simp [handle_0ops]

/-- What the seven handlers of the store do to the table: the bucket of the key
becomes the kept items alone, or with a new item under the key in front, or with
the found item replaced by one with the same key. -/
theorem handler_shape (t : Int) (st : Store) (job : job_t)
    (f : Int → Store → job_t → Store × job_t)
    (hf : f ∈ [handle_set, handle_add, handle_replace, handle_append, handle_prepend,
      handle_get, handle_delete]) :
    (∃ pre, lookup t job.key (st (hash job.key)) = (pre, none) ∧
      ((f t st job).1 = st.put (hash job.key) pre ∨
        ∃ i0, i0.key = job.key ∧ (f t st job).1 = st.put (hash job.key) (i0 :: pre))) ∨
    (∃ pre i post j, lookup t job.key (st (hash job.key)) = (pre, some (i, post)) ∧
      j.key = i.key ∧ (f t st job).1 = st.put (hash job.key) (pre ++ j :: post)) := by
  have hdup : _strdup job.key = job.key := by cases job.key <;> rfl
  simp only [List.mem_cons, List.mem_singleton, List.not_mem_nil, or_false] at hf
  rcases hl : lookup t job.key (st (hash job.key)) with ⟨pre, _ | ⟨i, post⟩⟩
  · refine Or.inl ⟨pre, rfl, ?_⟩
    rcases hf with rfl | rfl | rfl | rfl | rfl | rfl | rfl
    · exact Or.inr ⟨item_t.mk job.key job.value job.length job.exptime 0 job.flags, rfl,
        by simp [handle_set, hl, insert, hdup]⟩
    · exact Or.inr ⟨item_t.mk job.key job.value job.length job.exptime 0 job.flags, rfl,
        by simp [handle_add, hl, insert, hdup]⟩
    · exact Or.inl (by simp [handle_replace, hl])
    · exact Or.inl (by simp [handle_append, hl])
    · exact Or.inl (by simp [handle_prepend, hl])
    · exact Or.inl (by simp [handle_get, hl])
    · exact Or.inl (by simp [handle_delete, hl])
  · have keep : ∀ g : Int → Store → job_t → Store × job_t,
        (g t st job).1 = st.put (hash job.key) (pre ++ i :: post) →
        ∃ pre' i' post' j, (pre, some (i, post)) = (pre', some (i', post')) ∧
          j.key = i'.key ∧ (g t st job).1 = st.put (hash job.key) (pre' ++ j :: post') :=
      fun g hg => ⟨pre, i, post, i, rfl, rfl, hg⟩
    have change : ∀ (g : Int → Store → job_t → Store × job_t) (j : item_t), j.key = i.key →
        (g t st job).1 = st.put (hash job.key) (pre ++ j :: post) →
        ∃ pre' i' post' j, (pre, some (i, post)) = (pre', some (i', post')) ∧
          j.key = i'.key ∧ (g t st job).1 = st.put (hash job.key) (pre' ++ j :: post') :=
      fun g j hj hg => ⟨pre, i, post, j, rfl, hj, hg⟩
    refine Or.inr ?_
    rcases hf with rfl | rfl | rfl | rfl | rfl | rfl | rfl
    · by_cases h1 : job.length = i.length
      · exact change _
          { i with value := _memcpy i.value 0 job.value i.length,
                   exptime := job.exptime, dead := 0, flags := job.flags } rfl
          (by simp only [handle_set, hl, if_pos h1])
      · exact change _
          { i with value := job.value, length := job.length,
                   exptime := job.exptime, dead := 0, flags := job.flags } rfl
          (by simp only [handle_set, hl, if_neg h1])
    · exact keep _ (by simp only [handle_add, hl])
    · by_cases h1 : i.dead ≠ 0
      · exact keep _ (by simp only [handle_replace, hl, if_pos h1])
      · exact change _ { i with value := job.value, length := job.length } rfl
          (by simp only [handle_replace, hl, if_neg h1])
    · by_cases h1 : i.dead ≠ 0
      · exact keep _ (by simp only [handle_append, hl, if_pos h1])
      · by_cases h2 : job.length ≠ 0
        · by_cases h3 : i.value = none
          · exact keep _ (by simp only [handle_append, hl, if_neg h1, if_pos h2, if_pos h3])
          · exact change _
              { i with
                  value := _memcpy (_memcpy (malloc ((job.length + i.length) % 2 ^ 64)) 0
                    i.value i.length) i.length job.value job.length,
                  length := (i.length + job.length) % 2 ^ 64 } rfl
              (by simp only [handle_append, hl, if_neg h1, if_pos h2, if_neg h3])
        · exact keep _ (by simp only [handle_append, hl, if_neg h1, if_neg h2])
    · by_cases h1 : i.dead ≠ 0
      · exact keep _ (by simp only [handle_prepend, hl, if_pos h1])
      · by_cases h2 : job.length ≠ 0
        · by_cases h3 : i.value = none
          · exact keep _ (by simp only [handle_prepend, hl, if_neg h1, if_pos h2, if_pos h3])
          · exact change _
              { i with
                  value := _memcpy (_memcpy (malloc ((job.length + i.length) % 2 ^ 64)) 0
                    job.value job.length) job.length i.value i.length,
                  length := (i.length + job.length) % 2 ^ 64 } rfl
              (by simp only [handle_prepend, hl, if_neg h1, if_pos h2, if_neg h3])
        · exact keep _ (by simp only [handle_prepend, hl, if_neg h1, if_neg h2])
    · by_cases h1 : i.dead ≠ 0
      · exact keep _ (by simp only [handle_get, hl, if_pos h1])
      · exact keep _ (by simp only [handle_get, hl, if_neg h1])
    · by_cases h1 : i.dead ≠ 0 ∧ job.exptime > i.exptime
      · exact keep _ (by simp only [handle_delete, hl, if_pos h1])
      · exact change _ { i with dead := 1, exptime := job.exptime } rfl
          (by simp only [handle_delete, hl, if_neg h1])

/-- The seven handlers keep the keys of every bucket distinct and every item in
the bucket of its key. -/
theorem handler_keeps_unique (t : Int) (st : Store) (job : job_t)
    (f : Int → Store → job_t → Store × job_t)
    (hf : f ∈ [handle_set, handle_add, handle_replace, handle_append, handle_prepend,
      handle_get, handle_delete])
    (hinv : ∀ h, ((st h).map item_t.key).Nodup ∧ ∀ x ∈ st h, hash x.key = h) :
    ∀ h, (((f t st job).1 h).map item_t.key).Nodup ∧
      ∀ x ∈ (f t st job).1 h, hash x.key = h := by
  have hput : ∀ B : List item_t, (B.map item_t.key).Nodup →
      (∀ x ∈ B, hash x.key = hash job.key) →
      ∀ h, (((st.put (hash job.key) B) h).map item_t.key).Nodup ∧
        ∀ x ∈ (st.put (hash job.key) B) h, hash x.key = h := by
    intro B hB1 hB2 h
    by_cases hh : h = hash job.key
    · subst hh
      rw [Store.put_same]
      exact ⟨hB1, hB2⟩
    · rw [Store.put_other st _ h _ hh]
      exact hinv h
  obtain ⟨hnd, hhash⟩ := hinv (hash job.key)
  rcases handler_shape t st job f hf with ⟨pre, hl, hres⟩ | ⟨pre, i, post, j, hl, hjk, hres⟩
  · have hpre : pre = (st (hash job.key)).filter (fun x => !expired t x) := by
      have := lookup_none t job.key (st (hash job.key)) (by rw [hl])
      rw [hl] at this
      exact this
    have hsub : pre.Sublist (st (hash job.key)) := by
      rw [hpre]; exact List.filter_sublist _
    have hnd' : (pre.map item_t.key).Nodup := (hsub.map _).nodup hnd
    have hh' : ∀ x ∈ pre, hash x.key = hash job.key := fun x hx => hhash x (hsub.subset hx)
    rcases hres with hres | ⟨i0, hk0, hres⟩
    · rw [hres]; exact hput pre hnd' hh'
    · rw [hres]
      apply hput
      · rw [List.map_cons, List.nodup_cons]
        refine ⟨?_, hnd'⟩
        intro hmem
        obtain ⟨x, hx, hxk⟩ := List.mem_map.1 hmem
        have := lookup_pre t job.key (st (hash job.key)) x (by rw [hl]; exact hx)
        exact this.2.2 (by rw [hxk, hk0])
      · intro x hx
        rcases List.mem_cons.1 hx with rfl | hx
        · rw [hk0]
        · exact hh' x hx
  · obtain ⟨h1, h2⟩ := lookup_keeps t job.key _ pre post i hl
    obtain ⟨l1, hsplit, hpre⟩ := lookup_split t job.key _ pre post i hl
    have hsub : (pre ++ i :: post).Sublist (st (hash job.key)) := by
      rw [hsplit, hpre]
      exact List.Sublist.append (List.filter_sublist l1) (List.Sublist.refl _)
    have hmap : (pre ++ j :: post).map item_t.key = (pre ++ i :: post).map item_t.key := by
      simp [hjk]
    rw [hres]
    apply hput
    · rw [hmap]; exact (hsub.map _).nodup hnd
    · intro x hx
      rcases List.mem_append.1 hx with hx | hx
      · exact hhash x (h1 x (List.mem_append_left _ hx))
      · rcases List.mem_cons.1 hx with rfl | hx
        · rw [hjk]; exact hhash i (h1 i (by simp))
        · exact hhash x (h1 x (by simp [hx]))

/-- The 32-bit accumulator of `hash` agrees with the unbounded sum modulo 4096. -/
theorem hash_fold (a : List Nat) (c : Nat) :
    (a.foldl (fun c b => (c * 31 + b) % 2 ^ 32) c) % 4096 =
      (c * 31 ^ a.length + hash_sum a) % 4096 := by
  induction a generalizing c with
  | nil => simp [hash_sum]
  | cons b bs ih =>
    rw [List.foldl_cons, ih]
    have hd : (4096 : Nat) ∣ 2 ^ 32 := ⟨2 ^ 20, by norm_num⟩
    have h1 : Nat.ModEq 4096 ((c * 31 + b) % 2 ^ 32) (c * 31 + b) :=
      (Nat.mod_modEq (c * 31 + b) (2 ^ 32)).of_dvd hd
    have h2 : Nat.ModEq 4096 ((c * 31 + b) % 2 ^ 32 * 31 ^ bs.length + hash_sum bs)
        ((c * 31 + b) * 31 ^ bs.length + hash_sum bs) :=
      (h1.mul_right _).add_right _
    have h3 : (c * 31 + b) * 31 ^ bs.length + hash_sum bs =
        c * 31 ^ (b :: bs).length + hash_sum (b :: bs) := by
      simp only [List.length_cons, hash_sum, pow_succ]
      ring
    rw [← h3]
    exact h2

/-- An item expired at a clock is expired at every later clock. -/
theorem expired_mono (t t2 : Int) (x : item_t) (ht : t ≤ t2) (h : expired t x = true) :
    expired t2 x = true := by
  simp only [expired, Bool.and_eq_true, decide_eq_true_eq] at h ⊢
  exact ⟨h.1, lt_of_lt_of_le h.2 ht⟩

/-- The item `lookup` returns is the first item of the bucket that is not expired
and carries the key. -/
theorem lookup_hit_filter (t : Int) (k : Option (List Nat)) (l : List item_t) :
    (lookup t k l).2.map Prod.fst =
      (l.filter (fun x => !expired t x && decide (x.key = k))).head? := by
  induction l with
  | nil => simp [lookup]
  | cons y rest ih =>
    by_cases hy : expired t y = true
    · rw [lookup_cons_expired t k y rest hy, ih]
      simp [List.filter_cons, hy]
    · have hy' : expired t y = false := by simpa using hy
      by_cases hk : y.key = k
      · rw [lookup_cons_hit t k y rest hy' hk]
        simp [List.filter_cons, hy', hk]
      · rw [lookup_cons_miss t k y rest hy' hk]
        simp only [ih]
        simp [List.filter_cons, hy', hk]

/-- The job a fetch returns depends on the store only through the item found. -/
theorem handle_get_congr (t : Int) (st st1 : Store) (g : job_t)
    (h : (lookup t g.key (st1 (hash g.key))).2.map Prod.fst =
      (lookup t g.key (st (hash g.key))).2.map Prod.fst) :
    (handle_get t st1 g).2 = (handle_get t st g).2 := by
  rcases hl1 : lookup t g.key (st1 (hash g.key)) with ⟨pre1, _ | ⟨i1, post1⟩⟩ <;>
    rcases hl : lookup t g.key (st (hash g.key)) with ⟨pre, _ | ⟨i, post⟩⟩ <;>
    rw [hl1, hl] at h <;> simp only [Option.map_none', Option.map_some', reduceCtorEq,
      Option.some.injEq] at h
  · simp [handle_get, hl1, hl]
  · subst h
    simp only [handle_get, hl1, hl]
    split_ifs <;> rfl

/-- A fetch of another key sees the same item in two buckets that hold the same
live items under that key, in the same order. -/
theorem get_other_bucket (t : Int) (st st1 : Store) (g : job_t)
    (h : (st1 (hash g.key)).filter (fun x => !expired t x && decide (x.key = g.key)) =
      (st (hash g.key)).filter (fun x => !expired t x && decide (x.key = g.key))) :
    (handle_get t st1 g).2 = (handle_get t st g).2 := by
  apply handle_get_congr
  rw [lookup_hit_filter, lookup_hit_filter, h]

/-- Items not expired at the earlier clock can be dropped before the filter of a
later clock. -/
theorem filter_live_purged (t t2 : Int) (k : Option (List Nat)) (l : List item_t)
    (ht : t ≤ t2) :
    (l.filter (fun x => !expired t x)).filter
        (fun x => !expired t2 x && decide (x.key = k)) =
      l.filter (fun x => !expired t2 x && decide (x.key = k)) := by
  rw [List.filter_filter]
  apply List.filter_congr
  intro x _
  by_cases h : expired t x = true
  · simp [h, expired_mono t t2 x ht h]
  · have h' : expired t x = false := by simpa using h
    simp [h']

/-- The count of a predicate after one entry of a list is overwritten. -/
theorem countP_set_get (p : wstate → Bool) (l : List wstate) (i : Nat) (a x : wstate)
    (h : l.get? i = some x) :
    (l.set i a).countP p + (if p x then 1 else 0) =
      l.countP p + (if p a then 1 else 0) := by
  induction l generalizing i with
  | nil => simp at h
  | cons y rest ih =>
    cases i with
    | zero =>
      simp only [List.get?_cons_zero, Option.some.injEq] at h
      subst h
      simp only [List.set_cons_zero, List.countP_cons]
      omega
    | succ i =>
      simp only [List.get?_cons_succ] at h
      have := ih i h
      simp only [List.set_cons_succ, List.countP_cons]
      omega

/-- Every locked section keeps `job_all - job_done` equal to the number of jobs in
the slot or in the hands of a worker, and at most `NWORKER`. -/
theorem sched_step_inv (s : sched_t) (e : event)
    (h1 : s.job_all - s.job_done = in_flight s)
    (h2 : s.job_all - s.job_done ≤ NWORKER) :
    (sched_step s e).job_all - (sched_step s e).job_done = in_flight (sched_step s e) ∧
    (sched_step s e).job_all - (sched_step s e).job_done ≤ NWORKER := by
  cases e with
  | put job =>
    simp only [sched_step, put_job]
    split_ifs with hg
    · obtain ⟨-, hslot, hlt⟩ := hg
      simp only [in_flight, hslot, Option.isSome_none, Bool.false_eq_true, if_false,
        Option.isSome_some, if_true] at h1 ⊢
      constructor <;> omega
    · exact ⟨h1, h2⟩
  | enter w =>
    simp only [sched_step, get_job_enter]
    split
    · rename_i hw
      split_ifs
      · have := countP_set_get wstate.busy s.workers w wstate.gone wstate.top hw
        simp only [in_flight, wstate.busy] at h1 this ⊢
        constructor <;> omega
      · have := countP_set_get wstate.busy s.workers w wstate.waiting wstate.top hw
        simp only [in_flight, wstate.busy] at h1 this ⊢
        constructor <;> omega
    · exact ⟨h1, h2⟩
  | wake w =>
    simp only [sched_step, get_job_wake]
    split
    · rename_i hw
      split
      · rename_i job hjob
        have := countP_set_get wstate.busy s.workers w (wstate.running job) wstate.waiting hw
        simp only [in_flight, wstate.busy, hjob, Option.isSome_some, if_true,
          Option.isSome_none, Bool.false_eq_true, if_false] at h1 this ⊢
        constructor <;> omega
      · rename_i hjob
        split_ifs
        · have := countP_set_get wstate.busy s.workers w wstate.gone wstate.waiting hw
          simp only [in_flight, wstate.busy, hjob] at h1 this ⊢
          constructor <;> omega
        · have := countP_set_get wstate.busy s.workers w wstate.top wstate.waiting hw
          simp only [in_flight, wstate.busy, hjob] at h1 this ⊢
          constructor <;> omega
    · exact ⟨h1, h2⟩
  | done w =>
    simp only [sched_step, done_job]
    split
    · rename_i job hw
      have := countP_set_get wstate.busy s.workers w wstate.top (wstate.running job) hw
      simp only [in_flight, wstate.busy, Bool.false_eq_true, if_false, if_true] at h1 this ⊢
      constructor <;> omega
    · exact ⟨h1, h2⟩
  | stop =>
    simp only [sched_step, stop]
    split_ifs
    · exact ⟨h1, h2⟩
    · exact ⟨h1, h2⟩

/-- The counters along every interleaving that starts in a state where they count
the jobs in flight. -/
theorem sched_run_inv (evs : List event) (s : sched_t)
    (h1 : s.job_all - s.job_done = in_flight s)
    (h2 : s.job_all - s.job_done ≤ NWORKER) :
    (sched_run s evs).job_all - (sched_run s evs).job_done = in_flight (sched_run s evs) ∧
    (sched_run s evs).job_all - (sched_run s evs).job_done ≤ NWORKER := by
  induction evs generalizing s with
  | nil => exact ⟨h1, h2⟩
  | cons e rest ih =>
    obtain ⟨h1', h2'⟩ := sched_step_inv s e h1 h2
    exact ih (sched_step s e) h1' h2'

/-! ## Facts about the linked nodes -/

/-- A chain read through pointer fields that agree on its nodes. -/
theorem links_congr (next prev next2 prev2 : Nat → Nat) (a : Nat) (l : List Nat) (b : Nat)
    (hn : ∀ x ∈ a :: l, next2 x = next x) (hp : ∀ x ∈ l ++ [b], prev2 x = prev x)
    (h : links next prev a l b) : links next2 prev2 a l b := by
  induction l generalizing a with
  | nil =>
    obtain ⟨h1, h2⟩ := h
    exact ⟨by rw [hn a (by simp), h1], by rw [hp b (by simp), h2]⟩
  | cons x xs ih =>
    obtain ⟨h1, h2, h3⟩ := h
    refine ⟨by rw [hn a (by simp), h1], by rw [hp x (by simp), h2], ?_⟩
    exact ih x (fun y hy => hn y (List.mem_cons_of_mem _ hy))
      (fun y hy => hp y (by simp only [List.cons_append]; exact List.mem_cons_of_mem _ hy)) h3

/-- A chain splits at each of its nodes. -/
theorem links_append (next prev : Nat → Nat) (a : Nat) (l1 : List Nat) (x : Nat)
    (l2 : List Nat) (b : Nat) :
    links next prev a (l1 ++ x :: l2) b ↔ links next prev a l1 x ∧ links next prev x l2 b := by
  induction l1 generalizing a with
  | nil => simp [links, and_assoc]
  | cons y ys ih => simp [links, ih, and_assoc]

/-- The end of a chain: `next` of its last node and `prev` of its target. -/
theorem links_last (next prev : Nat → Nat) (a : Nat) (l : List Nat) (b : Nat)
    (h : links next prev a l b) : next (l.getLastD a) = b ∧ prev b = l.getLastD a := by
  induction l generalizing a with
  | nil => exact h
  | cons x xs ih =>
    obtain ⟨-, -, h3⟩ := h
    rw [List.getLastD_cons]
    exact ih x h3

/-- The start of a chain: `next` of its source and `prev` of its first node. -/
theorem links_head (next prev : Nat → Nat) (a : Nat) (l : List Nat) (b : Nat)
    (h : links next prev a l b) : next a = l.headD b ∧ prev (l.headD b) = a := by
  cases l with
  | nil => exact h
  | cons x xs => exact ⟨h.1, h.2.1⟩

/-- The last node of a chain is its source or one of its nodes. -/
theorem getLastD_mem (l : List Nat) (a : Nat) : l.getLastD a ∈ a :: l := by
  induction l generalizing a with
  | nil => simp
  | cons x xs ih =>
    have := ih x
    simp only [List.getLastD_cons]
    exact List.mem_cons_of_mem _ this

/-- The first node of a chain is one of its nodes or its target. -/
theorem headD_mem (l : List Nat) (b : Nat) : l.headD b ∈ l ++ [b] := by
  cases l <;> simp

/-- Every node of a ring is the `next` of its `prev` and the `prev` of its `next`. -/
theorem links_node (next prev : Nat → Nat) (e : Nat) (l : List Nat)
    (h : links next prev e l e) :
    ∀ n ∈ e :: l, next (prev n) = n ∧ prev (next n) = n := by
  intro n hn
  rcases List.mem_cons.1 hn with rfl | hn
  · obtain ⟨h1, h2⟩ := links_last next prev n l n h
    obtain ⟨h3, h4⟩ := links_head next prev n l n h
    exact ⟨by rw [h2, h1], by rw [h3, h4]⟩
  · obtain ⟨l1, l2, rfl⟩ := List.append_of_mem hn
    obtain ⟨ha, hb⟩ := (links_append next prev e l1 n l2 e).1 h
    obtain ⟨h1, h2⟩ := links_last next prev e l1 n ha
    obtain ⟨h3, h4⟩ := links_head next prev n l2 e hb
    exact ⟨by rw [h2, h1], by rw [h3, h4]⟩

/-- The chain in front of an unlinked node, closed on the node behind it. -/
theorem links_bypass (next prev : Nat → Nat) (a : Nat) (l : List Nat) (x n : Nat)
    (h : links next prev a l x) (hnd : (a :: l).Nodup) (hn : n ∉ l) :
    links (Function.update next (l.getLastD a) n) (Function.update prev n (l.getLastD a))
      a l n := by
  induction l generalizing a with
  | nil =>
    show Function.update next a n a = n ∧ Function.update prev n a n = a
    simp
  | cons y ys ih =>
    obtain ⟨h1, h2, h3⟩ := h
    have hnd2 : (y :: ys).Nodup := (List.nodup_cons.1 hnd).2
    have ha : a ∉ y :: ys := (List.nodup_cons.1 hnd).1
    have hlast : ys.getLastD y ∈ y :: ys := getLastD_mem ys y
    have hne : a ≠ ys.getLastD y := fun hc => ha (hc ▸ hlast)
    have hyn : y ≠ n := fun hc => hn (by simp [hc])
    simp only [List.getLastD_cons]
    refine ⟨?_, ?_, ih y h3 hnd2 (fun hc => hn (List.mem_cons_of_mem _ hc))⟩
    · rw [Function.update_noteq hne]; exact h1
    · rw [Function.update_noteq hyn]; exact h2

/-- The function `_unlink` on a node of a sound list: `fatal` is not called, the
node leaves its list, and all lists stay sound. -/
theorem unlink_ok (hp : heap_t) (A : Nat → List Nat) (e : Nat) (pre : List Nat) (i : Nat)
    (post : List Nat) (hok : heap_ok hp A) (he : e < HTABLE_SIZE)
    (hA : A e = pre ++ i :: post) :
    ∃ hp1, p_unlink hp i = Except.ok hp1 ∧ hp1.item = hp.item ∧
      hp1.live.length ≤ hp.live.length ∧
      heap_ok hp1 (Function.update A e (pre ++ post)) := by
  obtain ⟨hl, hnd, hmem, hdisj⟩ := hok
  have hle := hl e he
  rw [hA] at hle
  obtain ⟨ha, hb⟩ := (links_append hp.next hp.prev e pre i post e).1 hle
  obtain ⟨h1, h2⟩ := links_last _ _ e pre i ha
  obtain ⟨h3, h4⟩ := links_head _ _ i post e hb
  have hcheck : ¬ (hp.next (hp.prev i) ≠ i ∨ hp.prev (hp.next i) ≠ i) := by
    rw [h2, h1, h3, h4]; simp
  have hnde : (pre ++ i :: post).Nodup := hA ▸ hnd e he
  have hbig : ∀ a ∈ pre ++ i :: post, HTABLE_SIZE ≤ a := fun a h =>
    (hmem e he a (hA ▸ h)).1
  have hpre_nd : pre.Nodup := (List.nodup_append.1 hnde).1
  have hpost_nd : post.Nodup := (List.nodup_cons.1 (List.nodup_append.1 hnde).2.1).2
  have hdj : ∀ a, a ∈ pre → a ∉ post := fun a h1 h2 =>
    (List.nodup_append.1 hnde).2.2 h1 (List.mem_cons_of_mem _ h2)
  have hi_pre : i ∉ pre := fun h =>
    (List.nodup_append.1 hnde).2.2 h (List.mem_cons_self _ _)
  have hi_post : i ∉ post := (List.nodup_cons.1 (List.nodup_append.1 hnde).2.1).1
  have he_pre : e ∉ pre := fun h => by
    have := hbig e (List.mem_append_left _ h); omega
  have he_post : e ∉ post := fun h => by
    have := hbig e (List.mem_append_right _ (List.mem_cons_of_mem _ h)); omega
  have hp_mem : hp.prev i ∈ e :: pre := h2 ▸ getLastD_mem pre e
  have hn_mem : hp.next i ∈ post ++ [e] := h3 ▸ headD_mem post e
  refine ⟨heap_t.mk (Function.update hp.next (hp.prev i) (hp.next i))
    (Function.update hp.prev (hp.next i) (hp.prev i)) hp.item (hp.live.erase i),
    by simp only [p_unlink, if_neg hcheck], rfl, ?_, ?_, ?_, ?_, ?_⟩
  · exact (List.length_erase_le i hp.live)
  · -- the links of every bucket
    intro h hh
    by_cases heq : h = e
    · subst heq
      rw [Function.update_same]
      show links (Function.update hp.next (hp.prev i) (hp.next i))
        (Function.update hp.prev (hp.next i) (hp.prev i)) h (pre ++ post) h
      rw [h2, h3]
      cases post with
      | nil =>
        rw [List.append_nil]
        exact links_bypass hp.next hp.prev h pre i h ha
          (List.nodup_cons.2 ⟨he_pre, hpre_nd⟩) he_pre
      | cons y ys =>
        obtain ⟨-, -, hb3⟩ := hb
        have hy_pre : y ∉ pre := fun hc => hdj y hc (List.mem_cons_self _ _)
        refine (links_append _ _ h pre y ys h).2
          ⟨links_bypass hp.next hp.prev h pre i y ha
            (List.nodup_cons.2 ⟨he_pre, hpre_nd⟩) hy_pre, ?_⟩
        apply links_congr hp.next hp.prev _ _ y ys h _ _ hb3
        · intro x hx
          apply Function.update_noteq
          intro hc
          have hx2 : pre.getLastD h ∈ h :: pre := getLastD_mem pre h
          rw [← hc] at hx2
          rcases List.mem_cons.1 hx2 with rfl | hx2
          · exact he_post hx
          · exact hdj x hx2 hx
        · intro x hx
          apply Function.update_noteq
          intro hc
          simp only [List.headD_cons] at hc
          subst hc
          rcases List.mem_append.1 hx with hx | hx
          · exact (List.nodup_cons.1 hpost_nd).1 hx
          · simp only [List.mem_singleton] at hx
            subst hx
            exact he_post (List.mem_cons_self _ _)
    · rw [Function.update_noteq heq]
      have hsep : ∀ x, x ∈ h :: A h → x ∉ e :: (pre ++ i :: post) := by
        intro x hx hc
        rcases List.mem_cons.1 hx with rfl | hx
        · rcases List.mem_cons.1 hc with hc | hc
          · exact heq hc
          · have := hbig x hc; omega
        · rcases List.mem_cons.1 hc with rfl | hc
          · have := (hmem h hh x hx).1; omega
          · exact heq (hdisj h e hh he x hx (hA ▸ hc))
      apply links_congr hp.next hp.prev _ _ h (A h) h _ _ (hl h hh)
      · intro x hx
        apply Function.update_noteq
        intro hc
        apply hsep x hx
        rw [hc]
        rcases List.mem_cons.1 hp_mem with hq | hq
        · rw [hq]; exact List.mem_cons_self _ _
        · exact List.mem_cons_of_mem _ (List.mem_append_left _ hq)
      · intro x hx
        apply Function.update_noteq
        intro hc
        have hx2 : x ∈ h :: A h := by
          rcases List.mem_append.1 hx with hx | hx
          · exact List.mem_cons_of_mem _ hx
          · simp only [List.mem_singleton] at hx
            rw [hx]; exact List.mem_cons_self _ _
        apply hsep x hx2
        rw [hc]
        rcases List.mem_append.1 hn_mem with hq | hq
        · exact List.mem_cons_of_mem _
            (List.mem_append_right _ (List.mem_cons_of_mem _ hq))
        · simp only [List.mem_singleton] at hq
          rw [hq]; exact List.mem_cons_self _ _
  · -- distinct nodes
    intro h hh
    by_cases heq : h = e
    · subst heq
      rw [Function.update_same]
      exact List.Nodup.sublist
        (List.Sublist.append (List.Sublist.refl pre) (List.sublist_cons_self i post)) hnde
    · rw [Function.update_noteq heq]; exact hnd h hh
  · -- nodes in use
    intro h hh a hmema
    by_cases heq : h = e
    · subst heq
      rw [Function.update_same] at hmema
      have ha_in : a ∈ pre ++ i :: post := by
        rcases List.mem_append.1 hmema with hq | hq
        · exact List.mem_append_left _ hq
        · exact List.mem_append_right _ (List.mem_cons_of_mem _ hq)
      have hai : a ≠ i := by
        rintro rfl
        rcases List.mem_append.1 hmema with hq | hq
        · exact hi_pre hq
        · exact hi_post hq
      exact ⟨hbig a ha_in, (List.mem_erase_of_ne hai).2 (hmem h hh a (hA ▸ ha_in)).2⟩
    · rw [Function.update_noteq heq] at hmema
      have hai : a ≠ i := by
        rintro rfl
        exact heq (hdisj h e hh he a hmema (by rw [hA]; simp))
      exact ⟨(hmem h hh a hmema).1, (List.mem_erase_of_ne hai).2 (hmem h hh a hmema).2⟩
  · -- no node in two buckets
    intro h h2' hh hh2 a ha1 ha2
    have sub : ∀ h, h < HTABLE_SIZE → ∀ a, a ∈ Function.update A e (pre ++ post) h →
        a ∈ A h := by
      intro h _ a hq
      by_cases heq : h = e
      · subst heq
        rw [Function.update_same] at hq
        rw [hA]
        rcases List.mem_append.1 hq with hq | hq
        · exact List.mem_append_left _ hq
        · exact List.mem_append_right _ (List.mem_cons_of_mem _ hq)
      · rw [Function.update_noteq heq] at hq; exact hq
    exact hdisj h h2' hh hh2 a (sub h hh a ha1) (sub h2' hh2 a ha2)

/-- The running maximum bounds its start and every element. -/
theorem foldl_max_ge (l : List Nat) (c : Nat) :
    c ≤ l.foldl max c ∧ ∀ x ∈ l, x ≤ l.foldl max c := by
  induction l generalizing c with
  | nil => simp
  | cons y ys ih =>
    obtain ⟨h1, h2⟩ := ih (max c y)
    simp only [List.foldl_cons]
    refine ⟨le_trans (le_max_left c y) h1, ?_⟩
    intro x hx
    rcases List.mem_cons.1 hx with rfl | hx
    · exact le_trans (le_max_right c x) h1
    · exact h2 x hx

/-- The address `p_malloc` returns lies behind the table and is not in use. -/
theorem p_malloc_fresh (hp : heap_t) : HTABLE_SIZE ≤ p_malloc hp ∧ p_malloc hp ∉ hp.live := by
  obtain ⟨h1, h2⟩ := foldl_max_ge hp.live HTABLE_SIZE
  constructor
  · unfold p_malloc; omega
  · intro hc
    have := h2 _ hc
    unfold p_malloc at this
    omega

/-- The function `insert` of a fresh node into a sound list: `fatal` is not
called, the node is the first of its list, and all lists stay sound. -/
theorem insert_ok (hp : heap_t) (A : Nat → List Nat) (e a : Nat) (it : item_t)
    (hok : heap_ok hp A) (he : e < HTABLE_SIZE) (ha1 : HTABLE_SIZE ≤ a)
    (ha2 : a ∉ hp.live) :
    ∃ hp2, p_insert { hp with live := a :: hp.live,
                              item := Function.update hp.item a it } e a = Except.ok hp2 ∧
      hp2.item = Function.update hp.item a it ∧
      heap_ok hp2 (Function.update A e (a :: A e)) := by
  obtain ⟨hl, hnd, hmem, hdisj⟩ := hok
  obtain ⟨h3, h4⟩ := links_head _ _ e (A e) e (hl e he)
  have hfresh : ∀ h, h < HTABLE_SIZE → a ∉ A h := fun h hh hc => ha2 (hmem h hh a hc).2
  have hea : e ≠ a := by omega
  have hn_mem : hp.next e ∈ A e ++ [e] := h3 ▸ headD_mem (A e) e
  refine ⟨heap_t.mk (Function.update (Function.update hp.next e a) a (hp.next e))
    (Function.update (Function.update hp.prev (hp.next e) a) a e)
    (Function.update hp.item a it) (a :: hp.live), ?_, rfl, ?_, ?_, ?_, ?_⟩
  · have hcheck : ¬ hp.prev (hp.next e) ≠ e := by rw [h3, h4]; simp
    simp only [p_insert, if_neg hcheck]
  · intro h hh
    by_cases heq : h = e
    · subst heq
      rw [Function.update_same]
      show links (Function.update (Function.update hp.next h a) a (hp.next h))
        (Function.update (Function.update hp.prev (hp.next h) a) a h) h (a :: A h) h
      refine ⟨?_, ?_, ?_⟩
      · rw [Function.update_noteq hea, Function.update_same]
      · rw [Function.update_same]
      · have hlh := hl h hh
        have hndh := hnd h hh
        have hbigh := fun x hx => (hmem h hh x hx).1
        have hfr := hfresh h hh
        rw [h3]
        cases hAe : A h with
        | nil =>
          rw [hAe] at h3
          refine ⟨by rw [Function.update_same]; rfl, ?_⟩
          rw [Function.update_noteq hea]
          show Function.update hp.prev h a h = a
          rw [Function.update_same]
        | cons x xs =>
          rw [hAe] at hlh hndh hbigh hfr
          obtain ⟨-, -, hl3⟩ := hlh
          have hxa : x ≠ a := fun hc => hfr (by simp [hc])
          have hxe : x ≠ h := by
            have := hbigh x (by simp); omega
          refine ⟨by rw [Function.update_same]; rfl, ?_, ?_⟩
          · rw [Function.update_noteq hxa]
            show Function.update hp.prev x a x = a
            rw [Function.update_same]
          · apply links_congr hp.next hp.prev _ _ x xs h _ _ hl3
            · intro y hy
              have hya : y ≠ a := fun hc => hfr (hc ▸ hy)
              have hye : y ≠ h := by
                have := hbigh y hy; omega
              rw [Function.update_noteq hya, Function.update_noteq hye]
            · intro y hy
              have hya : y ≠ a := by
                rintro rfl
                rcases List.mem_append.1 hy with hy | hy
                · exact hfr (List.mem_cons_of_mem _ hy)
                · simp only [List.mem_singleton] at hy; omega
              have hyx : y ≠ x := by
                rintro rfl
                rcases List.mem_append.1 hy with hy | hy
                · exact (List.nodup_cons.1 hndh).1 hy
                · simp only [List.mem_singleton] at hy; exact hxe hy
              rw [Function.update_noteq hya]
              show Function.update hp.prev x a y = hp.prev y
              rw [Function.update_noteq hyx]
    · rw [Function.update_noteq heq]
      apply links_congr hp.next hp.prev _ _ h (A h) h _ _ (hl h hh)
      · intro y hy
        have hya : y ≠ a := by
          rintro rfl
          rcases List.mem_cons.1 hy with hy | hy
          · omega
          · exact hfresh h hh hy
        have hye : y ≠ e := by
          rintro rfl
          rcases List.mem_cons.1 hy with hy | hy
          · exact heq hy.symm
          · have := (hmem h hh y hy).1; omega
        show Function.update (Function.update hp.next e a) a (hp.next e) y = hp.next y
        rw [Function.update_noteq hya, Function.update_noteq hye]
      · intro y hy
        have hya : y ≠ a := by
          rintro rfl
          rcases List.mem_append.1 hy with hy | hy
          · exact hfresh h hh hy
          · simp only [List.mem_singleton] at hy; omega
        have hyn : y ≠ hp.next e := by
          intro hc
          rw [hc] at hy
          rcases List.mem_append.1 hy with hy | hy <;>
            rcases List.mem_append.1 hn_mem with hq | hq
          · exact heq (hdisj h e hh he _ hy hq)
          · simp only [List.mem_singleton] at hq
            rw [hq] at hy
            have := (hmem h hh e hy).1; omega
          · simp only [List.mem_singleton] at hy
            rw [hy] at hq
            have := (hmem e he h hq).1; omega
          · simp only [List.mem_singleton] at hy hq
            exact heq (hy.symm.trans hq)
        show Function.update (Function.update hp.prev (hp.next e) a) a e y = hp.prev y
        rw [Function.update_noteq hya, Function.update_noteq hyn]
  · intro h hh
    by_cases heq : h = e
    · subst heq
      rw [Function.update_same]
      exact List.nodup_cons.2 ⟨hfresh h hh, hnd h hh⟩
    · rw [Function.update_noteq heq]; exact hnd h hh
  · intro h hh x hx
    by_cases heq : h = e
    · subst heq
      rw [Function.update_same] at hx
      rcases List.mem_cons.1 hx with rfl | hx
      · exact ⟨ha1, List.mem_cons_self _ _⟩
      · exact ⟨(hmem h hh x hx).1, List.mem_cons_of_mem _ (hmem h hh x hx).2⟩
    · rw [Function.update_noteq heq] at hx
      exact ⟨(hmem h hh x hx).1, List.mem_cons_of_mem _ (hmem h hh x hx).2⟩
  · intro h h2 hh hh2 x hx1 hx2
    by_cases heq : h = e <;> by_cases heq2 : h2 = e
    · rw [heq, heq2]
    · subst heq
      rw [Function.update_same] at hx1
      rw [Function.update_noteq heq2] at hx2
      rcases List.mem_cons.1 hx1 with rfl | hx1
      · exact absurd hx2 (hfresh h2 hh2)
      · exact hdisj h h2 hh hh2 x hx1 hx2
    · subst heq2
      rw [Function.update_same] at hx2
      rw [Function.update_noteq heq] at hx1
      rcases List.mem_cons.1 hx2 with rfl | hx2
      · exact absurd hx1 (hfresh h hh)
      · exact hdisj h h2 hh hh2 x hx1 hx2
    · rw [Function.update_noteq heq] at hx1
      rw [Function.update_noteq heq2] at hx2
      exact hdisj h h2 hh hh2 x hx1 hx2

/-- The function `hash` returns an index of the table. -/
theorem hash_lt (k : Option (List Nat)) : hash k < HTABLE_SIZE := by
  cases k with
  | none => decide
  | some a => exact Nat.mod_lt _ (by decide)

/-- The lists of `init` are sound: every bucket is its sentinel alone. -/
theorem heap_init_ok : heap_ok heap_init (fun _ => []) := by
  refine ⟨?_, ?_, ?_, ?_⟩
  · intro h _; exact ⟨rfl, rfl⟩
  · intro h _; exact List.nodup_nil
  · intro h _ a ha; simp at ha
  · intro h h2 _ _ a ha; simp at ha

/-! ## The linked nodes and the table agree -/

/-- The loop of `lookup` on linked nodes does what `lookup` does on the list of
their items: the same items are kept, the same item is found, and the nodes behind
it are untouched. -/
theorem lookup_loop_sim (t : Int) (k : Option (List Nat)) (e : Nat) (he : e < HTABLE_SIZE) :
    ∀ (rem scanned : List Nat) (hp : heap_t) (A : Nat → List Nat) (fuel : Nat),
      heap_ok hp A → A e = scanned ++ rem → rem.length < fuel →
      ∃ hp1 r A1 kept tail,
        p_lookup_loop t k e fuel hp (rem.headD e) = Except.ok (hp1, r) ∧
        heap_ok hp1 A1 ∧ hp1.item = hp.item ∧ (∀ h, h ≠ e → A1 h = A h) ∧
        A1 e = scanned ++ kept ++ tail ∧
        (lookup t k (rem.map hp.item)).1 = kept.map hp.item ∧
        ((r = none ∧ tail = [] ∧ (lookup t k (rem.map hp.item)).2 = none) ∨
          (∃ a posta, r = some a ∧ tail = a :: posta ∧
            (lookup t k (rem.map hp.item)).2 = some (hp.item a, posta.map hp.item))) := by
  intro rem
  induction rem with
  | nil =>
    intro scanned hp A fuel hok hA hfuel
    cases fuel with
    | zero => simp at hfuel
    | succ f =>
      exact ⟨hp, none, A, [], [], by simp [p_lookup_loop], hok, rfl, fun _ _ => rfl,
        by simpa using hA, by simp [lookup], Or.inl ⟨rfl, rfl, by simp [lookup]⟩⟩
  | cons i post ih =>
    intro scanned hp A fuel hok hA hfuel
    cases fuel with
    | zero => simp at hfuel
    | succ f =>
      have hf : post.length < f := by simpa using hfuel
      have hi_mem : i ∈ A e := by rw [hA]; simp
      have hie : i ≠ e := by
        have := (hok.2.2.1 e he i hi_mem).1; omega
      have hle := hok.1 e he
      have hnode := links_node hp.next hp.prev e (A e) hle i (List.mem_cons_of_mem _ hi_mem)
      have hcheck : ¬ (hp.next (hp.prev i) ≠ i ∨ hp.prev (hp.next i) ≠ i) := by
        rw [hnode.1, hnode.2]; simp
      have hnext : hp.next i = post.headD e := by
        rw [hA] at hle
        exact (links_head _ _ i post e
          ((links_append hp.next hp.prev e scanned i post e).1 hle).2).1
      simp only [List.headD_cons, p_lookup_loop, if_neg hie, if_neg hcheck, List.map_cons]
      by_cases hexp : expired t (hp.item i) = true
      · obtain ⟨hp1, hun, hitem1, -, hok1⟩ := unlink_ok hp A e scanned i post hok he hA
        obtain ⟨hp2, r, A2, kept, tail, hres, hok2, hitem2, hoth, hA2, hk1, hk2⟩ :=
          ih scanned hp1 (Function.update A e (scanned ++ post)) f hok1
            (by rw [Function.update_same]) hf
        rw [hitem1] at hk1 hk2 hitem2
        refine ⟨hp2, r, A2, kept, tail, ?_, hok2, hitem2, ?_, hA2, ?_, ?_⟩
        · simp only [hexp, if_true, hun, hnext]
          exact hres
        · intro h hh
          rw [hoth h hh, Function.update_noteq hh]
        · rw [lookup_cons_expired t k _ _ hexp]; exact hk1
        · rw [lookup_cons_expired t k _ _ hexp]; exact hk2
      · have hexp2 : expired t (hp.item i) = false := by simpa using hexp
        by_cases hkey : _strcmp (hp.item i).key k = 0
        · have hk := (_strcmp_eq_zero _ _).1 hkey
          refine ⟨hp, some i, A, [], i :: post, ?_, hok, rfl, fun _ _ => rfl,
            by simpa using hA, ?_, Or.inr ⟨i, post, rfl, rfl, ?_⟩⟩
          · simp only [hexp2, Bool.false_eq_true, if_false, hkey, if_true]
          · rw [lookup_cons_hit t k _ _ hexp2 hk]; rfl
          · rw [lookup_cons_hit t k _ _ hexp2 hk]
        · have hk : (hp.item i).key ≠ k := fun h => hkey ((_strcmp_eq_zero _ _).2 h)
          obtain ⟨hp2, r, A2, kept, tail, hres, hok2, hitem2, hoth, hA2, hk1, hk2⟩ :=
            ih (scanned ++ [i]) hp A f hok (by rw [hA]; simp) hf
          refine ⟨hp2, r, A2, i :: kept, tail, ?_, hok2, hitem2, hoth,
            by simpa using hA2, ?_, ?_⟩
          · simp only [hexp2, Bool.false_eq_true, if_false, hkey, hnext]
            exact hres
          · rw [lookup_cons_miss t k _ _ hexp2 hk]
            simp only [List.map_cons, hk1]
          · rw [lookup_cons_miss t k _ _ hexp2 hk]
            exact hk2

/-- The function `lookup` on linked nodes that hold the table `st`, against
`lookup` on the bucket. -/
theorem p_lookup_sim (t : Int) (k : Option (List Nat)) (e : Nat) (hp : heap_t)
    (A : Nat → List Nat) (st : Store) (hr : heap_repr hp A st) (he : e < HTABLE_SIZE) :
    ∃ hp1 r A1, p_lookup t k e hp = Except.ok (hp1, r) ∧ heap_ok hp1 A1 ∧
      (∀ h, h < HTABLE_SIZE → h ≠ e → (A1 h).map hp1.item = st h) ∧
      ((r = none ∧ lookup t k (st e) = ((A1 e).map hp1.item, none)) ∨
        (∃ a kept posta, r = some a ∧ A1 e = kept ++ a :: posta ∧
          lookup t k (st e) =
            (kept.map hp1.item, some (hp1.item a, posta.map hp1.item)))) := by
  obtain ⟨hok, hst⟩ := hr
  have hlen : (A e).length ≤ hp.live.length :=
    (List.subperm_of_subset (hok.2.1 e he) (fun a ha => (hok.2.2.1 e he a ha).2)).length_le
  have hnext : hp.next e = (A e).headD e := (links_head _ _ e (A e) e (hok.1 e he)).1
  obtain ⟨hp1, r, A1, kept, tail, hres, hok1, hitem, hoth, hA1, hk1, hk2⟩ :=
    lookup_loop_sim t k e he (A e) [] hp A (hp.live.length + 1) hok rfl (by omega)
  rw [hst e he] at hk1 hk2
  refine ⟨hp1, r, A1, by simp only [p_lookup, hnext]; exact hres, hok1, ?_, ?_⟩
  · intro h hh hne
    rw [hoth h hne, hitem, hst h hh]
  · rcases hk2 with ⟨h1, h2, h3⟩ | ⟨a, posta, h1, h2, h3⟩
    · refine Or.inl ⟨h1, ?_⟩
      rw [hA1, h2, hitem]
      simp only [List.nil_append, List.append_nil]
      exact Prod.ext hk1 h3
    · refine Or.inr ⟨a, kept, posta, h1, by rw [hA1, h2]; simp, ?_⟩
      rw [hitem]
      exact Prod.ext hk1 h3

/-- A write to the fields of a node does not show in the items of other nodes. -/
theorem map_update_notin (f : Nat → item_t) (a : Nat) (v : item_t) (l : List Nat)
    (h : a ∉ l) : l.map (Function.update f a v) = l.map f := by
  apply List.map_congr_left
  intro x hx
  exact Function.update_noteq (fun hc : x = a => h (hc ▸ hx)) v f

/-- The nodes after a scan that changed no item hold the table with the scanned
bucket. -/
theorem repr_keep (hp1 : heap_t) (A1 : Nat → List Nat) (st : Store) (e : Nat)
    (B : List item_t) (hok1 : heap_ok hp1 A1)
    (hoth : ∀ h, h < HTABLE_SIZE → h ≠ e → (A1 h).map hp1.item = st h)
    (hB : (A1 e).map hp1.item = B) : heap_repr hp1 A1 (st.put e B) := by
  refine ⟨hok1, fun h hh => ?_⟩
  by_cases heq : h = e
  · subst heq; rw [Store.put_same]; exact hB
  · rw [Store.put_other st e h B heq]; exact hoth h hh heq

/-- The nodes after a write to the fields of the found node hold the table with
that item changed. -/
theorem repr_put (hp1 : heap_t) (A1 : Nat → List Nat) (st : Store) (e : Nat)
    (kept : List Nat) (a : Nat) (posta : List Nat) (it : item_t) (hok1 : heap_ok hp1 A1)
    (hoth : ∀ h, h < HTABLE_SIZE → h ≠ e → (A1 h).map hp1.item = st h)
    (he : e < HTABLE_SIZE) (hA : A1 e = kept ++ a :: posta) :
    heap_repr (hp1.put a it) A1
      (st.put e (kept.map hp1.item ++ it :: posta.map hp1.item)) := by
  have hnd : (kept ++ a :: posta).Nodup := hA ▸ hok1.2.1 e he
  have ha1 : a ∉ kept := fun h =>
    (List.nodup_append.1 hnd).2.2 h (List.mem_cons_self _ _)
  have ha2 : a ∉ posta := (List.nodup_cons.1 (List.nodup_append.1 hnd).2.1).1
  refine ⟨hok1, fun h hh => ?_⟩
  by_cases heq : h = e
  · subst heq
    rw [Store.put_same, hA]
    show List.map (Function.update hp1.item a it) (kept ++ a :: posta) = _
    rw [List.map_append, List.map_cons, map_update_notin _ _ _ _ ha1,
      map_update_notin _ _ _ _ ha2, Function.update_same]
  · rw [Store.put_other st e h _ heq]
    have hah : a ∉ A1 h := fun hc =>
      heq (hok1.2.2.2 h e hh he a hc (by rw [hA]; simp))
    show List.map (Function.update hp1.item a it) (A1 h) = _
    rw [map_update_notin _ _ _ _ hah]
    exact hoth h hh heq

/-- The nodes after a new node was inserted hold the table with the new item in
front of the scanned bucket. -/
theorem repr_new (hp1 : heap_t) (A1 : Nat → List Nat) (st : Store) (e : Nat)
    (it : item_t) (hok1 : heap_ok hp1 A1)
    (hoth : ∀ h, h < HTABLE_SIZE → h ≠ e → (A1 h).map hp1.item = st h)
    (he : e < HTABLE_SIZE) :
    ∃ hp2 A2, p_new hp1 e it = Except.ok hp2 ∧
      heap_repr hp2 A2 (st.put e (it :: (A1 e).map hp1.item)) := by
  obtain ⟨h1, h2⟩ := p_malloc_fresh hp1
  obtain ⟨hp2, hres, hitem, hok2⟩ := insert_ok hp1 A1 e (p_malloc hp1) it hok1 he h1 h2
  have hfresh : ∀ h, h < HTABLE_SIZE → p_malloc hp1 ∉ A1 h :=
    fun h hh hc => h2 (hok1.2.2.1 h hh _ hc).2
  refine ⟨hp2, _, hres, hok2, fun h hh => ?_⟩
  rw [hitem]
  by_cases heq : h = e
  · subst heq
    rw [Store.put_same, Function.update_same, List.map_cons, Function.update_same,
      map_update_notin _ _ _ _ (hfresh h hh)]
  · rw [Store.put_other st e h _ heq, Function.update_noteq heq,
      map_update_notin _ _ _ _ (hfresh h hh)]
    exact hoth h hh heq

/-- The function `handle_set` on linked nodes that hold the table `st`, against
`handle_set` on `st`. -/
theorem p_handle_set_sim (t : Int) (hp : heap_t) (job : job_t) (A : Nat → List Nat)
    (st : Store) (hr : heap_repr hp A st) :
    ∃ hp1 A1, p_handle_set t hp job = Except.ok (hp1, (handle_set t st job).2) ∧
      heap_repr hp1 A1 (handle_set t st job).1 := by
  obtain ⟨hp1, r, A1, hlk, hok1, hoth, hcase⟩ :=
    p_lookup_sim t job.key (hash job.key) hp A st hr (hash_lt _)
  rcases hcase with ⟨hr0, hl⟩ | ⟨a, kept, posta, hr0, hA1, hl⟩ <;> subst hr0
  · obtain ⟨hp2, A2, hnew, hrep⟩ := repr_new hp1 A1 st (hash job.key)
      { key := _strdup job.key, value := job.value, length := job.length,
        exptime := job.exptime, dead := 0, flags := job.flags } hok1 hoth (hash_lt _)
    refine ⟨hp2, A2, ?_, ?_⟩
    · simp only [p_handle_set, hlk, hnew, handle_set, hl]
    · simp only [handle_set, hl, insert]; exact hrep
  · simp only [p_handle_set, hlk, handle_set, hl]
    split_ifs
    · exact ⟨_, A1, rfl, repr_put hp1 A1 st _ kept a posta _ hok1 hoth (hash_lt _) hA1⟩
    · exact ⟨_, A1, rfl, repr_put hp1 A1 st _ kept a posta _ hok1 hoth (hash_lt _) hA1⟩

/-- The function `handle_add` on linked nodes that hold the table `st`, against
`handle_add` on `st`. -/
theorem p_handle_add_sim (t : Int) (hp : heap_t) (job : job_t) (A : Nat → List Nat)
    (st : Store) (hr : heap_repr hp A st) :
    ∃ hp1 A1, p_handle_add t hp job = Except.ok (hp1, (handle_add t st job).2) ∧
      heap_repr hp1 A1 (handle_add t st job).1 := by
  obtain ⟨hp1, r, A1, hlk, hok1, hoth, hcase⟩ :=
    p_lookup_sim t job.key (hash job.key) hp A st hr (hash_lt _)
  rcases hcase with ⟨hr0, hl⟩ | ⟨a, kept, posta, hr0, hA1, hl⟩ <;> subst hr0
  · obtain ⟨hp2, A2, hnew, hrep⟩ := repr_new hp1 A1 st (hash job.key)
      { key := _strdup job.key, value := job.value, length := job.length,
        exptime := job.exptime, dead := 0, flags := job.flags } hok1 hoth (hash_lt _)
    refine ⟨hp2, A2, ?_, ?_⟩
    · simp only [p_handle_add, hlk, hnew, handle_add, hl]
    · simp only [handle_add, hl, insert]; exact hrep
  · simp only [p_handle_add, hlk, handle_add, hl]
    exact ⟨_, A1, rfl, repr_keep hp1 A1 st _ _ hok1 hoth (by rw [hA1]; simp)⟩

/-- The function `handle_replace` on linked nodes that hold the table `st`, against
`handle_replace` on `st`. -/
theorem p_handle_replace_sim (t : Int) (hp : heap_t) (job : job_t) (A : Nat → List Nat)
    (st : Store) (hr : heap_repr hp A st) :
    ∃ hp1 A1, p_handle_replace t hp job = Except.ok (hp1, (handle_replace t st job).2) ∧
      heap_repr hp1 A1 (handle_replace t st job).1 := by
  obtain ⟨hp1, r, A1, hlk, hok1, hoth, hcase⟩ :=
    p_lookup_sim t job.key (hash job.key) hp A st hr (hash_lt _)
  rcases hcase with ⟨hr0, hl⟩ | ⟨a, kept, posta, hr0, hA1, hl⟩ <;> subst hr0
  · simp only [p_handle_replace, hlk, handle_replace, hl]
    exact ⟨_, A1, rfl, repr_keep hp1 A1 st _ _ hok1 hoth rfl⟩
  · simp only [p_handle_replace, hlk, handle_replace, hl]
    split_ifs
    · exact ⟨_, A1, rfl, repr_keep hp1 A1 st _ _ hok1 hoth (by rw [hA1]; simp)⟩
    · exact ⟨_, A1, rfl, repr_put hp1 A1 st _ kept a posta _ hok1 hoth (hash_lt _) hA1⟩

/-- The function `handle_append` on linked nodes that hold the table `st`, against
`handle_append` on `st`. -/
theorem p_handle_append_sim (t : Int) (hp : heap_t) (job : job_t) (A : Nat → List Nat)
    (st : Store) (hr : heap_repr hp A st) :
    ∃ hp1 A1, p_handle_append t hp job = Except.ok (hp1, (handle_append t st job).2) ∧
      heap_repr hp1 A1 (handle_append t st job).1 := by
  obtain ⟨hp1, r, A1, hlk, hok1, hoth, hcase⟩ :=
    p_lookup_sim t job.key (hash job.key) hp A st hr (hash_lt _)
  rcases hcase with ⟨hr0, hl⟩ | ⟨a, kept, posta, hr0, hA1, hl⟩ <;> subst hr0
  · simp only [p_handle_append, hlk, handle_append, hl]
    exact ⟨_, A1, rfl, repr_keep hp1 A1 st _ _ hok1 hoth rfl⟩
  · simp only [p_handle_append, hlk, handle_append, hl]
    split_ifs
    · exact ⟨_, A1, rfl, repr_keep hp1 A1 st _ _ hok1 hoth (by rw [hA1]; simp)⟩
    · exact ⟨_, A1, rfl, repr_keep hp1 A1 st _ _ hok1 hoth (by rw [hA1]; simp)⟩
    · exact ⟨_, A1, rfl, repr_put hp1 A1 st _ kept a posta _ hok1 hoth (hash_lt _) hA1⟩
    · exact ⟨_, A1, rfl, repr_keep hp1 A1 st _ _ hok1 hoth (by rw [hA1]; simp)⟩

/-- The function `handle_prepend` on linked nodes that hold the table `st`, against
`handle_prepend` on `st`. -/
theorem p_handle_prepend_sim (t : Int) (hp : heap_t) (job : job_t) (A : Nat → List Nat)
    (st : Store) (hr : heap_repr hp A st) :
    ∃ hp1 A1, p_handle_prepend t hp job = Except.ok (hp1, (handle_prepend t st job).2) ∧
      heap_repr hp1 A1 (handle_prepend t st job).1 := by
  obtain ⟨hp1, r, A1, hlk, hok1, hoth, hcase⟩ :=
    p_lookup_sim t job.key (hash job.key) hp A st hr (hash_lt _)
  rcases hcase with ⟨hr0, hl⟩ | ⟨a, kept, posta, hr0, hA1, hl⟩ <;> subst hr0
  · simp only [p_handle_prepend, hlk, handle_prepend, hl]
    exact ⟨_, A1, rfl, repr_keep hp1 A1 st _ _ hok1 hoth rfl⟩
  · simp only [p_handle_prepend, hlk, handle_prepend, hl]
    split_ifs
    · exact ⟨_, A1, rfl, repr_keep hp1 A1 st _ _ hok1 hoth (by rw [hA1]; simp)⟩
    · exact ⟨_, A1, rfl, repr_keep hp1 A1 st _ _ hok1 hoth (by rw [hA1]; simp)⟩
    · exact ⟨_, A1, rfl, repr_put hp1 A1 st _ kept a posta _ hok1 hoth (hash_lt _) hA1⟩
    · exact ⟨_, A1, rfl, repr_keep hp1 A1 st _ _ hok1 hoth (by rw [hA1]; simp)⟩

/-- The function `handle_get` on linked nodes that hold the table `st`, against
`handle_get` on `st`. -/
theorem p_handle_get_sim (t : Int) (hp : heap_t) (job : job_t) (A : Nat → List Nat)
    (st : Store) (hr : heap_repr hp A st) :
    ∃ hp1 A1, p_handle_get t hp job = Except.ok (hp1, (handle_get t st job).2) ∧
      heap_repr hp1 A1 (handle_get t st job).1 := by
  obtain ⟨hp1, r, A1, hlk, hok1, hoth, hcase⟩ :=
    p_lookup_sim t job.key (hash job.key) hp A st hr (hash_lt _)
  rcases hcase with ⟨hr0, hl⟩ | ⟨a, kept, posta, hr0, hA1, hl⟩ <;> subst hr0
  · simp only [p_handle_get, hlk, handle_get, hl]
    exact ⟨_, A1, rfl, repr_keep hp1 A1 st _ _ hok1 hoth rfl⟩
  · simp only [p_handle_get, hlk, handle_get, hl]
    split_ifs
    · exact ⟨_, A1, rfl, repr_keep hp1 A1 st _ _ hok1 hoth (by rw [hA1]; simp)⟩
    · exact ⟨_, A1, rfl, repr_keep hp1 A1 st _ _ hok1 hoth (by rw [hA1]; simp)⟩

/-- The function `handle_delete` on linked nodes that hold the table `st`, against
`handle_delete` on `st`. -/
theorem p_handle_delete_sim (t : Int) (hp : heap_t) (job : job_t) (A : Nat → List Nat)
    (st : Store) (hr : heap_repr hp A st) :
    ∃ hp1 A1, p_handle_delete t hp job = Except.ok (hp1, (handle_delete t st job).2) ∧
      heap_repr hp1 A1 (handle_delete t st job).1 := by
  obtain ⟨hp1, r, A1, hlk, hok1, hoth, hcase⟩ :=
    p_lookup_sim t job.key (hash job.key) hp A st hr (hash_lt _)
  rcases hcase with ⟨hr0, hl⟩ | ⟨a, kept, posta, hr0, hA1, hl⟩ <;> subst hr0
  · simp only [p_handle_delete, hlk, handle_delete, hl]
    exact ⟨_, A1, rfl, repr_keep hp1 A1 st _ _ hok1 hoth rfl⟩
  · simp only [p_handle_delete, hlk, handle_delete, hl]
    split_ifs
    · exact ⟨_, A1, rfl, repr_keep hp1 A1 st _ _ hok1 hoth (by rw [hA1]; simp)⟩
    · exact ⟨_, A1, rfl, repr_put hp1 A1 st _ kept a posta _ hok1 hoth (hash_lt _) hA1⟩

/-- The dispatch on linked nodes that hold the table `st` never calls `fatal`,
returns the job that the dispatch on `st` returns, and leaves nodes that hold the
table that the dispatch on `st` leaves. -/
theorem p_worker_run_sim (t : Int) (hp : heap_t) (job : job_t) (A : Nat → List Nat)
    (st : Store) (hr : heap_repr hp A st) :
    ∃ hp1 A1, p_worker_run t hp job = Except.ok (hp1, (worker_run t st job).2) ∧
      heap_repr hp1 A1 (worker_run t st job).1 := by
  have lift : ∀ (f : Int → heap_t → job_t → Except String (heap_t × job_t))
      (g : Int → Store → job_t → Store × job_t),
      (∃ hp1 A1, f t hp job = Except.ok (hp1, (g t st job).2) ∧
        heap_repr hp1 A1 (g t st job).1) →
      p_handlers job.cmd = some f → handlers job.cmd = some g →
      ∃ hp1 A1, p_worker_run t hp job = Except.ok (hp1, (worker_run t st job).2) ∧
        heap_repr hp1 A1 (worker_run t st job).1 := by
    intro f g ⟨hp1, A1, hres, hrep⟩ hf hg
    exact ⟨hp1, A1, by simp only [p_worker_run, hf, hres, worker_run, hg],
      by simp only [worker_run, hg]; exact hrep⟩
  by_cases h1 : job.cmd = CMD_SET
  · exact lift _ _ (p_handle_set_sim t hp job A st hr)
      (by simp only [p_handlers, if_pos h1])
      (by simp only [handlers, if_pos h1])
  by_cases h2 : job.cmd = CMD_ADD
  · exact lift _ _ (p_handle_add_sim t hp job A st hr)
      (by simp only [p_handlers, if_neg h1, if_pos h2])
      (by simp only [handlers, if_neg h1, if_pos h2])
  by_cases h3 : job.cmd = CMD_REPLACE
  · exact lift _ _ (p_handle_replace_sim t hp job A st hr)
      (by simp only [p_handlers, if_neg h1, if_neg h2, if_pos h3])
      (by simp only [handlers, if_neg h1, if_neg h2, if_pos h3])
  by_cases h4 : job.cmd = CMD_APPEND
  · exact lift _ _ (p_handle_append_sim t hp job A st hr)
      (by simp only [p_handlers, if_neg h1, if_neg h2, if_neg h3, if_pos h4])
      (by simp only [handlers, if_neg h1, if_neg h2, if_neg h3, if_pos h4])
  by_cases h5 : job.cmd = CMD_PREPEND
  · exact lift _ _ (p_handle_prepend_sim t hp job A st hr)
      (by simp only [p_handlers, if_neg h1, if_neg h2, if_neg h3, if_neg h4, if_pos h5])
      (by simp only [handlers, if_neg h1, if_neg h2, if_neg h3, if_neg h4, if_pos h5])
  by_cases h6 : job.cmd = CMD_GET
  · exact lift _ _ (p_handle_get_sim t hp job A st hr)
      (by simp only [p_handlers, if_neg h1, if_neg h2, if_neg h3, if_neg h4, if_neg h5, if_pos h6])
      (by simp only [handlers, if_neg h1, if_neg h2, if_neg h3, if_neg h4, if_neg h5, if_pos h6])
  by_cases h7 : job.cmd = CMD_DELETE
  · exact lift _ _ (p_handle_delete_sim t hp job A st hr)
      (by simp only [p_handlers, if_neg h1, if_neg h2, if_neg h3, if_neg h4, if_neg h5, if_neg h6, if_pos h7])
      (by simp only [handlers, if_neg h1, if_neg h2, if_neg h3, if_neg h4, if_neg h5, if_neg h6, if_pos h7])
  by_cases h8 : job.cmd = CMD_STAT
  · refine ⟨hp, A, ?_, ?_⟩
    · simp only [p_worker_run, p_handlers, worker_run, handlers, handle_stat,
        if_neg h1, if_neg h2, if_neg h3, if_neg h4, if_neg h5, if_neg h6, if_neg h7, if_pos h8]
    · simp only [worker_run, handlers, handle_stat, if_neg h1, if_neg h2, if_neg h3, if_neg h4, if_neg h5, if_neg h6, if_neg h7, if_pos h8]
      exact hr
  by_cases h9 : job.cmd = CMD_0OPS
  · refine ⟨hp, A, ?_, ?_⟩
    · simp only [p_worker_run, p_handlers, worker_run, handlers, handle_0ops,
        if_neg h1, if_neg h2, if_neg h3, if_neg h4, if_neg h5, if_neg h6, if_neg h7, if_neg h8, if_pos h9]
    · simp only [worker_run, handlers, handle_0ops, if_neg h1, if_neg h2, if_neg h3, if_neg h4, if_neg h5, if_neg h6, if_neg h7, if_neg h8, if_pos h9]
      exact hr
  refine ⟨hp, A, ?_, ?_⟩
  · simp only [p_worker_run, p_handlers, worker_run, handlers,
      if_neg h1, if_neg h2, if_neg h3, if_neg h4, if_neg h5, if_neg h6, if_neg h7, if_neg h8, if_neg h9]
  · simp only [worker_run, handlers, if_neg h1, if_neg h2, if_neg h3, if_neg h4, if_neg h5, if_neg h6, if_neg h7, if_neg h8, if_neg h9]
    exact hr

/-- The nodes of `init` hold the empty table of `init`. -/
theorem heap_init_repr : heap_repr heap_init (fun _ => []) init :=
  ⟨heap_init_ok, fun _ _ => rfl⟩

/-- Every run of jobs on linked nodes, from nodes that hold a table, never calls
`fatal` and ends with nodes that hold the table the same run gives. -/
theorem p_run_sim (calls : List (Int × job_t)) :
    ∀ (hp : heap_t) (A : Nat → List Nat) (st : Store), heap_repr hp A st →
      ∃ hp1 A1, p_run hp calls = Except.ok hp1 ∧ heap_repr hp1 A1 (run_jobs st calls) := by
  induction calls with
  | nil => intro hp A st hr; exact ⟨hp, A, rfl, hr⟩
  | cons c rest ih =>
    intro hp A st hr
    obtain ⟨hp1, A1, hres, hr1⟩ := p_worker_run_sim c.1 hp c.2 A st hr
    obtain ⟨hp2, A2, hres2, hr2⟩ := ih hp1 A1 _ hr1
    exact ⟨hp2, A2, by simp only [p_run, hres, hres2], by simpa only [run_jobs] using hr2⟩

/-- The walk along `next` from the first node of a sound chain that ends in the
sentinel reads the items of the chain. -/
theorem p_items_links (hp : heap_t) (e : Nat) :
    ∀ (l : List Nat) (a fuel : Nat), links hp.next hp.prev a l e → (∀ x ∈ l, x ≠ e) →
      l.length < fuel → p_items hp e fuel (l.headD e) = l.map hp.item := by
  intro l
  induction l with
  | nil =>
    intro a fuel _ _ hf
    cases fuel with
    | zero => simp at hf
    | succ f => simp [p_items]
  | cons x xs ih =>
    intro a fuel hl hne hf
    cases fuel with
    | zero => simp at hf
    | succ f =>
      obtain ⟨-, -, h3⟩ := hl
      have hx : x ≠ e := hne x (List.mem_cons_self _ _)
      have hnext : hp.next x = xs.headD e := (links_head _ _ x xs e h3).1
      simp only [List.headD_cons, p_items, if_neg hx, List.map_cons, hnext]
      rw [ih x f h3 (fun y hy => hne y (List.mem_cons_of_mem _ hy)) (by simpa using hf)]

/-- On nodes that hold a table, the walk along `next` from a sentinel reads the
bucket. -/
theorem p_items_repr (hp : heap_t) (A : Nat → List Nat) (st : Store)
    (hr : heap_repr hp A st) (h : Nat) (hh : h < HTABLE_SIZE) :
    p_items hp h (hp.live.length + 1) (hp.next h) = st h := by
  obtain ⟨hok, hst⟩ := hr
  have hlen : (A h).length ≤ hp.live.length :=
    (List.subperm_of_subset (hok.2.1 h hh) (fun a ha => (hok.2.2.1 h hh a ha).2)).length_le
  have hnext : hp.next h = (A h).headD h := (links_head _ _ h (A h) h (hok.1 h hh)).1
  rw [hnext, p_items_links hp h (A h) h _ (hok.1 h hh) _ (by omega), hst h hh]
  intro x hx
  have := (hok.2.2.1 h hh x hx).1
  omega

/-! ## The properties of the specification -/

/-- C1. A fetch that follows a store of the same key comes back without error
and with the value bytes, the length and the flags of the store job, whatever the
bucket held before (no such key, the key with the same or another length, a
tombstone), given that the stored exptime is 0 or not before the clock of the
fetch.  The store job carries a buffer of `length` bytes, and an item of the
bucket that has no value buffer has length 0. -/
theorem set_then_get (st : Store) (t1 t2 : Int) (job g : job_t) (v : List Nat)
    (hv : job.value = some v) (hlen : v.length = job.length)
    (hbuf : ∀ i ∈ st (hash job.key), i.value = none → i.length = 0)
    (hexp : job.exptime = 0 ∨ t2 ≤ job.exptime)
    (hkey : g.key = job.key) (herr : g.error = none) :
    (handle_get t2 (handle_set t1 st job).1 g).2.error = none ∧
    job_bytes (handle_get t2 (handle_set t1 st job).1 g).2 = v ∧
    (handle_get t2 (handle_set t1 st job).1 g).2.length = job.length ∧
    (handle_get t2 (handle_set t1 st job).1 g).2.flags = job.flags := by
  have hdup : _strdup job.key = job.key := by cases job.key <;> rfl
  rcases hl : lookup t1 job.key (st (hash job.key)) with ⟨pre, _ | ⟨i, post⟩⟩
  · -- the key is absent: a new item at the head of the list
    have hset : (handle_set t1 st job).1 = st.put (hash job.key)
        ({ key := job.key, value := job.value, length := job.length,
           exptime := job.exptime, dead := 0, flags := job.flags } :: pre) := by
      simp [handle_set, hl, insert, hdup]
    have hlk := handle_get_at t2 (handle_set t1 st job).1 g []  pre
      { key := job.key, value := job.value, length := job.length,
        exptime := job.exptime, dead := 0, flags := job.flags }
      (by rw [hset, hkey]; simp) (by simp) hkey.symm (expired_false_of _ _ hexp)
    rw [handle_get_live _ _ _ _ _ _ hlk rfl]
    simp [herr, job_bytes, hv, ← hlen]
  · obtain ⟨hik, -, him⟩ := lookup_hit t1 job.key _ pre post i hl
    have hpre : ∀ x ∈ pre, x.key ≠ g.key := by
      intro x hx
      have := lookup_pre t1 job.key (st (hash job.key)) x (by rw [hl]; exact hx)
      rw [hkey]; exact this.2.2
    by_cases hsame : job.length = i.length
    · have hset : (handle_set t1 st job).1 = st.put (hash job.key)
          (pre ++ { i with value := _memcpy i.value 0 job.value i.length,
                           exptime := job.exptime, dead := 0,
                           flags := job.flags } :: post) := by
        simp [handle_set, hl, hsame]
      have hlk := handle_get_at t2 (handle_set t1 st job).1 g pre post
        { i with value := _memcpy i.value 0 job.value i.length,
                 exptime := job.exptime, dead := 0, flags := job.flags }
        (by rw [hset, hkey]; simp) hpre (by rw [hkey]; exact hik)
        (expired_false_of _ _ hexp)
      rw [handle_get_live _ _ _ _ _ _ hlk rfl]
      refine ⟨by simp [herr], ?_, by simp [hsame], by simp⟩
      by_cases h0 : i.length = 0
      · have hv0 : v = [] := by
          apply List.eq_nil_of_length_eq_zero; omega
        simp [job_bytes, h0, hv0]
        cases h : _memcpy i.value 0 job.value 0 <;> simp
      · have hval : i.value ≠ none := fun hn => h0 (hbuf i him hn)
        obtain ⟨d, hd⟩ := Option.ne_none_iff_exists'.1 hval
        simp [job_bytes, _memcpy, h0, hv, hd]
        exact take_memcpy_zero d v i.length (by omega)
    · have hset : (handle_set t1 st job).1 = st.put (hash job.key)
          (pre ++ { i with value := job.value, length := job.length,
                           exptime := job.exptime, dead := 0,
                           flags := job.flags } :: post) := by
        simp [handle_set, hl, hsame]
      have hlk := handle_get_at t2 (handle_set t1 st job).1 g pre post
        { i with value := job.value, length := job.length,
                 exptime := job.exptime, dead := 0, flags := job.flags }
        (by rw [hset, hkey]; simp) hpre (by rw [hkey]; exact hik)
        (expired_false_of _ _ hexp)
      rw [handle_get_live _ _ _ _ _ _ hlk rfl]
      simp [herr, job_bytes, hv, ← hlen]

/-- C1 at a concrete input: a three-byte store over the live three-byte item of
`ex_store` at clock 10, fetched at clock 20. -/
theorem set_then_get_witness :
    (handle_get 20 (handle_set 10 ex_store (ex_job CMD_SET [7, 8, 9] 5 0)).1
      ex_get).2.error = none ∧
    job_bytes (handle_get 20 (handle_set 10 ex_store (ex_job CMD_SET [7, 8, 9] 5 0)).1
      ex_get).2 = [7, 8, 9] ∧
    (handle_get 20 (handle_set 10 ex_store (ex_job CMD_SET [7, 8, 9] 5 0)).1
      ex_get).2.length = 3 ∧
    (handle_get 20 (handle_set 10 ex_store (ex_job CMD_SET [7, 8, 9] 5 0)).1
      ex_get).2.flags = 5 :=
  set_then_get ex_store 10 20 (ex_job CMD_SET [7, 8, 9] 5 0) ex_get [7, 8, 9]
    rfl rfl (by decide) (by decide) rfl rfl

/-- C2. When a delete of a key succeeds in a bucket with unique keys, a fetch of
that key that follows it fails with `NOT_FOUND`, whatever the requested exptime and
the clock of the fetch. -/
theorem delete_then_get (st : Store) (t1 t2 : Int) (job g : job_t)
    (huniq : ((st (hash job.key)).map item_t.key).Nodup)
    (hok : (handle_delete t1 st job).2.error = none)
    (hkey : g.key = job.key) :
    (handle_get t2 (handle_delete t1 st job).1 g).2.error = some "NOT_FOUND" := by
  rcases hl : lookup t1 job.key (st (hash job.key)) with ⟨pre, _ | ⟨i, post⟩⟩
  · simp [handle_delete, hl] at hok
  · by_cases hguard : i.dead ≠ 0 ∧ job.exptime > i.exptime
    · simp [handle_delete, hl, hguard] at hok
    · obtain ⟨hik, -, -⟩ := lookup_hit t1 job.key _ pre post i hl
      obtain ⟨l1, hsplit, -⟩ := lookup_split t1 job.key _ pre post i hl
      rw [hsplit] at huniq
      have hpost : ∀ x ∈ post, x.key ≠ g.key := by
        intro x hx
        rw [hkey, ← hik]
        exact (nodup_split l1 post i huniq).2 x hx
      have hpre : ∀ x ∈ pre, x.key ≠ g.key := by
        intro x hx
        have := lookup_pre t1 job.key (st (hash job.key)) x (by rw [hl]; exact hx)
        rw [hkey]; exact this.2.2
      have hdel : (handle_delete t1 st job).1 = st.put (hash job.key)
          (pre ++ { i with dead := 1, exptime := job.exptime } :: post) := by
        simp only [handle_delete, hl, if_neg hguard]
      have hb : (handle_delete t1 st job).1 (hash g.key) =
          pre ++ { i with dead := 1, exptime := job.exptime } :: post := by
        rw [hdel, hkey]; simp
      by_cases hexp : expired t2 { i with dead := 1, exptime := job.exptime } = true
      · apply handle_get_none
        rw [hb, lookup_append t2 g.key pre _ hpre, lookup_cons_expired t2 g.key _ post hexp]
        exact lookup_absent t2 g.key post hpost
      · have hexp' : expired t2 { i with dead := 1, exptime := job.exptime } = false := by
          simpa using hexp
        have hlk := handle_get_at t2 (handle_delete t1 st job).1 g pre post
          { i with dead := 1, exptime := job.exptime } hb hpre (by rw [hkey]; exact hik) hexp'
        rw [handle_get_dead _ _ _ _ _ _ hlk (by simp)]

/-- C2 at a concrete input: a delete in `ex_store` at clock 10 with window end 15,
fetched at clock 20. -/
theorem delete_then_get_witness :
    (handle_delete 10 ex_store (ex_job CMD_DELETE [] 0 15)).2.error = none ∧
    (handle_get 20 (handle_delete 10 ex_store (ex_job CMD_DELETE [] 0 15)).1
      ex_get).2.error = some "NOT_FOUND" :=
  ⟨by decide, delete_then_get ex_store 10 20 (ex_job CMD_DELETE [] 0 15) ex_get
    (by decide) (by decide) rfl⟩

/-- C3. In a bucket with unique keys, for a live item (not tombstoned, not expired
at the clock of the append nor at the clock of the fetch) whose value buffer holds
the `length` bytes `old`, and an append job whose buffer holds the `length` bytes
`suf`, with the sum of the lengths below `2^64`: the fetch that follows the append
comes back without error, with the bytes `old ++ suf`, the sum of the two lengths
and the flags of the item.  With a zero length the append does what a fetch does to
the store and leaves the job as it was. -/
theorem append_then_get (st : Store) (t1 t2 : Int) (job g : job_t) (i : item_t)
    (old suf : List Nat)
    (huniq : ((st (hash job.key)).map item_t.key).Nodup)
    (hmem : i ∈ st (hash job.key)) (hik : i.key = job.key) (hdead : i.dead = 0)
    (hl1 : expired t1 i = false) (hl2 : expired t2 i = false)
    (hold : i.value = some old) (holdlen : old.length = i.length)
    (hsuf : job.value = some suf) (hsuflen : suf.length = job.length)
    (hsz : i.length + job.length < 2 ^ 64)
    (hkey : g.key = job.key) (herr : g.error = none) :
    (handle_get t2 (handle_append t1 st job).1 g).2.error = none ∧
    job_bytes (handle_get t2 (handle_append t1 st job).1 g).2 = old ++ suf ∧
    (handle_get t2 (handle_append t1 st job).1 g).2.length = old.length + suf.length ∧
    (handle_get t2 (handle_append t1 st job).1 g).2.flags = i.flags ∧
    (job.length = 0 → handle_append t1 st job = ((handle_get t1 st job).1, job)) := by
  obtain ⟨l1, post, -, hl, -, -⟩ :=
    lookup_of_mem t1 job.key (st (hash job.key)) i huniq hmem hik hl1
  have hlg : lookup t1 g.key (st (hash g.key)) =
      (l1.filter (fun x => !expired t1 x), some (i, post)) := by rw [hkey]; exact hl
  by_cases h0 : job.length = 0
  · have happ : handle_append t1 st job =
        (st.put (hash job.key) (l1.filter (fun x => !expired t1 x) ++ i :: post), job) := by
      simp [handle_append, hl, hdead, h0]
    have hsuf0 : suf = [] := List.eq_nil_of_length_eq_zero (by omega)
    have hget := get_after_update st (handle_append t1 st job).1 t1 t2 g _ post i i hlg
      (by rw [happ, hkey]; simp) (by rw [hkey]; exact hik) hl2 hdead
    rw [hget]
    refine ⟨by simp [herr], by simp [job_bytes, hold, ← holdlen, hsuf0], by simp [hsuf0, holdlen],
      by simp, fun _ => ?_⟩
    rw [happ, handle_get_live t1 st job _ post i hl hdead]
  · have hval : i.value ≠ none := by simp [hold]
    have hbuf := append_buffer old suf (by omega) (by omega)
    have happ : (handle_append t1 st job).1 =
        st.put (hash job.key) (l1.filter (fun x => !expired t1 x) ++
          { i with value := some (old ++ suf),
                   length := (i.length + job.length) % 2 ^ 64 } :: post) := by
      rw [hsuflen, holdlen] at hbuf
      norm_num at hbuf
      simp [handle_append, hl, hdead, h0, hold, hsuf, hbuf]
    have hget := get_after_update st (handle_append t1 st job).1 t1 t2 g _ post i
      { i with value := some (old ++ suf), length := (i.length + job.length) % 2 ^ 64 } hlg
      (by rw [happ, hkey]; simp) (by rw [hkey]; exact hik) hl2 hdead
    rw [hget]
    have hmod : (i.length + job.length) % 2 ^ 64 = i.length + job.length :=
      Nat.mod_eq_of_lt hsz
    refine ⟨by simp [herr], ?_, ?_, by simp, fun h => absurd h h0⟩
    · show List.take ((i.length + job.length) % 2 ^ 64) (old ++ suf) = old ++ suf
      rw [hmod, ← holdlen, ← hsuflen, ← List.length_append, List.take_length]
    · show (i.length + job.length) % 2 ^ 64 = old.length + suf.length
      rw [hmod, holdlen, hsuflen]

/-- C3 at a concrete input: two bytes appended to the item of `ex_store`. -/
theorem append_then_get_witness :
    job_bytes (handle_get 20 (handle_append 10 ex_store (ex_job CMD_APPEND [7, 8] 0 0)).1
      ex_get).2 = [1, 2, 3, 7, 8] :=
  (append_then_get ex_store 10 20 (ex_job CMD_APPEND [7, 8] 0 0) ex_get ex_item [1, 2, 3]
    [7, 8] (by decide) (by decide) rfl rfl (by decide) (by decide) rfl rfl rfl rfl
    (by decide) rfl rfl).2.1

/-- C4. In a bucket with unique keys, for a live item whose value buffer holds the
`length` bytes `old`, and a prepend job whose buffer holds the `length` bytes `pre`,
with the sum of the lengths below `2^64`: the fetch that follows the prepend comes
back without error, with the bytes `pre ++ old` and the sum of the two lengths.
With a zero length the prepend does what a fetch does to the store and leaves the
job, its error slot included, as it was. -/
theorem prepend_then_get (st : Store) (t1 t2 : Int) (job g : job_t) (i : item_t)
    (old pre : List Nat)
    (huniq : ((st (hash job.key)).map item_t.key).Nodup)
    (hmem : i ∈ st (hash job.key)) (hik : i.key = job.key) (hdead : i.dead = 0)
    (hl1 : expired t1 i = false) (hl2 : expired t2 i = false)
    (hold : i.value = some old) (holdlen : old.length = i.length)
    (hpre : job.value = some pre) (hprelen : pre.length = job.length)
    (hsz : i.length + job.length < 2 ^ 64)
    (hkey : g.key = job.key) (herr : g.error = none) :
    (handle_get t2 (handle_prepend t1 st job).1 g).2.error = none ∧
    job_bytes (handle_get t2 (handle_prepend t1 st job).1 g).2 = pre ++ old ∧
    (handle_get t2 (handle_prepend t1 st job).1 g).2.length = pre.length + old.length ∧
    (job.length = 0 → handle_prepend t1 st job = ((handle_get t1 st job).1, job)) := by
  obtain ⟨l1, post, -, hl, -, -⟩ :=
    lookup_of_mem t1 job.key (st (hash job.key)) i huniq hmem hik hl1
  have hlg : lookup t1 g.key (st (hash g.key)) =
      (l1.filter (fun x => !expired t1 x), some (i, post)) := by rw [hkey]; exact hl
  by_cases h0 : job.length = 0
  · have happ : handle_prepend t1 st job =
        (st.put (hash job.key) (l1.filter (fun x => !expired t1 x) ++ i :: post), job) := by
      simp [handle_prepend, hl, hdead, h0]
    have hpre0 : pre = [] := List.eq_nil_of_length_eq_zero (by omega)
    have hget := get_after_update st (handle_prepend t1 st job).1 t1 t2 g _ post i i hlg
      (by rw [happ, hkey]; simp) (by rw [hkey]; exact hik) hl2 hdead
    rw [hget]
    refine ⟨by simp [herr], by simp [job_bytes, hold, ← holdlen, hpre0],
      by simp [hpre0, holdlen], fun _ => ?_⟩
    rw [happ, handle_get_live t1 st job _ post i hl hdead]
  · have hbuf := prepend_buffer old pre (by omega) (by omega)
    have happ : (handle_prepend t1 st job).1 =
        st.put (hash job.key) (l1.filter (fun x => !expired t1 x) ++
          { i with value := some (pre ++ old),
                   length := (i.length + job.length) % 2 ^ 64 } :: post) := by
      rw [hprelen, holdlen] at hbuf
      norm_num at hbuf
      simp [handle_prepend, hl, hdead, h0, hold, hpre, hbuf]
    have hget := get_after_update st (handle_prepend t1 st job).1 t1 t2 g _ post i
      { i with value := some (pre ++ old), length := (i.length + job.length) % 2 ^ 64 } hlg
      (by rw [happ, hkey]; simp) (by rw [hkey]; exact hik) hl2 hdead
    rw [hget]
    have hmod : (i.length + job.length) % 2 ^ 64 = i.length + job.length :=
      Nat.mod_eq_of_lt hsz
    refine ⟨by simp [herr], ?_, ?_, fun h => absurd h h0⟩
    · show List.take ((i.length + job.length) % 2 ^ 64) (pre ++ old) = pre ++ old
      rw [hmod, ← holdlen, ← hprelen, Nat.add_comm, ← List.length_append, List.take_length]
    · show (i.length + job.length) % 2 ^ 64 = pre.length + old.length
      rw [hmod, holdlen, hprelen, Nat.add_comm]

/-- C4 at a concrete input: two bytes put in front of the item of `ex_store`. -/
theorem prepend_then_get_witness :
    job_bytes (handle_get 20 (handle_prepend 10 ex_store (ex_job CMD_PREPEND [7, 8] 0 0)).1
      ex_get).2 = [7, 8, 1, 2, 3] ∧
    (handle_get 20 (handle_prepend 10 ex_store (ex_job CMD_PREPEND [7, 8] 0 0)).1
      ex_get).2.length = 5 :=
  have h := prepend_then_get ex_store 10 20 (ex_job CMD_PREPEND [7, 8] 0 0) ex_get ex_item
    [1, 2, 3] [7, 8] (by decide) (by decide) rfl rfl (by decide) (by decide) rfl rfl rfl rfl
    (by decide) rfl rfl
  ⟨h.2.1, h.2.2.1⟩

/-- C5. When the bucket of the key holds an item with that key that is not expired,
`handle_add` sets the error `EXISTS`, whatever the job carries; the item is still in
the bucket with all its fields, the bucket holds no item it did not hold before, and
the other buckets are as they were.  (The item may be tombstoned or not.) -/
theorem add_exists (st : Store) (t : Int) (job : job_t) (i : item_t)
    (hmem : i ∈ st (hash job.key)) (hik : i.key = job.key)
    (hlive : expired t i = false) :
    (handle_add t st job).2.error = some "EXISTS" ∧
    i ∈ (handle_add t st job).1 (hash job.key) ∧
    (∀ x ∈ (handle_add t st job).1 (hash job.key), x ∈ st (hash job.key)) ∧
    (∀ h, h ≠ hash job.key → (handle_add t st job).1 h = st h) := by
  obtain ⟨pre, j, post, hl⟩ := lookup_some_of_mem t job.key _ i hmem hik hlive
  obtain ⟨h1, h2⟩ := lookup_keeps t job.key _ pre post j hl
  have hadd : handle_add t st job =
      (st.put (hash job.key) (pre ++ j :: post), { job with error := some "EXISTS" }) := by
    simp [handle_add, hl]
  rw [hadd]
  refine ⟨rfl, ?_, ?_, ?_⟩
  · simpa using h2 i hmem hlive
  · simpa using h1
  · intro h hh
    exact Store.put_other st _ h _ hh

/-- C5 at a concrete input: an add over the live item of `ex_store`. -/
theorem add_exists_witness :
    (handle_add 10 ex_store (ex_job CMD_ADD [7] 1 0)).2.error = some "EXISTS" ∧
    ex_item ∈ (handle_add 10 ex_store (ex_job CMD_ADD [7] 1 0)).1 97 :=
  have h := add_exists ex_store 10 (ex_job CMD_ADD [7] 1 0) ex_item (by decide) rfl
    (by decide)
  ⟨h.1, h.2.1⟩

/-- C6. `lookup` at clock `t` never returns an item whose exptime is non-zero and
before `t`; and in a bucket with unique keys, when the item of the sought key is
expired in that sense, `handle_get` fails with `NOT_FOUND` and the item is not in the
bucket afterwards. -/
theorem expired_invisible (t : Int) (k : Option (List Nat)) (l : List item_t)
    (huniq : (l.map item_t.key).Nodup) :
    (∀ pre i post, lookup t k l = (pre, some (i, post)) →
      ¬ (i.exptime ≠ 0 ∧ i.exptime < t)) ∧
    (∀ (st : Store) (job : job_t) (x : item_t), st (hash job.key) = l → job.key = k →
      x ∈ l → x.key = k → x.exptime ≠ 0 → x.exptime < t →
      (handle_get t st job).2.error = some "NOT_FOUND" ∧
      x ∉ (handle_get t st job).1 (hash job.key)) := by
  constructor
  · intro pre i post hl hexp
    have := (lookup_hit t k l pre post i hl).2.1
    simp [expired, hexp.1, hexp.2] at this
  · intro st job x hst hjk hx hxk hx0 hxt
    have hxe : expired t x = true := expired_true_of t x hx0 hxt
    have hothers : ∀ y ∈ l, expired t y = false → y.key ≠ k := by
      intro y hy hye hyk
      have hxy : y = x :=
        List.inj_on_of_nodup_map huniq hy hx (by rw [hyk, hxk])
      rw [hxy, hxe] at hye
      exact Bool.noConfusion hye
    have hl := lookup_miss t k l hothers
    rw [← hst, ← hjk] at hl
    rw [handle_get_miss t st job _ hl]
    refine ⟨rfl, ?_⟩
    simp only [Store.put_same]
    intro hmemf
    have := (List.mem_filter.1 hmemf).2
    simp [hxe] at this

/-- C6 at a concrete input: at clock 10 the item `ex_old` of `ex_store`, expired
since clock 4, is sought. -/
theorem expired_invisible_witness :
    (handle_get 10 ex_store { ex_get with key := some [1, 66] }).2.error = some "NOT_FOUND" ∧
    ex_old ∉ (handle_get 10 ex_store { ex_get with key := some [1, 66] }).1 97 :=
  (expired_invisible 10 (some [1, 66]) [ex_old, ex_item] (by decide)).2 ex_store
    { ex_get with key := some [1, 66] } ex_old rfl rfl (by decide) rfl (by decide) (by decide)

/-- C7, as stated, fails: after a delete at clock 10 that set the grace window
end to 100, a second delete at clock 20 that asks for 50 succeeds and moves the end of
the window to 50. -/
theorem second_delete_counterexample :
    (handle_delete 10 ex_store (ex_job CMD_DELETE [] 0 100)).2.error = none ∧
    (20 : Int) ≤ 100 ∧
    (handle_delete 20 (handle_delete 10 ex_store (ex_job CMD_DELETE [] 0 100)).1
      (ex_job CMD_DELETE [] 0 50)).2.error = none ∧
    (handle_delete 20 (handle_delete 10 ex_store (ex_job CMD_DELETE [] 0 100)).1
      (ex_job CMD_DELETE [] 0 50)).1 97 = [{ ex_item with dead := 1, exptime := 50 }] := by
  decide

/-- C7, amended. After a successful delete has tombstoned a key with grace
window end `G = job1.exptime`, a second delete of that key issued while the clock is
not past `G` and asking for an exptime later than `G` fails with `NOT_FOUND`, and the
first item of the bucket under that key is still the tombstone with window end `G`. -/
theorem second_delete (st : Store) (t1 t2 : Int) (job1 job2 : job_t)
    (hok : (handle_delete t1 st job1).2.error = none)
    (hkey : job2.key = job1.key)
    (hact : t2 ≤ job1.exptime)
    (hlater : job2.exptime > job1.exptime) :
    (handle_delete t2 (handle_delete t1 st job1).1 job2).2.error = some "NOT_FOUND" ∧
    ∃ pre i post,
      (handle_delete t2 (handle_delete t1 st job1).1 job2).1 (hash job1.key) =
        pre ++ i :: post ∧
      (∀ x ∈ pre, x.key ≠ job1.key) ∧ i.key = job1.key ∧ i.dead = 1 ∧
      i.exptime = job1.exptime := by
  rcases hl : lookup t1 job1.key (st (hash job1.key)) with ⟨pre, _ | ⟨i, post⟩⟩
  · simp [handle_delete, hl] at hok
  · by_cases hguard : i.dead ≠ 0 ∧ job1.exptime > i.exptime
    · rw [handle_delete_refused t1 st job1 pre post i hl hguard] at hok
      simp at hok
    · obtain ⟨hik, -, -⟩ := lookup_hit t1 job1.key _ pre post i hl
      have hpre : ∀ x ∈ pre, x.key ≠ job2.key := by
        intro x hx
        have := lookup_pre t1 job1.key (st (hash job1.key)) x (by rw [hl]; exact hx)
        rw [hkey]; exact this.2.2
      rw [handle_delete_marks t1 st job1 pre post i hl hguard]
      have hb : (st.put (hash job1.key)
          (pre ++ { i with dead := 1, exptime := job1.exptime } :: post)) (hash job2.key) =
          pre ++ { i with dead := 1, exptime := job1.exptime } :: post := by
        rw [hkey]; simp
      have hlk := handle_get_at t2 _ job2 pre post
        { i with dead := 1, exptime := job1.exptime } hb hpre (by rw [hkey]; exact hik)
        (expired_false_of _ _ (Or.inr hact))
      rw [handle_delete_refused t2 _ job2 _ post _ hlk ⟨by simp, hlater⟩]
      refine ⟨rfl, pre.filter (fun x => !expired t2 x),
        { i with dead := 1, exptime := job1.exptime }, post, ?_, ?_, hik, rfl, rfl⟩
      · rw [hkey]; simp
      · intro x hx
        rw [← hkey]
        exact hpre x (List.mem_of_mem_filter hx)

/-- C7, amended, at a concrete input: window end 100, second delete at clock 20
asking for 150. -/
theorem second_delete_witness :
    (handle_delete 20 (handle_delete 10 ex_store (ex_job CMD_DELETE [] 0 100)).1
      (ex_job CMD_DELETE [] 0 150)).2.error = some "NOT_FOUND" :=
  (second_delete ex_store 10 20 (ex_job CMD_DELETE [] 0 100) (ex_job CMD_DELETE [] 0 150)
    (by decide) rfl (by decide) (by decide)).1

/-- C8, as stated, fails in both directions on a tombstone with window end 100
found at clock 10: a delete asking for 50 (the window ends after the requested
exptime) succeeds and sets the end to 50, and a delete asking for 150 fails with
`NOT_FOUND` and leaves the item as it is. -/
theorem delete_guard_counterexample :
    lookup 10 (some [97]) (ex_tomb_store 97) = ([], some (ex_tomb, [])) ∧
    ex_tomb.dead ≠ 0 ∧
    ex_tomb.exptime > (ex_job CMD_DELETE [] 0 50).exptime ∧
    (handle_delete 10 ex_tomb_store (ex_job CMD_DELETE [] 0 50)).2.error = none ∧
    (handle_delete 10 ex_tomb_store (ex_job CMD_DELETE [] 0 50)).1 97 =
      [{ ex_tomb with exptime := 50 }] ∧
    ¬ (ex_tomb.exptime > (ex_job CMD_DELETE [] 0 150).exptime) ∧
    (handle_delete 10 ex_tomb_store (ex_job CMD_DELETE [] 0 150)).2.error =
      some "NOT_FOUND" ∧
    (handle_delete 10 ex_tomb_store (ex_job CMD_DELETE [] 0 150)).1 97 = [ex_tomb] := by
  decide

/-- C8, amended. For every item `lookup` finds, `handle_delete` fails with
`NOT_FOUND` and leaves the item as it is when the item is tombstoned and the requested
exptime is later than the item's (`job.exptime > item.exptime`); in every other case
it marks the item tombstoned and sets its exptime to the requested one, and sets no
error. -/
theorem delete_guard (st : Store) (t : Int) (job : job_t) (pre post : List item_t)
    (i : item_t) (hl : lookup t job.key (st (hash job.key)) = (pre, some (i, post))) :
    (i.dead ≠ 0 ∧ job.exptime > i.exptime →
      handle_delete t st job =
        (st.put (hash job.key) (pre ++ i :: post),
          { job with error := some "NOT_FOUND" })) ∧
    (¬ (i.dead ≠ 0 ∧ job.exptime > i.exptime) →
      handle_delete t st job =
        (st.put (hash job.key) (pre ++ { i with dead := 1, exptime := job.exptime } :: post),
          job)) :=
  ⟨handle_delete_refused t st job pre post i hl, handle_delete_marks t st job pre post i hl⟩

/-- C8, amended, at a concrete input: the tombstone of `ex_tomb_store` with window
end 100, a delete asking for 150 and one asking for 50. -/
theorem delete_guard_witness :
    (handle_delete 10 ex_tomb_store (ex_job CMD_DELETE [] 0 150)).2.error =
      some "NOT_FOUND" ∧
    (handle_delete 10 ex_tomb_store (ex_job CMD_DELETE [] 0 50)).2.error = none :=
  have h := delete_guard ex_tomb_store 10 (ex_job CMD_DELETE [] 0 150) [] [] ex_tomb
    (by decide)
  have h2 := delete_guard ex_tomb_store 10 (ex_job CMD_DELETE [] 0 50) [] [] ex_tomb
    (by decide)
  ⟨by rw [h.1 (by decide)], by rw [h2.2 (by decide)]; rfl⟩

/-- C9, the code at a failing input. At clock 1000 the line `set k 0 100 1` gives
a job whose exptime is 100, not 1100; the item is stored, and a fetch at clock 1001,
before 1100, answers `NOT_FOUND`.  The delete branch does add the clock. -/
theorem store_exptime_kept_relative :
    (parse_args 1000 no_garbage (bytes "set k 0 100 1")).error = none ∧
    (parse_args 1000 no_garbage (bytes "set k 0 100 1")).cmd = CMD_SET ∧
    (parse_args 1000 no_garbage (bytes "set k 0 100 1")).exptime = 100 ∧
    (parse_args 1000 no_garbage (bytes "set k 0 100 1")).exptime ≠ 1000 + 100 ∧
    (handler 1000 1000 no_garbage init (bytes "set k 0 100 1") (bytes "x")).sent =
      [reply_t.line "STORED"] ∧
    (handler 1001 1001 no_garbage
      (handler 1000 1000 no_garbage init (bytes "set k 0 100 1") (bytes "x")).store
      (bytes "get k") []).sent = [reply_t.line "NOT_FOUND"] ∧
    (parse_args 1000 no_garbage (bytes "delete k 100")).exptime = 1000 + 100 := by
  decide

/-- C10. On a line with a store command the job's length is the length argument
of the line (the first, second or third number, by how many numbers were read).  When
it exceeds `MAX_LENGTH`, `parse_args` returns the error `NOT_STORED` and `handler`
reads no body, submits nothing and leaves the store as it is.  When it is at most
`MAX_LENGTH` (4096 included) and at least one number was read, the job has no
error. -/
theorem length_cap (tp tw : Int) (args0 : Nat → Nat) (st : Store)
    (buf input command key rest : List Nat)
    (hscan : scan_head (c_str buf) = some (command, key, rest))
    (hcmd : store_command command = true) :
    (parse_args tp args0 buf).length =
      (if sscanf_count rest (scan_lds 5 rest) = 1 then to_u64 ((scan_lds 5 rest).getD 0 0)
       else if sscanf_count rest (scan_lds 5 rest) = 2 then
         to_u64 ((scan_lds 5 rest).getD 1 0)
       else if sscanf_count rest (scan_lds 5 rest) ≥ 3 then
         to_u64 ((scan_lds 5 rest).getD 2 0)
       else 0) ∧
    (MAX_LENGTH < (parse_args tp args0 buf).length →
      (parse_args tp args0 buf).error = some "NOT_STORED" ∧
      (handler tp tw args0 st buf input).input = input ∧
      (handler tp tw args0 st buf input).submitted = false ∧
      (handler tp tw args0 st buf input).store = st) ∧
    ((parse_args tp args0 buf).length ≤ MAX_LENGTH →
      1 ≤ sscanf_count rest (scan_lds 5 rest) →
      (parse_args tp args0 buf).error = none) := by
  have hpa := parse_args_store tp args0 buf command key rest hscan hcmd
  have hc := parse_store_cmd args0 command rest { job_zero with key := some key }
  have hne : (parse_store args0 command rest { job_zero with key := some key }).cmd ≠ 0 := by
    rw [hc]; exact store_cmd_ne_zero command
  have hlen : (sanity (parse_store args0 command rest
      { job_zero with key := some key })).length =
      (parse_store args0 command rest { job_zero with key := some key }).length := by
    simp only [sanity]
    split_ifs <;> rfl
  refine ⟨?_, ?_, ?_⟩
  · rw [hpa, hlen]
    have hcount : sscanf_count rest (scan_lds 5 rest) ≤ (scan_lds 5 rest).length := by
      unfold sscanf_count
      split_ifs <;> omega
    simp only [parse_store, store_args]
    split_ifs <;> first | rfl | (exfalso; omega)
  · intro hbig
    have herr : (parse_args tp args0 buf).error = some "NOT_STORED" := by
      rw [hpa] at hbig ⊢
      rw [hlen] at hbig
      simp only [sanity, if_neg hne, gt_iff_lt, if_pos hbig]
    refine ⟨herr, ?_, ?_, ?_⟩ <;> simp [handler, herr]
  · intro hsmall hargc
    rw [hpa] at hsmall ⊢
    rw [hlen] at hsmall
    simp only [sanity, if_neg hne, gt_iff_lt, if_neg (not_lt.2 hsmall)]
    simp only [parse_store]
    split_ifs <;> first | rfl | (exfalso; omega)

/-- C10 at concrete inputs: the lines `set k 0 0 5000` and `set k 0 0 4096`. -/
theorem length_cap_witness :
    (parse_args 1000 no_garbage (bytes "set k 0 0 5000")).length = 5000 ∧
    (parse_args 1000 no_garbage (bytes "set k 0 0 5000")).error = some "NOT_STORED" ∧
    (handler 1000 1000 no_garbage ex_store (bytes "set k 0 0 5000") (bytes "abc")).input =
      bytes "abc" ∧
    (handler 1000 1000 no_garbage ex_store (bytes "set k 0 0 5000")
      (bytes "abc")).submitted = false ∧
    (parse_args 1000 no_garbage (bytes "set k 0 0 4096")).length = 4096 ∧
    (parse_args 1000 no_garbage (bytes "set k 0 0 4096")).error = none :=
  have h := length_cap 1000 1000 no_garbage ex_store (bytes "set k 0 0 5000") (bytes "abc")
    (bytes "set") (bytes "k") (bytes " 0 0 5000") (by decide) (by decide)
  have hlen : (parse_args 1000 no_garbage (bytes "set k 0 0 5000")).length = 5000 := by
    decide
  have hbig := h.2.1 (by rw [hlen]; decide)
  have h2 := length_cap 1000 1000 no_garbage ex_store (bytes "set k 0 0 4096") (bytes "abc")
    (bytes "set") (bytes "k") (bytes " 0 0 4096") (by decide) (by decide)
  have hlen2 : (parse_args 1000 no_garbage (bytes "set k 0 0 4096")).length = 4096 := by
    decide
  ⟨hlen, hbig.1, hbig.2.1, hbig.2.2.1, hlen2, h2.2.2 (by rw [hlen2]; decide) (by decide)⟩

/-- C11. For each of `handle_replace`, `handle_append`, `handle_prepend` and
`handle_get`: when every item of the key's bucket that carries the key and is not
expired is tombstoned (so the key is absent or tombstoned), the job's error is
`NOT_FOUND`, every bucket afterwards is a sublist of what it was (no item is new or
changed), and every item of the store that is not expired, the tombstone included,
is still in its bucket. -/
theorem not_found_frame (st : Store) (t : Int) (job : job_t)
    (hd : ∀ x ∈ st (hash job.key), x.key = job.key → expired t x = false → x.dead ≠ 0) :
    ∀ f ∈ [handle_replace, handle_append, handle_prepend, handle_get],
      (f t st job).2.error = some "NOT_FOUND" ∧
      (∀ h, ((f t st job).1 h).Sublist (st h)) ∧
      (∀ h x, x ∈ st h → expired t x = false → x ∈ (f t st job).1 h) := by
  have hfr := put_scanned_frame t st job.key
  have key : ∀ f : Int → Store → job_t → Store × job_t,
      (∀ pre, lookup t job.key (st (hash job.key)) = (pre, none) →
        f t st job = (st.put (hash job.key) pre, { job with error := some "NOT_FOUND" })) →
      (∀ pre i post, lookup t job.key (st (hash job.key)) = (pre, some (i, post)) →
        i.dead ≠ 0 →
        f t st job = (st.put (hash job.key) (pre ++ i :: post),
          { job with error := some "NOT_FOUND" })) →
      (f t st job).2.error = some "NOT_FOUND" ∧
      (∀ h, ((f t st job).1 h).Sublist (st h)) ∧
      (∀ h x, x ∈ st h → expired t x = false → x ∈ (f t st job).1 h) := by
    intro f h1 h2
    rcases hl : lookup t job.key (st (hash job.key)) with ⟨pre, _ | ⟨i, post⟩⟩
    · rw [h1 pre hl]
      have : scanned (lookup t job.key (st (hash job.key))) = pre := by rw [hl]; rfl
      rw [this] at hfr
      exact ⟨rfl, hfr.1, hfr.2⟩
    · have hdi : i.dead ≠ 0 := by
        obtain ⟨e1, e2, e3⟩ := lookup_hit t job.key _ pre post i hl
        exact hd i e3 e1 e2
      rw [h2 pre i post hl hdi]
      have : scanned (lookup t job.key (st (hash job.key))) = pre ++ i :: post := by
        rw [hl]; rfl
      rw [this] at hfr
      exact ⟨rfl, hfr.1, hfr.2⟩
  intro f hf
  simp only [List.mem_cons, List.mem_singleton, List.not_mem_nil, or_false] at hf
  rcases hf with rfl | rfl | rfl | rfl
  · exact key _ (fun pre hl => by simp [handle_replace, hl])
      (fun pre i post hl hdi => by simp [handle_replace, hl, hdi])
  · exact key _ (fun pre hl => by simp [handle_append, hl])
      (fun pre i post hl hdi => by simp [handle_append, hl, hdi])
  · exact key _ (fun pre hl => by simp [handle_prepend, hl])
      (fun pre i post hl hdi => by simp [handle_prepend, hl, hdi])
  · exact key _ (fun pre hl => by simp [handle_get, hl])
      (fun pre i post hl hdi => by simp [handle_get, hl, hdi])

/-- C11 at a concrete input: an append to the tombstone of `ex_tomb_store`. -/
theorem not_found_frame_witness :
    (handle_append 10 ex_tomb_store (ex_job CMD_APPEND [7] 0 0)).2.error = some "NOT_FOUND" ∧
    ex_tomb ∈ (handle_append 10 ex_tomb_store (ex_job CMD_APPEND [7] 0 0)).1 97 :=
  have h := not_found_frame ex_tomb_store 10 (ex_job CMD_APPEND [7] 0 0) (by decide)
    handle_append (by simp)
  ⟨h.1, h.2.2 97 ex_tomb (by decide) (by decide)⟩

/-- C12. In a bucket with unique keys, for an item under the key that is live (not
tombstoned, not expired at the clock of the replace nor at the clock of the fetch)
and a replace job without error whose buffer holds the `length` bytes `v`:
`handle_replace` sets no error, the item is in the bucket with the job's value and
length and with its own key, exptime, dead marker and flags, and the fetch that
follows returns `v`, the job's length and the item's flags. -/
theorem replace_then_get (st : Store) (t1 t2 : Int) (job g : job_t) (i : item_t)
    (v : List Nat)
    (huniq : ((st (hash job.key)).map item_t.key).Nodup)
    (hmem : i ∈ st (hash job.key)) (hik : i.key = job.key) (hdead : i.dead = 0)
    (hl1 : expired t1 i = false) (hl2 : expired t2 i = false)
    (hv : job.value = some v) (hlen : v.length = job.length)
    (hjerr : job.error = none)
    (hkey : g.key = job.key) (herr : g.error = none) :
    (handle_replace t1 st job).2.error = none ∧
    { i with value := job.value, length := job.length } ∈
      (handle_replace t1 st job).1 (hash job.key) ∧
    (handle_get t2 (handle_replace t1 st job).1 g).2.error = none ∧
    job_bytes (handle_get t2 (handle_replace t1 st job).1 g).2 = v ∧
    (handle_get t2 (handle_replace t1 st job).1 g).2.length = job.length ∧
    (handle_get t2 (handle_replace t1 st job).1 g).2.flags = i.flags := by
  obtain ⟨l1, post, -, hl, -, -⟩ :=
    lookup_of_mem t1 job.key (st (hash job.key)) i huniq hmem hik hl1
  have hlg : lookup t1 g.key (st (hash g.key)) =
      (l1.filter (fun x => !expired t1 x), some (i, post)) := by rw [hkey]; exact hl
  have hrep : handle_replace t1 st job =
      (st.put (hash job.key) (l1.filter (fun x => !expired t1 x) ++
        { i with value := job.value, length := job.length } :: post),
        { job with value := none }) := by
    simp [handle_replace, hl, hdead]
  have hget := get_after_update st (handle_replace t1 st job).1 t1 t2 g _ post i
    { i with value := job.value, length := job.length } hlg
    (by rw [hrep, hkey]; simp) (by rw [hkey]; exact hik) hl2 hdead
  rw [hget, hrep]
  refine ⟨hjerr, by simp, herr, ?_, rfl, rfl⟩
  simp [job_bytes, hv, ← hlen]

/-- C12 at a concrete input: a replace of the item of `ex_store` by a job that
carries the flags 5 and the exptime 50. -/
theorem replace_then_get_witness :
    (handle_replace 10 ex_store (ex_job CMD_REPLACE [7, 8] 5 50)).2.error = none ∧
    { ex_item with value := some [7, 8], length := 2 } ∈
      (handle_replace 10 ex_store (ex_job CMD_REPLACE [7, 8] 5 50)).1 97 ∧
    job_bytes (handle_get 20 (handle_replace 10 ex_store (ex_job CMD_REPLACE [7, 8] 5 50)).1
      ex_get).2 = [7, 8] ∧
    (handle_get 20 (handle_replace 10 ex_store (ex_job CMD_REPLACE [7, 8] 5 50)).1
      ex_get).2.flags = 9 :=
  have h := replace_then_get ex_store 10 20 (ex_job CMD_REPLACE [7, 8] 5 50) ex_get ex_item
    [7, 8] (by decide) (by decide) rfl rfl (by decide) (by decide) rfl rfl rfl rfl rfl
  ⟨h.1, h.2.1, h.2.2.2.1, h.2.2.2.2.2⟩

/-- C13. In a bucket with unique keys, when the key's item is tombstoned and not
expired at the clock of the call (exptime 0 or not before the clock), `handle_add`
fails with `EXISTS`, the job keeps its value buffer, the bucket is a sublist of what
it was (nothing is stored), and a fetch of the key that follows, at any clock, fails
with `NOT_FOUND`. -/
theorem add_on_tombstone (st : Store) (t1 t2 : Int) (job g : job_t) (i : item_t)
    (huniq : ((st (hash job.key)).map item_t.key).Nodup)
    (hmem : i ∈ st (hash job.key)) (hik : i.key = job.key) (hdead : i.dead ≠ 0)
    (hl1 : i.exptime = 0 ∨ t1 ≤ i.exptime)
    (hkey : g.key = job.key) :
    (handle_add t1 st job).2.error = some "EXISTS" ∧
    (handle_add t1 st job).2.value = job.value ∧
    ((handle_add t1 st job).1 (hash job.key)).Sublist (st (hash job.key)) ∧
    (handle_get t2 (handle_add t1 st job).1 g).2.error = some "NOT_FOUND" := by
  obtain ⟨l1, post, hsplit, hl, hl1k, hpostk⟩ :=
    lookup_of_mem t1 job.key (st (hash job.key)) i huniq hmem hik
      (expired_false_of t1 i hl1)
  have hadd : handle_add t1 st job =
      (st.put (hash job.key) (l1.filter (fun x => !expired t1 x) ++ i :: post),
        { job with error := some "EXISTS" }) := by
    simp [handle_add, hl]
  rw [hadd]
  refine ⟨rfl, rfl, ?_, ?_⟩
  · dsimp only
    rw [Store.put_same]
    conv_rhs => rw [hsplit]
    exact List.Sublist.append (List.filter_sublist l1) (List.Sublist.refl _)
  · have hpre : ∀ x ∈ l1.filter (fun x => !expired t1 x), x.key ≠ g.key := by
      intro x hx
      rw [hkey]
      exact hl1k x (List.mem_of_mem_filter hx)
    have hb : (st.put (hash job.key) (l1.filter (fun x => !expired t1 x) ++ i :: post))
        (hash g.key) = l1.filter (fun x => !expired t1 x) ++ i :: post := by
      rw [hkey]; simp
    dsimp only
    by_cases hexp : expired t2 i = true
    · apply handle_get_none
      rw [hb, lookup_append t2 g.key _ _ hpre, lookup_cons_expired t2 g.key _ post hexp]
      exact lookup_absent t2 g.key post (by rw [hkey]; exact hpostk)
    · have hexp' : expired t2 i = false := by simpa using hexp
      have hlk := handle_get_at t2 _ g _ post i hb hpre (by rw [hkey]; exact hik) hexp'
      rw [handle_get_dead _ _ _ _ _ _ hlk hdead]

/-- C13 at a concrete input: an add over the tombstone of `ex_tomb_store`. -/
theorem add_on_tombstone_witness :
    (handle_add 10 ex_tomb_store (ex_job CMD_ADD [7] 0 0)).2.error = some "EXISTS" ∧
    (handle_get 20 (handle_add 10 ex_tomb_store (ex_job CMD_ADD [7] 0 0)).1
      ex_get).2.error = some "NOT_FOUND" :=
  have h := add_on_tombstone ex_tomb_store 10 20 (ex_job CMD_ADD [7] 0 0) ex_get ex_tomb
    (by decide) (by decide) rfl (by decide) (by decide) rfl
  ⟨h.1, h.2.2.2⟩

/-- C14. With the table `handlers` that `init` fills, for a job whose kind is an index
of the table and whose error slot does not hold `NOT_IMPLEMENT` beforehand, the
dispatch of `worker` leaves the error `NOT_IMPLEMENT` exactly when the kind is none of
set, add, replace, append, prepend, get (gets), delete, stat, 0ops; an incr, decr or
cas job gets `NOT_IMPLEMENT` and the store is as it was. -/
theorem dispatch_not_implement (t : Int) (st : Store) (job : job_t)
    (_hcmd : job.cmd < CMD_MAX) (herr : job.error ≠ some "NOT_IMPLEMENT") :
    ((worker_run t st job).2.error = some "NOT_IMPLEMENT" ↔
      job.cmd ∉ [CMD_SET, CMD_ADD, CMD_REPLACE, CMD_APPEND, CMD_PREPEND, CMD_GET,
        CMD_DELETE, CMD_STAT, CMD_0OPS]) ∧
    (job.cmd ∈ [CMD_INCR, CMD_DECR, CMD_CAS] →
      (worker_run t st job).2.error = some "NOT_IMPLEMENT" ∧
      (worker_run t st job).1 = st) := by
  have hnone : job.cmd ∉ [CMD_SET, CMD_ADD, CMD_REPLACE, CMD_APPEND, CMD_PREPEND, CMD_GET,
      CMD_DELETE, CMD_STAT, CMD_0OPS] → handlers job.cmd = none := by
    intro h
    simp only [List.mem_cons, List.mem_singleton, List.not_mem_nil, or_false, not_or] at h
    obtain ⟨h1, h2, h3, h4, h5, h6, h7, h8, h9⟩ := h
    simp [handlers, h1, h2, h3, h4, h5, h6, h7, h8, h9]
  have hsome : job.cmd ∈ [CMD_SET, CMD_ADD, CMD_REPLACE, CMD_APPEND, CMD_PREPEND, CMD_GET,
      CMD_DELETE, CMD_STAT, CMD_0OPS] → ∃ f, handlers job.cmd = some f := by
    intro h
    simp only [List.mem_cons, List.mem_singleton, List.not_mem_nil, or_false] at h
    unfold handlers
    split_ifs <;> first | exact ⟨_, rfl⟩ | (exfalso; tauto)
  constructor
  · constructor
    · intro h hmem
      obtain ⟨f, hf⟩ := hsome hmem
      have := handler_error_ne t st job f hf herr
      simp only [worker_run, hf] at h
      exact this h
    · intro h
      simp [worker_run, hnone h]
  · intro h
    have hno : job.cmd ∉ [CMD_SET, CMD_ADD, CMD_REPLACE, CMD_APPEND, CMD_PREPEND, CMD_GET,
        CMD_DELETE, CMD_STAT, CMD_0OPS] := by
      simp only [List.mem_cons, List.mem_singleton, List.not_mem_nil, or_false] at h
      rcases h with h | h | h <;> rw [h] <;> decide
    simp [worker_run, hnone hno]

/-- C14 at a concrete input: an incr job. -/
theorem dispatch_not_implement_witness :
    (worker_run 10 ex_store { ex_get with cmd := CMD_INCR }).2.error =
      some "NOT_IMPLEMENT" ∧
    (worker_run 10 ex_store { ex_get with cmd := CMD_INCR }).1 = ex_store :=
  (dispatch_not_implement 10 ex_store { ex_get with cmd := CMD_INCR } (by decide)
    (by decide)).2 (by decide)

/-- C15. In every scheduler state reached from `init` by an interleaving of the
locked sections of `put_job`, `get_job`, `done_job` (and `stop`), where `done_job` is
run by a worker on the job `get_job` gave it, the counters satisfy
`0 <= job_all - job_done <= NWORKER`; the difference is the number of jobs in the slot
or held by a worker; and a pass of `put_job` that finds a job in the slot changes
nothing, so no unclaimed job is overwritten. -/
theorem in_flight_bound (evs : List event) :
    0 ≤ (sched_run sched_init evs).job_all - (sched_run sched_init evs).job_done ∧
    (sched_run sched_init evs).job_all - (sched_run sched_init evs).job_done ≤ NWORKER ∧
    (sched_run sched_init evs).job_all - (sched_run sched_init evs).job_done =
      in_flight (sched_run sched_init evs) ∧
    ∀ job, (sched_run sched_init evs).cur_job ≠ none →
      put_job (sched_run sched_init evs) job = sched_run sched_init evs := by
  obtain ⟨h1, h2⟩ := sched_run_inv evs sched_init (by decide) (by decide)
  refine ⟨?_, h2, h1, ?_⟩
  · rw [h1]
    simp only [in_flight]
    split_ifs <;> omega
  · intro job hslot
    simp [put_job, hslot]

/-- C16. From the empty table of `init`, after every finite sequence of calls of
`handle_set`, `handle_add`, `handle_replace`, `handle_append`, `handle_prepend`,
`handle_get` and `handle_delete`, each with any clock and any job, no bucket holds two
items with equal keys, and every item is in the bucket that `hash` gives its key. -/
theorem unique_keys_reachable
    (calls : List ((Int → Store → job_t → Store × job_t) × Int × job_t))
    (hc : ∀ c ∈ calls, c.1 ∈ [handle_set, handle_add, handle_replace, handle_append,
      handle_prepend, handle_get, handle_delete]) :
    ∀ h, (((run_calls init calls) h).map item_t.key).Nodup ∧
      ∀ x ∈ (run_calls init calls) h, hash x.key = h := by
  have gen : ∀ (cs : List ((Int → Store → job_t → Store × job_t) × Int × job_t))
      (st : Store),
      (∀ c ∈ cs, c.1 ∈ [handle_set, handle_add, handle_replace, handle_append,
        handle_prepend, handle_get, handle_delete]) →
      (∀ h, ((st h).map item_t.key).Nodup ∧ ∀ x ∈ st h, hash x.key = h) →
      ∀ h, (((run_calls st cs) h).map item_t.key).Nodup ∧
        ∀ x ∈ (run_calls st cs) h, hash x.key = h := by
    intro cs
    induction cs with
    | nil => intro st _ hinv; exact hinv
    | cons c rest ih =>
      intro st hcs hinv
      exact ih _ (fun c' hc' => hcs c' (List.mem_cons_of_mem _ hc'))
        (handler_keeps_unique c.2.1 st c.2.2 c.1 (hcs c (List.mem_cons_self _ _)) hinv)
  exact gen calls init hc (fun h => ⟨by simp [init], by simp [init]⟩)

/-- C16 at a concrete input: a set and an add of the same key. -/
theorem unique_keys_reachable_witness :
    (((run_calls init [(handle_set, 10, ex_job CMD_SET [1] 0 0),
      (handle_add, 11, ex_job CMD_ADD [2] 0 0)]) 97).map item_t.key).Nodup :=
  (unique_keys_reachable [(handle_set, 10, ex_job CMD_SET [1] 0 0),
    (handle_add, 11, ex_job CMD_ADD [2] 0 0)]
    (by intro c hc
        simp only [List.mem_cons, List.mem_singleton, List.not_mem_nil, or_false] at hc
        rcases hc with rfl | rfl <;> simp) 97).1

/-- C17. On the lists as linked nodes, from the sentinel-only buckets of `init`,
every finite sequence of jobs run by their handlers, each with any clock, returns
without a call of `fatal` (and `lookup` ends within one pass per allocated node and
one for the sentinel).  Afterwards every bucket's list is a ring: `next` leads from
the sentinel through the item nodes `A h` back to the sentinel and `prev` leads back;
every node `n` of the ring, the sentinel included, has `n.prev.next == n` and
`n.next.prev == n`; and the items read along `next` from the sentinel are the bucket
that the same jobs leave in the table.  `_unlink` and `insert` keep the rings (`unlink_ok`,
`insert_ok`). -/
theorem lists_stay_linked (calls : List (Int × job_t)) :
    ∃ (hp : heap_t) (A : Nat → List Nat), p_run heap_init calls = Except.ok hp ∧
      ∀ h, h < HTABLE_SIZE →
        links hp.next hp.prev h (A h) h ∧
        (∀ n ∈ h :: A h, hp.next (hp.prev n) = n ∧ hp.prev (hp.next n) = n) ∧
        p_items hp h (hp.live.length + 1) (hp.next h) = run_jobs init calls h := by
  obtain ⟨hp, A, hres, hr⟩ := p_run_sim calls heap_init (fun _ => []) init heap_init_repr
  exact ⟨hp, A, hres, fun h hh =>
    ⟨hr.1.1 h hh, links_node hp.next hp.prev h (A h) (hr.1.1 h hh),
      p_items_repr hp A _ hr h hh⟩⟩

/-- C18. For every store, every two distinct keys, every handler among set, add,
replace, append, prepend, get and delete run on the first key at clock `t`, and
every clock `t2` not before `t`: the job that `handle_get` returns for the second key
at `t2` (error, value, length, flags) is the same after the handler as before it,
also when both keys share a bucket and when the scan purged expired items.  No
uniqueness of keys is needed. -/
theorem other_key_frame (st : Store) (t t2 : Int) (job g : job_t)
    (f : Int → Store → job_t → Store × job_t)
    (hf : f ∈ [handle_set, handle_add, handle_replace, handle_append, handle_prepend,
      handle_get, handle_delete])
    (hne : g.key ≠ job.key) (ht : t ≤ t2) :
    (handle_get t2 (f t st job).1 g).2 = (handle_get t2 st g).2 := by
  apply get_other_bucket
  by_cases hh : hash g.key = hash job.key
  · have hpf : ∀ x : item_t, x.key = job.key →
        (!expired t2 x && decide (x.key = g.key)) = false := by
      intro x hx
      have : ¬ x.key = g.key := by rw [hx]; exact fun h => hne h.symm
      simp [this]
    rcases handler_shape t st job f hf with
      ⟨pre, hl, hres⟩ | ⟨pre, i, post, j, hl, hjk, hres⟩
    · have hpre : pre = (st (hash job.key)).filter (fun x => !expired t x) := by
        have := lookup_none t job.key (st (hash job.key)) (by rw [hl])
        rw [hl] at this
        exact this
      rcases hres with hres | ⟨i0, hk0, hres⟩
      · rw [hres, hh, Store.put_same, hpre]
        exact filter_live_purged t t2 g.key _ ht
      · rw [hres, hh, Store.put_same, List.filter_cons, hpf i0 hk0, hpre]
        simpa using filter_live_purged t t2 g.key _ ht
    · obtain ⟨hik, -, -⟩ := lookup_hit t job.key _ pre post i hl
      obtain ⟨l1, hsplit, hpre⟩ := lookup_split t job.key _ pre post i hl
      rw [hres, hh, Store.put_same, hsplit, hpre]
      simp only [List.filter_append, List.filter_cons, hpf j (hjk.trans hik), hpf i hik]
      rw [filter_live_purged t t2 g.key l1 ht]
      simp
  · rcases handler_shape t st job f hf with
      ⟨pre, hl, hres | ⟨i0, hk0, hres⟩⟩ | ⟨pre, i, post, j, hl, hjk, hres⟩ <;>
      rw [hres, Store.put_other st _ _ _ hh]

/-- C18 at a concrete input: a delete of the key `a` at clock 10, which purges
`ex_old`, and a fetch of the key of `ex_old` at clock 10. -/
theorem other_key_frame_witness :
    (handle_get 10 (handle_delete 10 ex_store (ex_job CMD_DELETE [] 0 50)).1
      { ex_get with key := some [1, 66] }).2 =
    (handle_get 10 ex_store { ex_get with key := some [1, 66] }).2 :=
  other_key_frame ex_store 10 10 (ex_job CMD_DELETE [] 0 50)
    { ex_get with key := some [1, 66] } handle_delete (by simp) (by decide) (by decide)

/-- C19, the code at a failing input. The line `set k 5 0 1` carries exactly three
numbers; parsed while the slots `args[3]` and `args[4]` hold 7 and 1, it gives a job
with the flags, exptime and length of the line but with `noreply = 1` and the cas
token 7, and `handler` submits the job and sends no answer.  With zero in the slots
the same line gives `noreply = 0` and the answer `STORED`. -/
theorem three_args_read_stack :
    (parse_args 1000 ex_garbage (bytes "set k 5 0 1")).error = none ∧
    (parse_args 1000 ex_garbage (bytes "set k 5 0 1")).flags = 5 ∧
    (parse_args 1000 ex_garbage (bytes "set k 5 0 1")).exptime = 0 ∧
    (parse_args 1000 ex_garbage (bytes "set k 5 0 1")).length = 1 ∧
    (parse_args 1000 ex_garbage (bytes "set k 5 0 1")).noreply = 1 ∧
    (parse_args 1000 ex_garbage (bytes "set k 5 0 1")).casunique = 7 ∧
    (handler 1000 1000 ex_garbage init (bytes "set k 5 0 1") (bytes "x")).submitted = true ∧
    (handler 1000 1000 ex_garbage init (bytes "set k 5 0 1") (bytes "x")).sent = [] ∧
    (parse_args 1000 no_garbage (bytes "set k 5 0 1")).noreply = 0 ∧
    (handler 1000 1000 no_garbage init (bytes "set k 5 0 1") (bytes "x")).sent =
      [reply_t.line "STORED"] := by
  decide

/-- C20. For every key, given by its bytes before the NUL, `hash` returns an index
below `HTABLE_SIZE` that equals the unbounded sum of `b_i * 31 ^ (n - 1 - i)` reduced
modulo 4096; the empty key and the absent key hash to 0. -/
theorem hash_value (a : List Nat) :
    hash (some a) < HTABLE_SIZE ∧
    hash (some a) = hash_sum a % 4096 ∧
    hash (some []) = 0 ∧ hash none = 0 := by
  refine ⟨?_, ?_, rfl, rfl⟩
  · exact Nat.mod_lt _ (by decide)
  · have h := hash_fold a 0
    simp only [Nat.zero_mul, Nat.zero_add] at h
    exact h

end Jeap
